import Mathlib

/-!
Verification of the btorsim core (BTOR2 model simulator and witness checker)
against its natural-language specification.

The development shallowly embeds the two C translation units of the core:

* `btorsimbv.c` — the arbitrary-width bit-vector library.  A C value is a
  `width` together with an array of `len = ceil(width / 32)` 32-bit words,
  most significant word first.  The embedding keeps the `width` and reads the
  whole backing array as one natural number `bits` (so "representation bit at
  position `p`" is `bits.testBit p`); word-wise C loops are rendered as the
  arithmetic or bitwise operation they perform on that number.
* `btorsim.c` — the lazy memoising evaluator, the step/transition driver and
  the witness parser/checker, embedded as pure state-passing functions with
  explicit fuel for the C loops, `Option`/`Except` for `die`/`parse_error`.
-/

namespace Btorsim

/-- Bit-vector value of `btorsimbv.c`: `width` is the declared bit width,
`bits` is the numeric value of the backing array of 32-bit words read as a
single natural number (word 0, the first, is most significant). -/
structure BtorSimBitVector where
  width : Nat
  bits : Nat
deriving DecidableEq, Repr

abbrev BV := BtorSimBitVector

/-- Number of 32-bit backing words of a bit vector of width `bw`; sizing
computed by `btorsim_bv_new`: `i = bw / 32; if (bw % 32 > 0) i += 1`. -/
def lenWords (bw : Nat) : Nat := bw / 32 + (if bw % 32 > 0 then 1 else 0)

/-- `set_rem_bits_to_zero`: when `width` is not a multiple of 32, mask the top
word so that the representation bits at positions `width` and above are
cleared; numerically, reduce `bits` modulo `2 ^ width`. -/
def set_rem_bits_to_zero (bv : BV) : BV :=
  if bv.width ≠ 32 * lenWords bv.width then ⟨bv.width, bv.bits % 2 ^ bv.width⟩ else bv

/-- `btorsim_bv_new`: fresh zeroed vector of width `bw` (the C asserts
`bw > 0`). -/
def btorsim_bv_new (bw : Nat) : BV := ⟨bw, 0⟩

/-- `btorsim_bv_zero` is `#define`d as `btorsim_bv_new`. -/
def btorsim_bv_zero (bw : Nat) : BV := btorsim_bv_new bw

/-- `btorsim_bv_get_bit`: bit `pos` of the backing words
(`(bits[len - 1 - pos / 32] >> (pos % 32)) & 1`), which is the `pos`-th bit of
the numeric value. -/
def btorsim_bv_get_bit (bv : BV) (pos : Nat) : Bool := bv.bits.testBit pos

/-- `btorsim_bv_set_bit`: set (`|=`) or clear (`&= ~`) bit `pos` of the
backing word; numerically, clear the bit and add `2 ^ pos` back when setting. -/
def btorsim_bv_set_bit (bv : BV) (pos : Nat) (bit : Bool) : BV :=
  let cleared := bv.bits - (if bv.bits.testBit pos then 2 ^ pos else 0)
  ⟨bv.width, if bit then cleared + 2 ^ pos else cleared⟩

/-- `btorsim_bv_one`: fresh vector with bit 0 set. -/
def btorsim_bv_one (bw : Nat) : BV := btorsim_bv_set_bit (btorsim_bv_new bw) 0 true

/-- `btorsim_bv_uint64_to_bv`: store the low 32 bits of `value` in the last
backing word and, when `width > 32`, the next 32 bits in the word before it,
then `set_rem_bits_to_zero`. -/
def btorsim_bv_uint64_to_bv (value : Nat) (bw : Nat) : BV :=
  set_rem_bits_to_zero
    ⟨bw, value % 2 ^ 32 + (if 32 < bw then value / 2 ^ 32 % 2 ^ 32 * 2 ^ 32 else 0)⟩

/-- `btorsim_bv_to_uint64`: reassemble the backing words into one number (the
loop `res |= bits[i] << (32 * (len - 1 - i))`); on the numeric view this is
`bits` itself.  The C asserts `width <= 64`. -/
def btorsim_bv_to_uint64 (bv : BV) : Nat := bv.bits

/-- `btorsim_bv_const`: width-`bw` vector built from a binary character
string, most significant character first (bit `i` comes from
`str[bw - 1 - i]`; the C asserts every character is '0' or '1' and
`strlen str <= bw`, and is only called with `strlen str = bw`). -/
def btorsim_bv_const (str : List Char) (bw : Nat) : BV :=
  (List.range bw).foldl
    (fun res i => btorsim_bv_set_bit res i (str.getD (bw - 1 - i) '0' ≠ '0'))
    (btorsim_bv_new bw)

/-- `btorsim_bv_char_to_bv`: `btorsim_bv_const (assignment, strlen assignment)`. -/
def btorsim_bv_char_to_bv (assignment : List Char) : BV :=
  btorsim_bv_const assignment assignment.length

/-- `btorsim_bv_copy`. -/
def btorsim_bv_copy (bv : BV) : BV := ⟨bv.width, bv.bits⟩

/-- `btorsim_bv_compare`: -1 on width mismatch, else 0 when all backing words
agree, else the sign of the first (most significant) differing word pair —
numerically the sign of `a.bits - b.bits`. -/
def btorsim_bv_compare (a b : BV) : Int :=
  if a.width ≠ b.width then -1
  else if a.bits = b.bits then 0
  else if b.bits < a.bits then 1
  else -1

/-- `btorsim_bv_is_true`: width is 1 and bit 0 is set. -/
def btorsim_bv_is_true (bv : BV) : Bool := bv.width == 1 && btorsim_bv_get_bit bv 0

/-- `btorsim_bv_is_false`: width is 1 and bit 0 is clear. -/
def btorsim_bv_is_false (bv : BV) : Bool := bv.width == 1 && !btorsim_bv_get_bit bv 0

/-- `btorsim_bv_is_zero`: every backing word is zero. -/
def btorsim_bv_is_zero (bv : BV) : Bool := bv.bits == 0

/-- `btorsim_bv_not`: word-wise complement (XOR with all ones over the
`32 * len` representation bits), then `set_rem_bits_to_zero`. -/
def btorsim_bv_not (bv : BV) : BV :=
  set_rem_bits_to_zero ⟨bv.width, (2 ^ (32 * lenWords bv.width) - 1) ^^^ bv.bits⟩

/-- `btorsim_bv_ones`: `btorsim_bv_not` of a fresh zero vector. -/
def btorsim_bv_ones (bw : Nat) : BV := btorsim_bv_not (btorsim_bv_new bw)

/-- `btorsim_bv_int64_to_bv`: start from all ones when the value is negative
and the width exceeds 64 (else all zeros), then overwrite the two least
significant words with the low 64 bits of the value's two's complement, then
`set_rem_bits_to_zero`. -/
def btorsim_bv_int64_to_bv (value : Int) (bw : Nat) : BV :=
  let base : BV :=
    if value < 0 ∧ 64 < bw then btorsim_bv_not (btorsim_bv_new bw)
    else btorsim_bv_new bw
  let v64 := (value % 2 ^ 64).toNat
  let low := v64 % 2 ^ 32 + (if 32 < bw then v64 / 2 ^ 32 % 2 ^ 32 * 2 ^ 32 else 0)
  set_rem_bits_to_zero ⟨bw, base.bits / 2 ^ 64 * 2 ^ 64 + low⟩

/-- `btorsim_bv_add`: widths up to 64 go through native 64-bit addition (which
wraps modulo `2 ^ 64`), larger widths through a word-wise ripple-carry loop
whose final carry-out is dropped (addition modulo `2 ^ (32 * len)`), then
`set_rem_bits_to_zero`. -/
def btorsim_bv_add (a b : BV) : BV :=
  if a.width ≤ 64 then
    btorsim_bv_uint64_to_bv
      ((btorsim_bv_to_uint64 a + btorsim_bv_to_uint64 b) % 2 ^ 64) a.width
  else
    set_rem_bits_to_zero ⟨a.width, (a.bits + b.bits) % 2 ^ (32 * lenWords a.width)⟩

/-- `btorsim_bv_neg`: two's complement, `add (not bv) one`. -/
def btorsim_bv_neg (bv : BV) : BV :=
  btorsim_bv_add (btorsim_bv_not bv) (btorsim_bv_one bv.width)

/-- `btorsim_bv_inc`: `add bv one`. -/
def btorsim_bv_inc (bv : BV) : BV := btorsim_bv_add bv (btorsim_bv_one bv.width)

/-- `btorsim_bv_dec`: `add bv (neg one)`. -/
def btorsim_bv_dec (bv : BV) : BV :=
  btorsim_bv_add bv (btorsim_bv_neg (btorsim_bv_one bv.width))

/-- `btorsim_bv_sub`: `add a (neg b)`. -/
def btorsim_bv_sub (a b : BV) : BV := btorsim_bv_add a (btorsim_bv_neg b)

/-- `btorsim_bv_redand`: width-1 result; the bit is 1 when the top word equals
the remainder mask and every other word is all ones — for a canonically
represented input, when `bits` is the all-ones value of the width. -/
def btorsim_bv_redand (bv : BV) : BV :=
  btorsim_bv_set_bit (btorsim_bv_new 1) 0 (decide (bv.bits = 2 ^ bv.width - 1))

/-- `btorsim_bv_redor`: width-1 result; the bit is 1 when some backing word is
non-zero. -/
def btorsim_bv_redor (bv : BV) : BV :=
  btorsim_bv_set_bit (btorsim_bv_new 1) 0 (decide (bv.bits ≠ 0))

/-- `btorsim_bv_and`: word-wise `&`. -/
def btorsim_bv_and (a b : BV) : BV := ⟨a.width, a.bits &&& b.bits⟩

/-- `btorsim_bv_or`: word-wise `|`. -/
def btorsim_bv_or (a b : BV) : BV := ⟨a.width, a.bits ||| b.bits⟩

/-- `btorsim_bv_xor`: word-wise `^`. -/
def btorsim_bv_xor (a b : BV) : BV := ⟨a.width, a.bits ^^^ b.bits⟩

/-- `btorsim_bv_implies`: word-wise `~a | b`, then `set_rem_bits_to_zero`. -/
def btorsim_bv_implies (a b : BV) : BV :=
  set_rem_bits_to_zero
    ⟨a.width, ((2 ^ (32 * lenWords a.width) - 1) ^^^ a.bits) ||| b.bits⟩

/-- `btorsim_bv_nand`: word-wise `~(a & b)`, then `set_rem_bits_to_zero`. -/
def btorsim_bv_nand (a b : BV) : BV :=
  set_rem_bits_to_zero
    ⟨a.width, (2 ^ (32 * lenWords a.width) - 1) ^^^ (a.bits &&& b.bits)⟩

/-- `btorsim_bv_nor`: word-wise `~(a | b)`, then `set_rem_bits_to_zero`. -/
def btorsim_bv_nor (a b : BV) : BV :=
  set_rem_bits_to_zero
    ⟨a.width, (2 ^ (32 * lenWords a.width) - 1) ^^^ (a.bits ||| b.bits)⟩

/-- `btorsim_bv_xnor`: word-wise `a ^ ~b`, then `set_rem_bits_to_zero`. -/
def btorsim_bv_xnor (a b : BV) : BV :=
  set_rem_bits_to_zero
    ⟨a.width, a.bits ^^^ ((2 ^ (32 * lenWords a.width) - 1) ^^^ b.bits)⟩

/-- `btorsim_bv_eq`: width-1 result, 1 when all backing words agree. -/
def btorsim_bv_eq (a b : BV) : BV :=
  btorsim_bv_set_bit (btorsim_bv_new 1) 0 (decide (a.bits = b.bits))

/-- `btorsim_bv_neq`: width-1 result, complement of `eq`'s bit. -/
def btorsim_bv_neq (a b : BV) : BV :=
  btorsim_bv_set_bit (btorsim_bv_new 1) 0 (decide (a.bits ≠ b.bits))

/-- `btorsim_bv_ult`: the first differing word pair, scanned from the most
significant word, decides — numerically `a.bits < b.bits`. -/
def btorsim_bv_ult (a b : BV) : BV :=
  btorsim_bv_set_bit (btorsim_bv_new 1) 0 (decide (a.bits < b.bits))

/-- `btorsim_bv_ulte`: numerically `a.bits ≤ b.bits`. -/
def btorsim_bv_ulte (a b : BV) : BV :=
  btorsim_bv_set_bit (btorsim_bv_new 1) 0 (decide (a.bits ≤ b.bits))

/-- `btorsim_bv_slt`: equal sign bits fall back to the unsigned word compare,
otherwise the result is `sign_a && !sign_b`. -/
def btorsim_bv_slt (a b : BV) : BV :=
  let sign_a := btorsim_bv_get_bit a (a.width - 1)
  let sign_b := btorsim_bv_get_bit b (b.width - 1)
  let bit := if sign_a = sign_b then decide (a.bits < b.bits) else sign_a && !sign_b
  btorsim_bv_set_bit (btorsim_bv_new 1) 0 bit

/-- `btorsim_bv_slte`: as `slt` with the non-strict unsigned compare. -/
def btorsim_bv_slte (a b : BV) : BV :=
  let sign_a := btorsim_bv_get_bit a (a.width - 1)
  let sign_b := btorsim_bv_get_bit b (b.width - 1)
  let bit := if sign_a = sign_b then decide (a.bits ≤ b.bits) else sign_a && !sign_b
  btorsim_bv_set_bit (btorsim_bv_new 1) 0 bit

/-- `sll_bv`: left shift by a known amount.  Amounts of `width` or more return
the fresh zero vector; otherwise the word loop shifts the backing words left,
dropping bits pushed beyond the top word (shift modulo `2 ^ (32 * len)`), and
`set_rem_bits_to_zero` re-canonicalises. -/
def sll_bv (a : BV) (shift : Nat) : BV :=
  if shift ≥ a.width then btorsim_bv_new a.width
  else set_rem_bits_to_zero ⟨a.width, (a.bits <<< shift) % 2 ^ (32 * lenWords a.width)⟩

/-- `btorsim_bv_sll`: shift amount is the full value of `b`
(`btorsim_bv_to_uint64 b`). -/
def btorsim_bv_sll (a b : BV) : BV := sll_bv a (btorsim_bv_to_uint64 b)

/-- `btorsim_bv_srl`: amounts of `width` or more return the fresh zero vector;
otherwise the word loop shifts the backing words right (numerically
`a.bits >>> shift`). -/
def btorsim_bv_srl (a b : BV) : BV :=
  let shift := btorsim_bv_to_uint64 b
  if shift ≥ a.width then btorsim_bv_new a.width
  else ⟨a.width, a.bits >>> shift⟩

/-- `btorsim_bv_slice`: bits `upper .. lower` of `bv`, width
`upper - lower + 1` (a `get_bit`/`set_bit` loop; numerically a right shift and
truncation). -/
def btorsim_bv_slice (bv : BV) (upper lower : Nat) : BV :=
  ⟨upper - lower + 1, bv.bits >>> lower % 2 ^ (upper - lower + 1)⟩

/-- `btorsim_bv_sra`: transcribed as in the source — it slices the sign bit of
`b` into `sign_b` (which is then never used) and selects on
`btorsim_bv_is_true not_a`, not on the sign bit of `a`. -/
def btorsim_bv_sra (a b : BV) : BV :=
  let sign_b := btorsim_bv_slice b (b.width - 1) (b.width - 1)
  let srl1 := btorsim_bv_srl a b
  let not_a := btorsim_bv_not a
  let srl2 := btorsim_bv_srl not_a b
  let res :=
    if btorsim_bv_is_true not_a then btorsim_bv_not srl2 else btorsim_bv_copy srl1
  let _ := sign_b
  set_rem_bits_to_zero res

/-- `btorsim_bv_mul`: widths up to 64 wrap through native 64-bit
multiplication; larger widths run the shift-and-add loop over the bits of
`b`. -/
def btorsim_bv_mul (a b : BV) : BV :=
  if a.width ≤ 64 then
    btorsim_bv_uint64_to_bv
      (btorsim_bv_to_uint64 a * btorsim_bv_to_uint64 b % 2 ^ 64) a.width
  else
    (List.range a.width).foldl
      (fun res i =>
        let andbv :=
          if btorsim_bv_get_bit b i then btorsim_bv_copy a else btorsim_bv_new a.width
        btorsim_bv_add res (sll_bv andbv i))
      (btorsim_bv_new a.width)

/-- Body of one iteration of `udiv_urem_bv`'s long-division loop at bit `i`:
shift the remainder left by one, shift in bit `i` of `a`, and when
`b < rem` or `b = rem` subtract `b` (add `neg_b`) and set quotient bit `i`. -/
def udiv_urem_step (a b neg_b : BV) (i : Nat) (qr : BV × BV) : BV × BV :=
  let rem := btorsim_bv_set_bit (sll_bv qr.2 1) 0 (btorsim_bv_get_bit a i)
  if btorsim_bv_is_true (btorsim_bv_ult b rem) then
    (btorsim_bv_set_bit qr.1 i true, btorsim_bv_add rem neg_b)
  else if btorsim_bv_is_true (btorsim_bv_eq b rem) then
    (btorsim_bv_set_bit qr.1 i true, btorsim_bv_add rem neg_b)
  else (qr.1, rem)

/-- `udiv_urem_bv`'s loop `for (i = width - 1; i >= 0; i--)`: process bit
indices `i - 1, i - 2, …, 0`. -/
def udiv_urem_down (a b neg_b : BV) : Nat → BV × BV → BV × BV
  | 0, qr => qr
  | i + 1, qr => udiv_urem_down a b neg_b i (udiv_urem_step a b neg_b i qr)

/-- `udiv_urem_bv`: widths up to 64 use native division, with the divide-by-
zero convention `q = UINT64_MAX`, `r = x`; larger widths run restoring long
division over the bits. -/
def udiv_urem_bv (a b : BV) : BV × BV :=
  if a.width ≤ 64 then
    let x := btorsim_bv_to_uint64 a
    let y := btorsim_bv_to_uint64 b
    let qr := if y = 0 then (18446744073709551615, x) else (x / y, x % y)
    (btorsim_bv_uint64_to_bv qr.1 a.width, btorsim_bv_uint64_to_bv qr.2 a.width)
  else
    let neg_b := btorsim_bv_neg b
    udiv_urem_down a b neg_b a.width (btorsim_bv_new a.width, btorsim_bv_new a.width)

/-- `btorsim_bv_udiv`: quotient of `udiv_urem_bv`. -/
def btorsim_bv_udiv (a b : BV) : BV := (udiv_urem_bv a b).1

/-- `btorsim_bv_urem`: remainder of `udiv_urem_bv`. -/
def btorsim_bv_urem (a b : BV) : BV := (udiv_urem_bv a b).2

/-- `btorsim_bv_sdiv`: width 1 computes `~(~a & b)`; otherwise normalise both
operands to their magnitudes, divide unsigned and negate when the sign bits
differ. -/
def btorsim_bv_sdiv (a b : BV) : BV :=
  if a.width = 1 then
    let not_a := btorsim_bv_not a
    let not_a_and_b := btorsim_bv_and not_a b
    btorsim_bv_not not_a_and_b
  else
    let sign_a := btorsim_bv_slice a (a.width - 1) (a.width - 1)
    let sign_b := btorsim_bv_slice b (b.width - 1) (b.width - 1)
    let xorbv := btorsim_bv_xor sign_a sign_b
    let neg_a := btorsim_bv_neg a
    let neg_b := btorsim_bv_neg b
    let cond_a := if btorsim_bv_is_true sign_a then btorsim_bv_copy neg_a else btorsim_bv_copy a
    let cond_b := if btorsim_bv_is_true sign_b then btorsim_bv_copy neg_b else btorsim_bv_copy b
    let udivbv := btorsim_bv_udiv cond_a cond_b
    let neg_udiv := btorsim_bv_neg udivbv
    if btorsim_bv_is_true xorbv then btorsim_bv_copy neg_udiv else btorsim_bv_copy udivbv

/-- `btorsim_bv_srem`: width 1 computes `a & ~b`; otherwise normalise, take the
unsigned remainder and negate when the dividend is negative. -/
def btorsim_bv_srem (a b : BV) : BV :=
  if a.width = 1 then
    let not_b := btorsim_bv_not b
    btorsim_bv_and a not_b
  else
    let sign_a := btorsim_bv_slice a (a.width - 1) (a.width - 1)
    let sign_b := btorsim_bv_slice b (b.width - 1) (b.width - 1)
    let neg_a := btorsim_bv_neg a
    let neg_b := btorsim_bv_neg b
    let cond_a := if btorsim_bv_is_true sign_a then btorsim_bv_copy neg_a else btorsim_bv_copy a
    let cond_b := if btorsim_bv_is_true sign_b then btorsim_bv_copy neg_b else btorsim_bv_copy b
    let urembv := btorsim_bv_urem cond_a cond_b
    let neg_urem := btorsim_bv_neg urembv
    if btorsim_bv_is_true sign_a then btorsim_bv_copy neg_urem else btorsim_bv_copy urembv

/-- `btorsim_bv_concat`: the word loop places `a` above `b`'s `width` bits
(numerically `a.bits * 2 ^ b.width + b.bits`); no masking, the C only asserts
the spare bits of the operands are clear. -/
def btorsim_bv_concat (a b : BV) : BV :=
  ⟨a.width + b.width, a.bits * 2 ^ b.width + b.bits⟩

/-- `btorsim_bv_uext`: fresh wider vector whose low words are `memcpy`ed from
`bv`. -/
def btorsim_bv_uext (bv : BV) (len : Nat) : BV := ⟨bv.width + len, bv.bits⟩

/-- `btorsim_bv_sext`: concatenate `len` copies of the most significant bit in
front of `bv`. -/
def btorsim_bv_sext (bv : BV) (len : Nat) : BV :=
  let msb := btorsim_bv_get_bit bv (bv.width - 1)
  let tmp := if msb then btorsim_bv_ones len else btorsim_bv_zero len
  btorsim_bv_concat tmp bv

/-- `btorsim_bv_ite`: select `t` or `e` word-wise through the all-ones/all-
zeros mask built from bit 0 of `c`; the result carries `t`'s width. -/
def btorsim_bv_ite (c t e : BV) : BV :=
  if btorsim_bv_get_bit c 0 then ⟨t.width, t.bits⟩ else ⟨t.width, e.bits⟩

/-- `btorsim_bv_flipped_bit`: copy, flip bit `pos`, `set_rem_bits_to_zero`. -/
def btorsim_bv_flipped_bit (bv : BV) (pos : Nat) : BV :=
  let res := btorsim_bv_copy bv
  set_rem_bits_to_zero
    (btorsim_bv_set_bit res pos (!(btorsim_bv_get_bit res pos)))

/-- `btorsim_bv_flipped_bit_range`: flip bits `lower .. upper`, then
`set_rem_bits_to_zero`. -/
def btorsim_bv_flipped_bit_range (bv : BV) (upper lower : Nat) : BV :=
  set_rem_bits_to_zero
    ((List.range (upper + 1 - lower)).foldl
      (fun res i =>
        btorsim_bv_set_bit res (lower + i) (!(btorsim_bv_get_bit res (lower + i))))
      (btorsim_bv_copy bv))

/-- `strip_zeroes`: advance past leading '0' characters. -/
def strip_zeroes : List Char → List Char
  | [] => []
  | c :: rest => if c = '0' then strip_zeroes rest else c :: rest

/-- Character-level sum bit used by the unbounded binary string arithmetic,
`s = x ^ y ^ c` byte-wise on '0'/'1' characters. -/
def bin_char_sum (x y c : Char) : Char :=
  Char.ofNat (x.toNat ^^^ y.toNat ^^^ c.toNat)

/-- Character-level carry bit, `c = (x & y) | (x & c) | (y & c)` byte-wise. -/
def bin_char_carry (x y c : Char) : Char :=
  Char.ofNat ((x.toNat &&& y.toNat) ||| (x.toNat &&& c.toNat) ||| (y.toNat &&& c.toNat))

/-- Ripple loop of `add_unbounded_bin_str` on the reversed digit lists: the C
walks both strings from their last characters, padding the exhausted one with
'0', for `max + 1` iterations (one extra for the carry). -/
def add_bin_rev (c : Char) : List Char → List Char → List Char
  | [], [] => [c]
  | x :: xs, [] => bin_char_sum x '0' c :: add_bin_rev (bin_char_carry x '0' c) xs []
  | [], y :: ys => bin_char_sum '0' y c :: add_bin_rev (bin_char_carry '0' y c) [] ys
  | x :: xs, y :: ys => bin_char_sum x y c :: add_bin_rev (bin_char_carry x y c) xs ys
termination_by a b => a.length + b.length

/-- `add_unbounded_bin_str`: strip leading zeroes, return the other operand
when one is empty, otherwise ripple-add and strip the result's leading
zeroes. -/
def add_unbounded_bin_str (a b : List Char) : List Char :=
  let a := strip_zeroes a
  let b := strip_zeroes b
  if a = [] then b
  else if b = [] then a
  else strip_zeroes (add_bin_rev '0' a.reverse b.reverse).reverse

/-- Window addition of `mult_unbounded_bin_str`: add `b` into the equally long
top window of the result (both walked from their last characters; here on the
reversed lists), returning the final carry and the new window. -/
def mult_window_add_rev (c : Char) : List Char → List Char → Char × List Char
  | x :: xs, y :: ys =>
      let s := bin_char_sum x y c
      let rec_res := mult_window_add_rev (bin_char_carry x y c) xs ys
      (rec_res.1, s :: rec_res.2)
  | xs, _ => (c, xs)

/-- One round of `mult_unbounded_bin_str`: look at the last character `m`, add
`b` into the leading `blen` characters when `m = '1'`, then shift the whole
string right by one (`memmove`), dropping `m` and inserting the carry in
front. -/
def mult_round (blen : Nat) (b res : List Char) : List Char :=
  let m := res.getLastD '0'
  let cres :=
    if m = '1' then
      let window := res.take blen
      let added := mult_window_add_rev '0' window.reverse b.reverse
      (added.1, added.2.reverse ++ res.drop blen)
    else ('0', res)
  cres.1 :: cres.2.dropLast

/-- `mult_unbounded_bin_str`: after stripping and the trivial cases, start
from `blen` zero characters followed by `a` and run one shift-and-add round
per character of `a`. -/
def mult_unbounded_bin_str (a b : List Char) : List Char :=
  let a := strip_zeroes a
  if a = [] then []
  else if a = ['1'] then b
  else
    let b := strip_zeroes b
    if b = [] then []
    else if b = ['1'] then a
    else
      let res0 := List.replicate b.length '0' ++ a
      (List.range a.length).foldl (fun res _ => mult_round b.length b res) res0

/-- `digit2const`: binary string of one decimal digit. -/
def digit2const (ch : Char) : List Char :=
  match ch with
  | '1' => ['1']
  | '2' => ['1', '0']
  | '3' => ['1', '1']
  | '4' => ['1', '0', '0']
  | '5' => ['1', '0', '1']
  | '6' => ['1', '1', '0']
  | '7' => ['1', '1', '1']
  | '8' => ['1', '0', '0', '0']
  | '9' => ['1', '0', '0', '1']
  | _ => []

/-- `dec_to_bin_str`: fold over the decimal digits, multiplying the
accumulator by `1010` (ten) and adding the digit; an empty result becomes
`"0"`. -/
def dec_to_bin_str (str : List Char) : List Char :=
  let res := str.foldl
    (fun res p =>
      add_unbounded_bin_str (mult_unbounded_bin_str res ['1', '0', '1', '0'])
        (digit2const p))
    []
  if res.length ≠ 0 then res else ['0']

/-- `btorsim_bv_constd`: optionally negative decimal constant; the magnitude's
binary string is turned into a vector, zero-extended to `bw` when shorter and
negated for negative input (the C asserts `check_constd`). -/
def btorsim_bv_constd (str : List Char) (bw : Nat) : BV :=
  let is_neg := decide (str.head? = some '-')
  let bits := dec_to_bin_str (if is_neg then str.tail else str)
  let size_bits := bits.length
  let res := btorsim_bv_char_to_bv bits
  let res := if size_bits < bw then btorsim_bv_uext res (bw - size_bits) else res
  if is_neg then btorsim_bv_neg res else res

/-- `hex_to_bin_str`'s per-character table: four binary characters per hex
digit (the C `switch`; its `default` asserts 'f'/'F'). -/
def hex_digit_to_bin (c : Char) : List Char :=
  match c with
  | '0' => ['0', '0', '0', '0']
  | '1' => ['0', '0', '0', '1']
  | '2' => ['0', '0', '1', '0']
  | '3' => ['0', '0', '1', '1']
  | '4' => ['0', '1', '0', '0']
  | '5' => ['0', '1', '0', '1']
  | '6' => ['0', '1', '1', '0']
  | '7' => ['0', '1', '1', '1']
  | '8' => ['1', '0', '0', '0']
  | '9' => ['1', '0', '0', '1']
  | 'A' | 'a' => ['1', '0', '1', '0']
  | 'B' | 'b' => ['1', '0', '1', '1']
  | 'C' | 'c' => ['1', '1', '0', '0']
  | 'D' | 'd' => ['1', '1', '0', '1']
  | 'E' | 'e' => ['1', '1', '1', '0']
  | _ => ['1', '1', '1', '1']

/-- `hex_to_bin_str`: expand each hex digit, strip leading zeroes, an empty
result becomes `"0"`. -/
def hex_to_bin_str (str : List Char) : List Char :=
  let res := strip_zeroes (str.foldl (fun acc p => acc ++ hex_digit_to_bin p) [])
  if res.length ≠ 0 then res else ['0']

/-- `btorsim_bv_consth`: hexadecimal constant, zero-extended to `bw` when
shorter (the C asserts `check_consth`, so `strlen bits <= bw`). -/
def btorsim_bv_consth (str : List Char) (bw : Nat) : BV :=
  let bits := hex_to_bin_str str
  let res := btorsim_bv_char_to_bv bits
  if bits.length < bw then btorsim_bv_uext res (bw - bits.length) else res

/-- Multiply-with-carry generator state of `btorsimrng.c`. -/
structure BtorSimRNG where
  z : Nat
  w : Nat
deriving DecidableEq, Repr

/-- `btorsim_rng_init` (all arithmetic modulo `2 ^ 32`). -/
def btorsim_rng_init (seed : Nat) : BtorSimRNG :=
  let w := seed % 2 ^ 32
  let z := (2 ^ 32 - 1) ^^^ w
  let w := w * 2 % 2 ^ 32
  let z := z * 2 % 2 ^ 32
  let w := (w + 1) % 2 ^ 32
  let z := (z + 1) % 2 ^ 32
  let w := w * 2019164533 % 2 ^ 32
  let z := z * 1000632769 % 2 ^ 32
  ⟨z, w⟩

/-- `btorsim_rng_rand`: advance both halves and combine `(z << 16) + w`
modulo `2 ^ 32`. -/
def btorsim_rng_rand (rng : BtorSimRNG) : Nat × BtorSimRNG :=
  let z := (36969 * (rng.z &&& 65535) + rng.z >>> 16) % 2 ^ 32
  let w := (18000 * (rng.w &&& 65535) + rng.w >>> 16) % 2 ^ 32
  ((z <<< 16 % 2 ^ 32 + w) % 2 ^ 32, ⟨z, w⟩)

/-- `btorsim_rng_pick_rand`: clamp `UINT_MAX` ends one below, then
`from + rand % (to - from + 1)`. -/
def btorsim_rng_pick_rand (rng : BtorSimRNG) (lo hi : Nat) : Nat × BtorSimRNG :=
  let lo := if lo = 2 ^ 32 - 1 then 2 ^ 32 - 2 else lo
  let hi := if hi = 2 ^ 32 - 1 then 2 ^ 32 - 2 else hi
  let res := btorsim_rng_rand rng
  (res.1 % (hi - lo + 1) + lo, res.2)

/-- `btorsim_bv_new_random_bit_range`: words below the top get fresh random
words; the top word draws from `pick_rand (0, ((~0) >> (32 - bw % 32)) - 1)`
— with `~0` a signed all-ones int, the bound collapses to `UINT_MAX - 1` —
then bits outside `[lo, up]` are cleared and `set_rem_bits_to_zero` runs. -/
def btorsim_bv_new_random_bit_range (rng : BtorSimRNG) (bw up lo : Nat) :
    BV × BtorSimRNG :=
  let words := lenWords bw
  let filled :=
    (List.range (words - 1)).foldl
      (fun (acc : Nat × BtorSimRNG) _ =>
        let r := btorsim_rng_rand acc.2
        (acc.1 * 2 ^ 32 + r.1, r.2))
      (0, rng)
  let top := btorsim_rng_pick_rand filled.2 0 (2 ^ 32 - 2)
  let res : BV := ⟨bw, top.1 * 2 ^ (32 * (words - 1)) + filled.1⟩
  let res := (List.range lo).foldl (fun acc i => btorsim_bv_set_bit acc i false) res
  let res :=
    (List.range (bw - (up + 1))).foldl
      (fun acc i => btorsim_bv_set_bit acc (up + 1 + i) false) res
  (set_rem_bits_to_zero res, top.2)

/-- `btorsim_bv_new_random`: full range `[0, bw - 1]`. -/
def btorsim_bv_new_random (rng : BtorSimRNG) (bw : Nat) : BV × BtorSimRNG :=
  btorsim_bv_new_random_bit_range rng bw (bw - 1) 0

/-! ## Canonical form

`rem_bits_zero_dbg` checks that the representation bits of the top word at
positions `width` and above are zero; on the numeric view of the whole word
array that is exactly `bits < 2 ^ width`. -/

/-- Canonical representation (spec: "zero-padded above bit w-1"): every
representation bit at a position at or above the declared width reads zero. -/
def canonical (bv : BV) : Prop := ∀ i, bv.width ≤ i → bv.bits.testBit i = false

theorem canonical_iff_lt (bv : BV) : canonical bv ↔ bv.bits < 2 ^ bv.width := by
  constructor
  · intro h
    exact Nat.lt_pow_two_of_testBit bv.bits fun i hi => h i hi
  · intro h i hi
    exact Nat.testBit_lt_two_pow
      (lt_of_lt_of_le h (Nat.pow_le_pow_right (by norm_num) hi))

theorem canon_lt {bv : BV} (h : canonical bv) : bv.bits < 2 ^ bv.width :=
  (canonical_iff_lt bv).mp h

theorem canon_of_lt {bv : BV} (h : bv.bits < 2 ^ bv.width) : canonical bv :=
  (canonical_iff_lt bv).mpr h

theorem width_le_32_lenWords (bw : Nat) : bw ≤ 32 * lenWords bw := by
  unfold lenWords; split <;> omega

theorem canon_lt_rep {bv : BV} (h : canonical bv) :
    bv.bits < 2 ^ (32 * lenWords bv.width) :=
  lt_of_lt_of_le (canon_lt h)
    (Nat.pow_le_pow_right (by norm_num) (width_le_32_lenWords _))

theorem rep_mask_lt (w : Nat) : 2 ^ (32 * lenWords w) - 1 < 2 ^ (32 * lenWords w) :=
  Nat.sub_lt (Nat.pos_pow_of_pos _ (by norm_num)) (by norm_num)

theorem set_rem_width (bv : BV) : (set_rem_bits_to_zero bv).width = bv.width := by
  unfold set_rem_bits_to_zero; split <;> rfl

theorem set_rem_lt {w x : Nat} (h : x < 2 ^ (32 * lenWords w)) :
    (set_rem_bits_to_zero ⟨w, x⟩).bits < 2 ^ w := by
  unfold set_rem_bits_to_zero
  split
  · exact Nat.mod_lt _ (Nat.pos_pow_of_pos _ (by norm_num))
  · next hc =>
      have hw : w = 32 * lenWords w := by
        have := hc; simp only [ne_eq, not_not] at this; exact this
      calc (BtorSimBitVector.mk w x).bits = x := rfl
        _ < 2 ^ (32 * lenWords w) := h
        _ = 2 ^ w := by rw [← hw]

theorem canon_set_rem {w x : Nat} (h : x < 2 ^ (32 * lenWords w)) :
    canonical (set_rem_bits_to_zero ⟨w, x⟩) := by
  apply canon_of_lt; rw [set_rem_width]; exact set_rem_lt h

theorem set_rem_eq_self {bv : BV} (h : bv.bits < 2 ^ bv.width) :
    set_rem_bits_to_zero bv = bv := by
  cases bv with
  | mk w x =>
      unfold set_rem_bits_to_zero
      split
      · simp only [BtorSimBitVector.mk.injEq, true_and]
        exact Nat.mod_eq_of_lt h
      · rfl

theorem canon_new (bw : Nat) : canonical (btorsim_bv_new bw) :=
  canon_of_lt (Nat.pos_pow_of_pos _ (by norm_num))

theorem set_bit_width (bv : BV) (pos : Nat) (bit : Bool) :
    (btorsim_bv_set_bit bv pos bit).width = bv.width := rfl

/-- A number below `2 ^ (pos + 1)` whose bit `pos` is clear is below
`2 ^ pos`. -/
theorem lt_two_pow_of_testBit_false {m pos : Nat} (hm : m < 2 ^ (pos + 1))
    (hb : m.testBit pos = false) : m < 2 ^ pos := by
  apply Nat.lt_pow_two_of_testBit
  intro i hi
  rcases Nat.eq_or_lt_of_le hi with rfl | hlt
  · exact hb
  · exact Nat.testBit_lt_two_pow
      (lt_of_lt_of_le hm (Nat.pow_le_pow_right (by norm_num) hlt))

theorem set_bit_bits_true (bv : BV) (pos : Nat) :
    (btorsim_bv_set_bit bv pos true).bits
      = bv.bits - (if bv.bits.testBit pos then 2 ^ pos else 0) + 2 ^ pos := rfl

theorem set_bit_bits_false (bv : BV) (pos : Nat) :
    (btorsim_bv_set_bit bv pos false).bits
      = bv.bits - (if bv.bits.testBit pos then 2 ^ pos else 0) := rfl

theorem canon_set_bit {bv : BV} {pos : Nat} (bit : Bool)
    (hc : bv.bits < 2 ^ bv.width) (hp : pos < bv.width) :
    (btorsim_bv_set_bit bv pos bit).bits < 2 ^ bv.width := by
  cases bit with
  | false =>
      rw [set_bit_bits_false]
      exact lt_of_le_of_lt (Nat.sub_le _ _) hc
  | true =>
      rw [set_bit_bits_true]
      rcases hb : bv.bits.testBit pos with _ | _
      · -- bit clear: cleared = bits, and bits + 2 ^ pos stays below 2 ^ width
        rw [if_neg Bool.false_ne_true]
        have hmod : bv.bits % 2 ^ (pos + 1) < 2 ^ pos := by
          apply lt_two_pow_of_testBit_false
          · exact Nat.mod_lt _ (Nat.pos_pow_of_pos _ (by norm_num))
          · rw [Nat.testBit_mod_two_pow]
            simp [hb]
        have hdm := Nat.div_add_mod bv.bits (2 ^ (pos + 1))
        have hq : bv.bits / 2 ^ (pos + 1) + 1 ≤ 2 ^ (bv.width - (pos + 1)) := by
          have : bv.bits / 2 ^ (pos + 1) < 2 ^ (bv.width - (pos + 1)) := by
            rw [Nat.div_lt_iff_lt_mul (Nat.pos_pow_of_pos _ (by norm_num))]
            calc bv.bits < 2 ^ bv.width := hc
              _ = 2 ^ (bv.width - (pos + 1)) * 2 ^ (pos + 1) := by
                  rw [← pow_add]; congr 1; omega
          omega
        calc bv.bits - 0 + 2 ^ pos = bv.bits + 2 ^ pos := by omega
          _ = 2 ^ (pos + 1) * (bv.bits / 2 ^ (pos + 1)) +
                (bv.bits % 2 ^ (pos + 1) + 2 ^ pos) := by omega
          _ < 2 ^ (pos + 1) * (bv.bits / 2 ^ (pos + 1)) + 2 ^ (pos + 1) := by
              have hpp : (2 : Nat) ^ (pos + 1) = 2 ^ pos + 2 ^ pos := by
                rw [pow_succ]; omega
              omega
          _ = 2 ^ (pos + 1) * (bv.bits / 2 ^ (pos + 1) + 1) := by ring
          _ ≤ 2 ^ (pos + 1) * 2 ^ (bv.width - (pos + 1)) :=
              Nat.mul_le_mul_left _ hq
          _ = 2 ^ bv.width := by rw [← pow_add]; congr 1; omega
      · -- bit already set: cleared + 2 ^ pos = bits
        rw [if_pos rfl]
        have hge : 2 ^ pos ≤ bv.bits := Nat.testBit_implies_ge hb
        calc bv.bits - 2 ^ pos + 2 ^ pos = bv.bits := by omega
          _ < 2 ^ bv.width := hc

theorem canon_one {bw : Nat} (h : 1 ≤ bw) : canonical (btorsim_bv_one bw) :=
  canon_of_lt (canon_set_bit true (canon_lt (canon_new bw)) h)

theorem canon_not {bv : BV} (h : canonical bv) : canonical (btorsim_bv_not bv) :=
  canon_set_rem (Nat.xor_lt_two_pow (rep_mask_lt _) (canon_lt_rep h))

theorem canon_ones (bw : Nat) : canonical (btorsim_bv_ones bw) :=
  canon_not (canon_new bw)

theorem not_width (bv : BV) : (btorsim_bv_not bv).width = bv.width :=
  set_rem_width _

theorem uint64_to_bv_width (v bw : Nat) : (btorsim_bv_uint64_to_bv v bw).width = bw :=
  set_rem_width _

theorem canon_uint64_to_bv (v : Nat) {bw : Nat} (h : 1 ≤ bw) :
    canonical (btorsim_bv_uint64_to_bv v bw) := by
  apply canon_set_rem
  have h32 : bw % 32 = 0 → 32 ≤ bw := by omega
  by_cases hb : 32 < bw
  · calc v % 2 ^ 32 + (if 32 < bw then v / 2 ^ 32 % 2 ^ 32 * 2 ^ 32 else 0) =
        v % 2 ^ 32 + v / 2 ^ 32 % 2 ^ 32 * 2 ^ 32 := by rw [if_pos hb]
      _ < 2 ^ 64 := by
          have h1 : v % 2 ^ 32 < 2 ^ 32 := Nat.mod_lt _ (by norm_num)
          have h2 : v / 2 ^ 32 % 2 ^ 32 < 2 ^ 32 := Nat.mod_lt _ (by norm_num)
          have h3 : v / 2 ^ 32 % 2 ^ 32 * 2 ^ 32 ≤ (2 ^ 32 - 1) * 2 ^ 32 :=
            Nat.mul_le_mul_right _ (by omega)
          norm_num at h3 ⊢
          omega
      _ ≤ 2 ^ (32 * lenWords bw) := by
          apply Nat.pow_le_pow_right (by norm_num)
          have := width_le_32_lenWords bw
          omega
  · calc v % 2 ^ 32 + (if 32 < bw then v / 2 ^ 32 % 2 ^ 32 * 2 ^ 32 else 0) =
        v % 2 ^ 32 := by rw [if_neg hb]; omega
      _ < 2 ^ 32 := Nat.mod_lt _ (by norm_num)
      _ ≤ 2 ^ (32 * lenWords bw) := by
          apply Nat.pow_le_pow_right (by norm_num)
          unfold lenWords
          split <;> omega

theorem canon_add {a : BV} (b : BV) (h : 1 ≤ a.width) :
    canonical (btorsim_bv_add a b) := by
  unfold btorsim_bv_add
  split
  · exact canon_uint64_to_bv _ h
  · exact canon_set_rem (Nat.mod_lt _ (Nat.pos_pow_of_pos _ (by norm_num)))

theorem add_width (a b : BV) : (btorsim_bv_add a b).width = a.width := by
  unfold btorsim_bv_add
  split
  · exact uint64_to_bv_width _ _
  · exact set_rem_width _

theorem canon_neg {bv : BV} (h : 1 ≤ bv.width) : canonical (btorsim_bv_neg bv) := by
  unfold btorsim_bv_neg
  apply canon_add
  rw [not_width]; exact h

theorem neg_width (bv : BV) : (btorsim_bv_neg bv).width = bv.width := by
  unfold btorsim_bv_neg; rw [add_width, not_width]

theorem canon_inc {bv : BV} (h : 1 ≤ bv.width) : canonical (btorsim_bv_inc bv) :=
  canon_add _ h

theorem canon_dec {bv : BV} (h : 1 ≤ bv.width) : canonical (btorsim_bv_dec bv) :=
  canon_add _ h

theorem canon_sub {a : BV} (b : BV) (h : 1 ≤ a.width) :
    canonical (btorsim_bv_sub a b) :=
  canon_add _ h

theorem canon_bit1 (b : Bool) :
    canonical (btorsim_bv_set_bit (btorsim_bv_new 1) 0 b) :=
  canon_of_lt (canon_set_bit b (canon_lt (canon_new 1)) Nat.one_pos)

theorem canon_redand (bv : BV) : canonical (btorsim_bv_redand bv) := canon_bit1 _
theorem canon_redor (bv : BV) : canonical (btorsim_bv_redor bv) := canon_bit1 _
theorem canon_eq (a b : BV) : canonical (btorsim_bv_eq a b) := canon_bit1 _
theorem canon_neq (a b : BV) : canonical (btorsim_bv_neq a b) := canon_bit1 _
theorem canon_ult (a b : BV) : canonical (btorsim_bv_ult a b) := canon_bit1 _
theorem canon_ulte (a b : BV) : canonical (btorsim_bv_ulte a b) := canon_bit1 _
theorem canon_slt (a b : BV) : canonical (btorsim_bv_slt a b) := canon_bit1 _
theorem canon_slte (a b : BV) : canonical (btorsim_bv_slte a b) := canon_bit1 _

theorem canon_and {a : BV} (b : BV) (h : canonical a) :
    canonical (btorsim_bv_and a b) :=
  canon_of_lt (lt_of_le_of_lt Nat.and_le_left (canon_lt h))

theorem canon_or {a b : BV} (ha : canonical a) (hb : canonical b)
    (hw : b.width = a.width) : canonical (btorsim_bv_or a b) := by
  apply canon_of_lt
  show a.bits ||| b.bits < 2 ^ a.width
  exact Nat.or_lt_two_pow (canon_lt ha) (by rw [← hw]; exact canon_lt hb)

theorem canon_xor {a b : BV} (ha : canonical a) (hb : canonical b)
    (hw : b.width = a.width) : canonical (btorsim_bv_xor a b) := by
  apply canon_of_lt
  show a.bits ^^^ b.bits < 2 ^ a.width
  exact Nat.xor_lt_two_pow (canon_lt ha) (by rw [← hw]; exact canon_lt hb)

theorem lt_rep_of_canon_w {b : BV} {w : Nat} (hb : canonical b) (hw : b.width = w) :
    b.bits < 2 ^ (32 * lenWords w) := by
  subst hw; exact canon_lt_rep hb

theorem canon_implies {a b : BV} (ha : canonical a) (hb : canonical b)
    (hw : b.width = a.width) : canonical (btorsim_bv_implies a b) :=
  canon_set_rem
    (Nat.or_lt_two_pow (Nat.xor_lt_two_pow (rep_mask_lt _) (canon_lt_rep ha))
      (lt_rep_of_canon_w hb hw))

theorem canon_nand {a : BV} (b : BV) (ha : canonical a) :
    canonical (btorsim_bv_nand a b) :=
  canon_set_rem
    (Nat.xor_lt_two_pow (rep_mask_lt _)
      (lt_of_le_of_lt Nat.and_le_left (canon_lt_rep ha)))

theorem canon_nor {a b : BV} (ha : canonical a) (hb : canonical b)
    (hw : b.width = a.width) : canonical (btorsim_bv_nor a b) :=
  canon_set_rem
    (Nat.xor_lt_two_pow (rep_mask_lt _)
      (Nat.or_lt_two_pow (canon_lt_rep ha) (lt_rep_of_canon_w hb hw)))

theorem canon_xnor {a b : BV} (ha : canonical a) (hb : canonical b)
    (hw : b.width = a.width) : canonical (btorsim_bv_xnor a b) :=
  canon_set_rem
    (Nat.xor_lt_two_pow (canon_lt_rep ha)
      (Nat.xor_lt_two_pow (rep_mask_lt _) (lt_rep_of_canon_w hb hw)))

theorem canon_sll_bv (a : BV) (shift : Nat) : canonical (sll_bv a shift) := by
  unfold sll_bv
  split
  · exact canon_new _
  · exact canon_set_rem (Nat.mod_lt _ (Nat.pos_pow_of_pos _ (by norm_num)))

theorem sll_bv_width (a : BV) (shift : Nat) : (sll_bv a shift).width = a.width := by
  unfold sll_bv; split
  · rfl
  · exact set_rem_width _

theorem canon_sll (a b : BV) : canonical (btorsim_bv_sll a b) := canon_sll_bv _ _

theorem srl_eq_ite (a b : BV) :
    btorsim_bv_srl a b =
      if btorsim_bv_to_uint64 b ≥ a.width then btorsim_bv_new a.width
      else ⟨a.width, a.bits >>> btorsim_bv_to_uint64 b⟩ := rfl

theorem canon_srl {a : BV} (b : BV) (h : canonical a) :
    canonical (btorsim_bv_srl a b) := by
  rw [srl_eq_ite]
  split
  · exact canon_new _
  · apply canon_of_lt
    show a.bits >>> btorsim_bv_to_uint64 b < 2 ^ a.width
    calc a.bits >>> btorsim_bv_to_uint64 b ≤ a.bits := by
          rw [Nat.shiftRight_eq_div_pow]; exact Nat.div_le_self _ _
      _ < 2 ^ a.width := canon_lt h

theorem srl_width (a b : BV) : (btorsim_bv_srl a b).width = a.width := by
  rw [srl_eq_ite]; split <;> rfl

theorem canon_slice (bv : BV) (upper lower : Nat) :
    canonical (btorsim_bv_slice bv upper lower) :=
  canon_of_lt (Nat.mod_lt _ (Nat.pos_pow_of_pos _ (by norm_num)))

theorem canon_copy {bv : BV} (h : canonical bv) : canonical (btorsim_bv_copy bv) := h

theorem canon_set_rem_of_canon {bv : BV} (h : canonical bv) :
    canonical (set_rem_bits_to_zero bv) := by
  cases bv with
  | mk w x =>
      exact canon_set_rem (lt_of_lt_of_le (canon_lt h)
        (Nat.pow_le_pow_right (by norm_num) (width_le_32_lenWords _)))

theorem sra_eq_ite (a b : BV) :
    btorsim_bv_sra a b =
      set_rem_bits_to_zero
        (if btorsim_bv_is_true (btorsim_bv_not a)
         then btorsim_bv_not (btorsim_bv_srl (btorsim_bv_not a) b)
         else btorsim_bv_copy (btorsim_bv_srl a b)) := rfl

theorem canon_sra {a : BV} (b : BV) (h : canonical a) :
    canonical (btorsim_bv_sra a b) := by
  rw [sra_eq_ite]
  apply canon_set_rem_of_canon
  split
  · exact canon_not (canon_srl _ (canon_not h))
  · exact canon_copy (canon_srl _ h)

theorem canon_mul {a : BV} (b : BV) (h : 1 ≤ a.width) :
    canonical (btorsim_bv_mul a b) := by
  unfold btorsim_bv_mul
  split
  · exact canon_uint64_to_bv _ h
  · next hw =>
      -- the fold's result: the last step is an `add` of width `a.width`
      have key : ∀ (l : List Nat) (init : BV), canonical init → init.width = a.width →
          canonical ((l.foldl (fun res i =>
            let andbv := if btorsim_bv_get_bit b i then btorsim_bv_copy a
              else btorsim_bv_new a.width
            btorsim_bv_add res (sll_bv andbv i)) init)) ∧
          ((l.foldl (fun res i =>
            let andbv := if btorsim_bv_get_bit b i then btorsim_bv_copy a
              else btorsim_bv_new a.width
            btorsim_bv_add res (sll_bv andbv i)) init)).width = a.width := by
        intro l
        induction l with
        | nil => intro init hc hwi; exact ⟨hc, hwi⟩
        | cons x xs ih =>
            intro init hc hwi
            apply ih
            · apply canon_add; omega
            · rw [add_width, hwi]
      exact (key (List.range a.width) (btorsim_bv_new a.width) (canon_new _) rfl).1

theorem canon_concat {a b : BV} (ha : canonical a) (hb : canonical b) :
    canonical (btorsim_bv_concat a b) := by
  apply canon_of_lt
  show a.bits * 2 ^ b.width + b.bits < 2 ^ (a.width + b.width)
  have h1 : a.bits ≤ 2 ^ a.width - 1 := by have := canon_lt ha; omega
  have h2 : a.bits * 2 ^ b.width ≤ (2 ^ a.width - 1) * 2 ^ b.width :=
    Nat.mul_le_mul_right _ h1
  have h3 : (2 ^ a.width - 1) * 2 ^ b.width = 2 ^ (a.width + b.width) - 2 ^ b.width := by
    rw [Nat.sub_mul, one_mul, ← pow_add]
  have h4 := canon_lt hb
  have h5 : (2 : Nat) ^ b.width ≤ 2 ^ (a.width + b.width) :=
    Nat.pow_le_pow_right (by norm_num) (by omega)
  omega

theorem canon_uext {bv : BV} (len : Nat) (h : canonical bv) :
    canonical (btorsim_bv_uext bv len) := by
  apply canon_of_lt
  show bv.bits < 2 ^ (bv.width + len)
  exact lt_of_lt_of_le (canon_lt h) (Nat.pow_le_pow_right (by norm_num) (by omega))

theorem sext_eq_ite (bv : BV) (len : Nat) :
    btorsim_bv_sext bv len =
      btorsim_bv_concat
        (if btorsim_bv_get_bit bv (bv.width - 1) then btorsim_bv_ones len
         else btorsim_bv_zero len) bv := rfl

theorem canon_sext {bv : BV} (len : Nat) (h : canonical bv) :
    canonical (btorsim_bv_sext bv len) := by
  rw [sext_eq_ite]
  split
  · exact canon_concat (canon_ones _) h
  · exact canon_concat (canon_new _) h

theorem canon_ite {t e : BV} (c : BV) (ht : canonical t) (he : canonical e)
    (hw : e.width = t.width) : canonical (btorsim_bv_ite c t e) := by
  unfold btorsim_bv_ite
  split
  · exact ht
  · apply canon_of_lt
    show e.bits < 2 ^ t.width
    rw [← hw]; exact canon_lt he

theorem udiv_urem_step_eq (a b neg_b : BV) (i : Nat) (qr : BV × BV) :
    udiv_urem_step a b neg_b i qr =
      if btorsim_bv_is_true (btorsim_bv_ult b
          (btorsim_bv_set_bit (sll_bv qr.2 1) 0 (btorsim_bv_get_bit a i))) then
        (btorsim_bv_set_bit qr.1 i true,
          btorsim_bv_add
            (btorsim_bv_set_bit (sll_bv qr.2 1) 0 (btorsim_bv_get_bit a i)) neg_b)
      else if btorsim_bv_is_true (btorsim_bv_eq b
          (btorsim_bv_set_bit (sll_bv qr.2 1) 0 (btorsim_bv_get_bit a i))) then
        (btorsim_bv_set_bit qr.1 i true,
          btorsim_bv_add
            (btorsim_bv_set_bit (sll_bv qr.2 1) 0 (btorsim_bv_get_bit a i)) neg_b)
      else (qr.1, btorsim_bv_set_bit (sll_bv qr.2 1) 0 (btorsim_bv_get_bit a i)) := rfl

theorem udiv_urem_step_width (a b neg_b : BV) (i : Nat) (qr : BV × BV) :
    (udiv_urem_step a b neg_b i qr).1.width = qr.1.width ∧
      (udiv_urem_step a b neg_b i qr).2.width = qr.2.width := by
  rw [udiv_urem_step_eq]
  split
  · exact ⟨set_bit_width _ _ _, by rw [add_width, set_bit_width, sll_bv_width]⟩
  · split
    · exact ⟨set_bit_width _ _ _, by rw [add_width, set_bit_width, sll_bv_width]⟩
    · exact ⟨rfl, by rw [set_bit_width, sll_bv_width]⟩

theorem udiv_urem_down_width (a b neg_b : BV) :
    ∀ (i : Nat) (qr : BV × BV),
      (udiv_urem_down a b neg_b i qr).1.width = qr.1.width ∧
        (udiv_urem_down a b neg_b i qr).2.width = qr.2.width := by
  intro i
  induction i with
  | zero => intro qr; exact ⟨rfl, rfl⟩
  | succ i ih =>
      intro qr
      have h1 := udiv_urem_step_width a b neg_b i qr
      have h2 := ih (udiv_urem_step a b neg_b i qr)
      exact ⟨h2.1.trans h1.1, h2.2.trans h1.2⟩

theorem udiv_urem_step_canon {a : BV} (b neg_b : BV) {i : Nat} {qr : BV × BV}
    (hi : i < a.width) (hq : canonical qr.1) (hqw : qr.1.width = a.width)
    (hrw : qr.2.width = a.width) :
    canonical (udiv_urem_step a b neg_b i qr).1 ∧
      canonical (udiv_urem_step a b neg_b i qr).2 := by
  have hrem : canonical
      (btorsim_bv_set_bit (sll_bv qr.2 1) 0 (btorsim_bv_get_bit a i)) := by
    apply canon_of_lt
    rw [set_bit_width]
    apply canon_set_bit
    · exact canon_lt (canon_sll_bv _ _)
    · rw [sll_bv_width, hrw]; omega
  have hrem2 : canonical
      (btorsim_bv_add (btorsim_bv_set_bit (sll_bv qr.2 1) 0 (btorsim_bv_get_bit a i))
        neg_b) := by
    apply canon_add
    rw [set_bit_width, sll_bv_width, hrw]; omega
  have hq2 : canonical (btorsim_bv_set_bit qr.1 i true) := by
    apply canon_of_lt
    rw [set_bit_width]
    exact canon_set_bit true (canon_lt hq) (by omega)
  rw [udiv_urem_step_eq]
  split
  · exact ⟨hq2, hrem2⟩
  · split
    · exact ⟨hq2, hrem2⟩
    · exact ⟨hq, hrem⟩

theorem udiv_urem_down_canon {a : BV} (b neg_b : BV) :
    ∀ (i : Nat) (qr : BV × BV), i ≤ a.width →
      canonical qr.1 → qr.1.width = a.width → canonical qr.2 → qr.2.width = a.width →
      canonical (udiv_urem_down a b neg_b i qr).1 ∧
        canonical (udiv_urem_down a b neg_b i qr).2 := by
  intro i
  induction i with
  | zero => intro qr _ hq _ hr _; exact ⟨hq, hr⟩
  | succ i ih =>
      intro qr hle hq hqw hr hrw
      have hstep := @udiv_urem_step_canon a b neg_b i qr (by omega) hq hqw hrw
      have hwid := udiv_urem_step_width a b neg_b i qr
      exact ih _ (by omega) hstep.1 (hwid.1.trans hqw) hstep.2 (hwid.2.trans hrw)

theorem canon_udiv {a : BV} (b : BV) (h : 1 ≤ a.width) :
    canonical (btorsim_bv_udiv a b) := by
  unfold btorsim_bv_udiv udiv_urem_bv
  split
  · exact canon_uint64_to_bv _ h
  · exact (udiv_urem_down_canon b _ a.width _ le_rfl (canon_new _) rfl
      (canon_new _) rfl).1

theorem canon_urem {a : BV} (b : BV) (h : 1 ≤ a.width) :
    canonical (btorsim_bv_urem a b) := by
  unfold btorsim_bv_urem udiv_urem_bv
  split
  · exact canon_uint64_to_bv _ h
  · exact (udiv_urem_down_canon b _ a.width _ le_rfl (canon_new _) rfl
      (canon_new _) rfl).2

theorem udiv_width (a b : BV) : (btorsim_bv_udiv a b).width = a.width := by
  unfold btorsim_bv_udiv udiv_urem_bv
  split
  · exact uint64_to_bv_width _ _
  · exact (udiv_urem_down_width _ _ _ a.width _).1

theorem urem_width (a b : BV) : (btorsim_bv_urem a b).width = a.width := by
  unfold btorsim_bv_urem udiv_urem_bv
  split
  · exact uint64_to_bv_width _ _
  · exact (udiv_urem_down_width _ _ _ a.width _).2

theorem sdiv_eq (a b : BV) :
    btorsim_bv_sdiv a b =
      if a.width = 1 then btorsim_bv_not (btorsim_bv_and (btorsim_bv_not a) b)
      else
        if btorsim_bv_is_true
            (btorsim_bv_xor (btorsim_bv_slice a (a.width - 1) (a.width - 1))
              (btorsim_bv_slice b (b.width - 1) (b.width - 1))) then
          btorsim_bv_copy (btorsim_bv_neg (btorsim_bv_udiv
            (if btorsim_bv_is_true (btorsim_bv_slice a (a.width - 1) (a.width - 1))
             then btorsim_bv_copy (btorsim_bv_neg a) else btorsim_bv_copy a)
            (if btorsim_bv_is_true (btorsim_bv_slice b (b.width - 1) (b.width - 1))
             then btorsim_bv_copy (btorsim_bv_neg b) else btorsim_bv_copy b)))
        else
          btorsim_bv_copy (btorsim_bv_udiv
            (if btorsim_bv_is_true (btorsim_bv_slice a (a.width - 1) (a.width - 1))
             then btorsim_bv_copy (btorsim_bv_neg a) else btorsim_bv_copy a)
            (if btorsim_bv_is_true (btorsim_bv_slice b (b.width - 1) (b.width - 1))
             then btorsim_bv_copy (btorsim_bv_neg b) else btorsim_bv_copy b)) := rfl

theorem cond_copy_neg_width (c : Bool) (x : BV) :
    (if c then btorsim_bv_copy (btorsim_bv_neg x) else btorsim_bv_copy x).width
      = x.width := by
  cases c
  · rfl
  · show (btorsim_bv_neg x).width = x.width
    exact neg_width x

theorem canon_sdiv {a : BV} (b : BV) (ha : canonical a) (h1 : 1 ≤ a.width) :
    canonical (btorsim_bv_sdiv a b) := by
  rw [sdiv_eq]
  have hcaw := cond_copy_neg_width
    (btorsim_bv_is_true (btorsim_bv_slice a (a.width - 1) (a.width - 1))) a
  split
  · exact canon_not (canon_and _ (canon_not ha))
  · split
    · apply canon_copy
      apply canon_neg
      rw [udiv_width]; omega
    · apply canon_copy
      apply canon_udiv
      omega

theorem srem_eq (a b : BV) :
    btorsim_bv_srem a b =
      if a.width = 1 then btorsim_bv_and a (btorsim_bv_not b)
      else
        if btorsim_bv_is_true (btorsim_bv_slice a (a.width - 1) (a.width - 1)) then
          btorsim_bv_copy (btorsim_bv_neg (btorsim_bv_urem
            (if btorsim_bv_is_true (btorsim_bv_slice a (a.width - 1) (a.width - 1))
             then btorsim_bv_copy (btorsim_bv_neg a) else btorsim_bv_copy a)
            (if btorsim_bv_is_true (btorsim_bv_slice b (b.width - 1) (b.width - 1))
             then btorsim_bv_copy (btorsim_bv_neg b) else btorsim_bv_copy b)))
        else
          btorsim_bv_copy (btorsim_bv_urem
            (if btorsim_bv_is_true (btorsim_bv_slice a (a.width - 1) (a.width - 1))
             then btorsim_bv_copy (btorsim_bv_neg a) else btorsim_bv_copy a)
            (if btorsim_bv_is_true (btorsim_bv_slice b (b.width - 1) (b.width - 1))
             then btorsim_bv_copy (btorsim_bv_neg b) else btorsim_bv_copy b)) := rfl

theorem copy_width (bv : BV) : (btorsim_bv_copy bv).width = bv.width := rfl

theorem canon_srem {a : BV} (b : BV) (ha : canonical a) (h1 : 1 ≤ a.width) :
    canonical (btorsim_bv_srem a b) := by
  rw [srem_eq]
  split
  · exact canon_and _ ha
  · split
    · apply canon_copy
      apply canon_neg
      rw [urem_width]
      simp only [cond_copy_neg_width, copy_width, neg_width]
      exact h1
    · apply canon_copy
      apply canon_urem
      simp only [cond_copy_neg_width, copy_width, neg_width]
      exact h1

theorem canon_const (str : List Char) (bw : Nat) :
    canonical (btorsim_bv_const str bw) ∧ (btorsim_bv_const str bw).width = bw := by
  unfold btorsim_bv_const
  have key : ∀ (l : List Nat) (init : BV), init.width = bw → canonical init →
      (∀ i ∈ l, i < bw) →
      canonical (l.foldl
        (fun res i => btorsim_bv_set_bit res i (str.getD (bw - 1 - i) '0' ≠ '0')) init) ∧
      (l.foldl
        (fun res i => btorsim_bv_set_bit res i (str.getD (bw - 1 - i) '0' ≠ '0')) init).width
        = bw := by
    intro l
    induction l with
    | nil => intro init hw hc _; exact ⟨hc, hw⟩
    | cons x xs ih =>
        intro init hw hc hmem
        apply ih
        · rw [set_bit_width]; exact hw
        · apply canon_of_lt
          rw [set_bit_width]
          exact canon_set_bit _ (canon_lt hc) (by rw [hw]; exact hmem x (List.mem_cons_self x xs))
        · exact fun i hi => hmem i (List.mem_cons_of_mem _ hi)
  exact key (List.range bw) _ rfl (canon_new bw) (fun i hi => List.mem_range.mp hi)

theorem canon_char_to_bv (s : List Char) : canonical (btorsim_bv_char_to_bv s) :=
  (canon_const s s.length).1

theorem char_to_bv_width (s : List Char) :
    (btorsim_bv_char_to_bv s).width = s.length :=
  (canon_const s s.length).2

theorem uext_width (bv : BV) (len : Nat) :
    (btorsim_bv_uext bv len).width = bv.width + len := rfl

theorem if_len_pos (l : List Char) :
    1 ≤ (if l.length ≠ 0 then l else ['0']).length := by
  split
  · next h => omega
  · simp

theorem dec_to_bin_str_length_pos (str : List Char) :
    1 ≤ (dec_to_bin_str str).length := by
  unfold dec_to_bin_str
  exact if_len_pos _

theorem constd_eq (str : List Char) (bw : Nat) :
    btorsim_bv_constd str bw =
      (if decide (str.head? = some '-') then
        btorsim_bv_neg
          (if (dec_to_bin_str (if decide (str.head? = some '-') then str.tail else str)).length < bw
           then btorsim_bv_uext
             (btorsim_bv_char_to_bv
               (dec_to_bin_str (if decide (str.head? = some '-') then str.tail else str)))
             (bw - (dec_to_bin_str (if decide (str.head? = some '-') then str.tail else str)).length)
           else btorsim_bv_char_to_bv
             (dec_to_bin_str (if decide (str.head? = some '-') then str.tail else str)))
      else
        (if (dec_to_bin_str (if decide (str.head? = some '-') then str.tail else str)).length < bw
         then btorsim_bv_uext
           (btorsim_bv_char_to_bv
             (dec_to_bin_str (if decide (str.head? = some '-') then str.tail else str)))
           (bw - (dec_to_bin_str (if decide (str.head? = some '-') then str.tail else str)).length)
         else btorsim_bv_char_to_bv
           (dec_to_bin_str (if decide (str.head? = some '-') then str.tail else str)))) := rfl

theorem canon_constd (str : List Char) (bw : Nat) :
    canonical (btorsim_bv_constd str bw) := by
  have hmid : ∀ (bits : List Char), 1 ≤ bits.length →
      canonical (if bits.length < bw
        then btorsim_bv_uext (btorsim_bv_char_to_bv bits) (bw - bits.length)
        else btorsim_bv_char_to_bv bits) ∧
      1 ≤ (if bits.length < bw
        then btorsim_bv_uext (btorsim_bv_char_to_bv bits) (bw - bits.length)
        else btorsim_bv_char_to_bv bits).width := by
    intro bits hlen
    constructor
    · split
      · exact canon_uext _ (canon_char_to_bv bits)
      · exact canon_char_to_bv bits
    · split
      · rw [uext_width, char_to_bv_width]; omega
      · rw [char_to_bv_width]; exact hlen
  rw [constd_eq]
  split
  · exact canon_neg (hmid _ (dec_to_bin_str_length_pos _)).2
  · exact (hmid _ (dec_to_bin_str_length_pos _)).1

theorem hex_to_bin_str_length_pos (str : List Char) :
    1 ≤ (hex_to_bin_str str).length := by
  unfold hex_to_bin_str
  exact if_len_pos _

theorem consth_eq (str : List Char) (bw : Nat) :
    btorsim_bv_consth str bw =
      (if (hex_to_bin_str str).length < bw
       then btorsim_bv_uext (btorsim_bv_char_to_bv (hex_to_bin_str str))
         (bw - (hex_to_bin_str str).length)
       else btorsim_bv_char_to_bv (hex_to_bin_str str)) := rfl

theorem canon_consth (str : List Char) (bw : Nat) :
    canonical (btorsim_bv_consth str bw) := by
  rw [consth_eq]
  split
  · exact canon_uext _ (canon_char_to_bv _)
  · exact canon_char_to_bv _

theorem canon_flipped_bit {bv : BV} {pos : Nat} (h : canonical bv)
    (hp : pos < bv.width) : canonical (btorsim_bv_flipped_bit bv pos) := by
  show canonical (set_rem_bits_to_zero
    (btorsim_bv_set_bit (btorsim_bv_copy bv) pos
      (!(btorsim_bv_get_bit (btorsim_bv_copy bv) pos))))
  apply canon_set_rem_of_canon
  apply canon_of_lt
  rw [set_bit_width]
  exact canon_set_bit _ (canon_lt h) hp

theorem canon_flipped_bit_range {bv : BV} {upper : Nat} (lower : Nat)
    (h : canonical bv) (hu : upper < bv.width) :
    canonical (btorsim_bv_flipped_bit_range bv upper lower) := by
  unfold btorsim_bv_flipped_bit_range
  apply canon_set_rem_of_canon
  have key : ∀ (l : List Nat) (init : BV), init.width = bv.width → canonical init →
      (∀ i ∈ l, lower + i < bv.width) →
      canonical (l.foldl
        (fun res i =>
          btorsim_bv_set_bit res (lower + i) (!(btorsim_bv_get_bit res (lower + i)))) init) := by
    intro l
    induction l with
    | nil => intro init _ hc _; exact hc
    | cons x xs ih =>
        intro init hw hc hmem
        apply ih
        · rw [set_bit_width]; exact hw
        · apply canon_of_lt
          rw [set_bit_width]
          exact canon_set_bit _ (canon_lt hc)
            (by rw [hw]; exact hmem x (List.mem_cons_self x xs))
        · exact fun i hi => hmem i (List.mem_cons_of_mem _ hi)
  apply key (List.range (upper + 1 - lower)) (btorsim_bv_copy bv) rfl (canon_copy h)
  intro i hi
  have := List.mem_range.mp hi
  omega

theorem rng_rand_lt (rng : BtorSimRNG) : (btorsim_rng_rand rng).1 < 2 ^ 32 :=
  Nat.mod_lt _ (by norm_num)

theorem rng_pick_rand_max_lt (rng : BtorSimRNG) :
    (btorsim_rng_pick_rand rng 0 (2 ^ 32 - 2)).1 < 2 ^ 32 := by
  unfold btorsim_rng_pick_rand
  have h1 : (btorsim_rng_rand rng).1 % (2 ^ 32 - 2 - 0 + 1) < 2 ^ 32 - 2 - 0 + 1 :=
    Nat.mod_lt _ (by norm_num)
  norm_num at h1 ⊢
  omega

theorem canon_set_rem_rep {bv : BV} (h : bv.bits < 2 ^ (32 * lenWords bv.width)) :
    canonical (set_rem_bits_to_zero bv) := by
  cases bv with
  | mk w x => exact canon_set_rem h

theorem lenWords_pos {bw : Nat} (h : 1 ≤ bw) : 1 ≤ lenWords bw := by
  unfold lenWords; split <;> omega

theorem set_bit_false_fold (f : Nat → Nat) (l : List Nat) :
    ∀ init : BV,
      (l.foldl (fun acc i => btorsim_bv_set_bit acc (f i) false) init).bits ≤ init.bits ∧
      (l.foldl (fun acc i => btorsim_bv_set_bit acc (f i) false) init).width
        = init.width := by
  induction l with
  | nil => intro init; exact ⟨le_rfl, rfl⟩
  | cons x xs ih =>
      intro init
      have h1 := ih (btorsim_bv_set_bit init (f x) false)
      have h2 : (btorsim_bv_set_bit init (f x) false).bits ≤ init.bits := by
        rw [set_bit_bits_false]; omega
      exact ⟨h1.1.trans h2, h1.2.trans (set_bit_width _ _ _)⟩

theorem rand_words_fold_lt (l : List Nat) :
    ∀ (acc : Nat × BtorSimRNG) (k : Nat), acc.1 < 2 ^ (32 * k) →
      (l.foldl (fun acc _ =>
          ((acc.1 * 2 ^ 32 + (btorsim_rng_rand acc.2).1,
            (btorsim_rng_rand acc.2).2) : Nat × BtorSimRNG)) acc).1
        < 2 ^ (32 * (k + l.length)) := by
  induction l with
  | nil => intro acc k hk; simpa using hk
  | cons x xs ih =>
      intro acc k hk
      have h1 := rng_rand_lt acc.2
      have h2 : acc.1 * 2 ^ 32 ≤ (2 ^ (32 * k) - 1) * 2 ^ 32 :=
        Nat.mul_le_mul_right _ (by omega)
      have hexp : 32 * k + 32 = 32 * (k + 1) := by ring
      have h3 : (2 ^ (32 * k) - 1) * 2 ^ 32 = 2 ^ (32 * (k + 1)) - 2 ^ 32 := by
        rw [Nat.sub_mul, one_mul, ← pow_add, hexp]
      have h4 : (2 : Nat) ^ 32 ≤ 2 ^ (32 * (k + 1)) :=
        Nat.pow_le_pow_right (by norm_num) (by omega)
      have hstep : acc.1 * 2 ^ 32 + (btorsim_rng_rand acc.2).1 < 2 ^ (32 * (k + 1)) := by
        omega
      have hmain := ih (acc.1 * 2 ^ 32 + (btorsim_rng_rand acc.2).1,
        (btorsim_rng_rand acc.2).2) (k + 1) hstep
      have harith : 32 * (k + 1 + xs.length) = 32 * (k + (x :: xs).length) := by
        simp [List.length_cons]; ring
      rw [harith] at hmain
      exact hmain

theorem canon_new_random_core {bw : Nat} (h : 1 ≤ bw) (top filled : Nat)
    (htop : top < 2 ^ 32) (hfill : filled < 2 ^ (32 * (lenWords bw - 1)))
    (l1 l2 : List Nat) (f1 f2 : Nat → Nat) :
    canonical (set_rem_bits_to_zero
      (l2.foldl (fun acc i => btorsim_bv_set_bit acc (f2 i) false)
        (l1.foldl (fun acc i => btorsim_bv_set_bit acc (f1 i) false)
          ⟨bw, top * 2 ^ (32 * (lenWords bw - 1)) + filled⟩))) := by
  have hwords := lenWords_pos h
  have hbound : top * 2 ^ (32 * (lenWords bw - 1)) + filled
      < 2 ^ (32 * lenWords bw) := by
    have h2 : top * 2 ^ (32 * (lenWords bw - 1))
        ≤ (2 ^ 32 - 1) * 2 ^ (32 * (lenWords bw - 1)) :=
      Nat.mul_le_mul_right _ (by omega)
    have hexp : 32 + 32 * (lenWords bw - 1) = 32 * lenWords bw := by omega
    have h3 : (2 ^ 32 - 1) * 2 ^ (32 * (lenWords bw - 1))
        = 2 ^ (32 * lenWords bw) - 2 ^ (32 * (lenWords bw - 1)) := by
      rw [Nat.sub_mul, one_mul, ← pow_add, hexp]
    have h4 : (2 : Nat) ^ (32 * (lenWords bw - 1)) ≤ 2 ^ (32 * lenWords bw) :=
      Nat.pow_le_pow_right (by norm_num) (by omega)
    omega
  have hf1 := set_bit_false_fold f1 l1
    ⟨bw, top * 2 ^ (32 * (lenWords bw - 1)) + filled⟩
  have hf2 := set_bit_false_fold f2 l2
    (l1.foldl (fun acc i => btorsim_bv_set_bit acc (f1 i) false)
      ⟨bw, top * 2 ^ (32 * (lenWords bw - 1)) + filled⟩)
  apply canon_set_rem_rep
  rw [hf2.2, hf1.2]
  calc (l2.foldl (fun acc i => btorsim_bv_set_bit acc (f2 i) false)
        (l1.foldl (fun acc i => btorsim_bv_set_bit acc (f1 i) false)
          ⟨bw, top * 2 ^ (32 * (lenWords bw - 1)) + filled⟩)).bits
      ≤ top * 2 ^ (32 * (lenWords bw - 1)) + filled := hf2.1.trans hf1.1
    _ < 2 ^ (32 * lenWords bw) := hbound

theorem canon_new_random_bit_range (rng : BtorSimRNG) {bw : Nat} (up lo : Nat)
    (h : 1 ≤ bw) : canonical (btorsim_bv_new_random_bit_range rng bw up lo).1 := by
  unfold btorsim_bv_new_random_bit_range
  exact canon_new_random_core h _ _
    (rng_pick_rand_max_lt _)
    (rand_words_fold_lt (List.range (lenWords bw - 1)) (0, rng) 0
      (by norm_num) |>.trans_le
      (Nat.pow_le_pow_right (by norm_num) (by simp)))
    _ _ _ _

theorem canon_new_random (rng : BtorSimRNG) {bw : Nat} (h : 1 ≤ bw) :
    canonical (btorsim_bv_new_random rng bw).1 :=
  canon_new_random_bit_range rng _ _ h

theorem canon_int64_to_bv (value : Int) {bw : Nat} (h : 1 ≤ bw) :
    canonical (btorsim_bv_int64_to_bv value bw) := by
  unfold btorsim_bv_int64_to_bv
  apply canon_set_rem
  have hbase : (if value < 0 ∧ 64 < bw then btorsim_bv_not (btorsim_bv_new bw)
      else btorsim_bv_new bw).bits < 2 ^ bw := by
    split
    · have := canon_lt (canon_not (canon_new bw))
      rw [not_width] at this
      exact this
    · exact canon_lt (canon_new bw)
  have hlow : (value % 2 ^ 64).toNat % 2 ^ 32 +
      (if 32 < bw then (value % 2 ^ 64).toNat / 2 ^ 32 % 2 ^ 32 * 2 ^ 32 else 0)
      < 2 ^ 64 := by
    have h1 : (value % 2 ^ 64).toNat % 2 ^ 32 < 2 ^ 32 := Nat.mod_lt _ (by norm_num)
    split
    · have h2 : (value % 2 ^ 64).toNat / 2 ^ 32 % 2 ^ 32 < 2 ^ 32 :=
        Nat.mod_lt _ (by norm_num)
      have h3 : (value % 2 ^ 64).toNat / 2 ^ 32 % 2 ^ 32 * 2 ^ 32
          ≤ (2 ^ 32 - 1) * 2 ^ 32 := Nat.mul_le_mul_right _ (by omega)
      norm_num at h1 h3 ⊢
      omega
    · norm_num at h1 ⊢
      omega
  by_cases hb : bw ≤ 64
  · have hz : (if value < 0 ∧ 64 < bw then btorsim_bv_not (btorsim_bv_new bw)
        else btorsim_bv_new bw).bits / 2 ^ 64 = 0 :=
      Nat.div_eq_of_lt (lt_of_lt_of_le hbase
        (Nat.pow_le_pow_right (by norm_num) hb))
    rw [hz]
    simp only [Nat.zero_mul, Nat.zero_add]
    by_cases hb32 : 32 < bw
    · have hlen : 64 ≤ 32 * lenWords bw := by
        unfold lenWords; split <;> omega
      exact lt_of_lt_of_le hlow (Nat.pow_le_pow_right (by norm_num) hlen)
    · rw [if_neg hb32]
      have hlen : 32 ≤ 32 * lenWords bw := by
        have := lenWords_pos h; omega
      have h1 : (value % 2 ^ 64).toNat % 2 ^ 32 < 2 ^ 32 := Nat.mod_lt _ (by norm_num)
      calc (value % 2 ^ 64).toNat % 2 ^ 32 + 0 < 2 ^ 32 := by omega
        _ ≤ 2 ^ (32 * lenWords bw) := Nat.pow_le_pow_right (by norm_num) hlen
  · have h64 : 64 < bw := by omega
    have hq : (if value < 0 ∧ 64 < bw then btorsim_bv_not (btorsim_bv_new bw)
        else btorsim_bv_new bw).bits / 2 ^ 64 < 2 ^ (bw - 64) := by
      rw [Nat.div_lt_iff_lt_mul (by norm_num : (0:Nat) < 2 ^ 64)]
      calc (if value < 0 ∧ 64 < bw then btorsim_bv_not (btorsim_bv_new bw)
          else btorsim_bv_new bw).bits < 2 ^ bw := hbase
        _ = 2 ^ (bw - 64) * 2 ^ 64 := by rw [← pow_add]; congr 1; omega
    have hq2 : (if value < 0 ∧ 64 < bw then btorsim_bv_not (btorsim_bv_new bw)
        else btorsim_bv_new bw).bits / 2 ^ 64 * 2 ^ 64
        ≤ (2 ^ (bw - 64) - 1) * 2 ^ 64 := Nat.mul_le_mul_right _ (by omega)
    have hexp : bw - 64 + 64 = bw := by omega
    have hq3 : ((2 : Nat) ^ (bw - 64) - 1) * 2 ^ 64 = 2 ^ bw - 2 ^ 64 := by
      rw [Nat.sub_mul, one_mul, ← pow_add, hexp]
    have hq4 : (2 : Nat) ^ 64 ≤ 2 ^ bw := Nat.pow_le_pow_right (by norm_num) (by omega)
    have hfin : (2 : Nat) ^ bw ≤ 2 ^ (32 * lenWords bw) :=
      Nat.pow_le_pow_right (by norm_num) (width_le_32_lenWords bw)
    omega

/-- C5: every bit-vector value returned by any constructor or operation of
`btorsimbv.c` is canonical — all representation bits at positions at or above
the declared width are zero.  Operand-consuming operations are stated for
canonical operands (the invariant the library maintains for every value it
hands out), and constructors the C guards with `assert (bw > 0)` or the
equal-width operand asserts carry those side-conditions as hypotheses. -/
theorem C5_every_bv_operation_returns_canonical :
    (∀ bw, canonical (btorsim_bv_new bw)) ∧
    (∀ bw, canonical (btorsim_bv_zero bw)) ∧
    (∀ bw, 1 ≤ bw → canonical (btorsim_bv_one bw)) ∧
    (∀ bw, canonical (btorsim_bv_ones bw)) ∧
    (∀ v bw, 1 ≤ bw → canonical (btorsim_bv_uint64_to_bv v bw)) ∧
    (∀ v bw, 1 ≤ bw → canonical (btorsim_bv_int64_to_bv v bw)) ∧
    (∀ s bw, canonical (btorsim_bv_const s bw)) ∧
    (∀ s, canonical (btorsim_bv_char_to_bv s)) ∧
    (∀ s bw, canonical (btorsim_bv_constd s bw)) ∧
    (∀ s bw, canonical (btorsim_bv_consth s bw)) ∧
    (∀ bv, canonical bv → canonical (btorsim_bv_copy bv)) ∧
    (∀ bv, canonical bv → canonical (btorsim_bv_not bv)) ∧
    (∀ bv : BV, 1 ≤ bv.width → canonical (btorsim_bv_neg bv)) ∧
    (∀ bv : BV, 1 ≤ bv.width → canonical (btorsim_bv_inc bv)) ∧
    (∀ bv : BV, 1 ≤ bv.width → canonical (btorsim_bv_dec bv)) ∧
    (∀ bv, canonical (btorsim_bv_redand bv)) ∧
    (∀ bv, canonical (btorsim_bv_redor bv)) ∧
    (∀ a b : BV, 1 ≤ a.width → canonical (btorsim_bv_add a b)) ∧
    (∀ a b : BV, 1 ≤ a.width → canonical (btorsim_bv_sub a b)) ∧
    (∀ a b : BV, canonical a → canonical (btorsim_bv_and a b)) ∧
    (∀ a b : BV, canonical a → canonical b → b.width = a.width →
      canonical (btorsim_bv_or a b)) ∧
    (∀ a b : BV, canonical a → canonical b → b.width = a.width →
      canonical (btorsim_bv_xor a b)) ∧
    (∀ a b : BV, canonical a → canonical (btorsim_bv_nand a b)) ∧
    (∀ a b : BV, canonical a → canonical b → b.width = a.width →
      canonical (btorsim_bv_nor a b)) ∧
    (∀ a b : BV, canonical a → canonical b → b.width = a.width →
      canonical (btorsim_bv_xnor a b)) ∧
    (∀ a b : BV, canonical a → canonical b → b.width = a.width →
      canonical (btorsim_bv_implies a b)) ∧
    (∀ a b, canonical (btorsim_bv_eq a b)) ∧
    (∀ a b, canonical (btorsim_bv_neq a b)) ∧
    (∀ a b, canonical (btorsim_bv_ult a b)) ∧
    (∀ a b, canonical (btorsim_bv_ulte a b)) ∧
    (∀ a b, canonical (btorsim_bv_slt a b)) ∧
    (∀ a b, canonical (btorsim_bv_slte a b)) ∧
    (∀ a shift, canonical (sll_bv a shift)) ∧
    (∀ a b, canonical (btorsim_bv_sll a b)) ∧
    (∀ a b : BV, canonical a → canonical (btorsim_bv_srl a b)) ∧
    (∀ a b : BV, canonical a → canonical (btorsim_bv_sra a b)) ∧
    (∀ a b : BV, 1 ≤ a.width → canonical (btorsim_bv_mul a b)) ∧
    (∀ a b : BV, 1 ≤ a.width → canonical (btorsim_bv_udiv a b)) ∧
    (∀ a b : BV, 1 ≤ a.width → canonical (btorsim_bv_urem a b)) ∧
    (∀ a b : BV, canonical a → 1 ≤ a.width → canonical (btorsim_bv_sdiv a b)) ∧
    (∀ a b : BV, canonical a → 1 ≤ a.width → canonical (btorsim_bv_srem a b)) ∧
    (∀ a b : BV, canonical a → canonical b → canonical (btorsim_bv_concat a b)) ∧
    (∀ bv upper lower, canonical (btorsim_bv_slice bv upper lower)) ∧
    (∀ bv : BV, ∀ len, canonical bv → canonical (btorsim_bv_uext bv len)) ∧
    (∀ bv : BV, ∀ len, canonical bv → canonical (btorsim_bv_sext bv len)) ∧
    (∀ c t e : BV, canonical t → canonical e → e.width = t.width →
      canonical (btorsim_bv_ite c t e)) ∧
    (∀ bv : BV, ∀ pos, canonical bv → pos < bv.width →
      canonical (btorsim_bv_flipped_bit bv pos)) ∧
    (∀ bv : BV, ∀ upper lower, canonical bv → upper < bv.width →
      canonical (btorsim_bv_flipped_bit_range bv upper lower)) ∧
    (∀ rng bw up lo, 1 ≤ bw →
      canonical (btorsim_bv_new_random_bit_range rng bw up lo).1) ∧
    (∀ rng bw, 1 ≤ bw → canonical (btorsim_bv_new_random rng bw).1) := by
  refine ⟨canon_new, fun bw => canon_new bw, fun bw h => canon_one h, canon_ones,
    fun v bw h => canon_uint64_to_bv v h, fun v bw h => canon_int64_to_bv v h,
    fun s bw => (canon_const s bw).1, canon_char_to_bv, canon_constd, canon_consth,
    fun bv h => canon_copy h, fun bv h => canon_not h, fun bv h => canon_neg h,
    fun bv h => canon_inc h, fun bv h => canon_dec h, canon_redand, canon_redor,
    fun a b h => canon_add b h, fun a b h => canon_sub b h,
    fun a b h => canon_and b h, fun a b ha hb hw => canon_or ha hb hw,
    fun a b ha hb hw => canon_xor ha hb hw, fun a b ha => canon_nand b ha,
    fun a b ha hb hw => canon_nor ha hb hw, fun a b ha hb hw => canon_xnor ha hb hw,
    fun a b ha hb hw => canon_implies ha hb hw, canon_eq, canon_neq, canon_ult,
    canon_ulte, canon_slt, canon_slte, canon_sll_bv, canon_sll,
    fun a b h => canon_srl b h, fun a b h => canon_sra b h,
    fun a b h => canon_mul b h, fun a b h => canon_udiv b h,
    fun a b h => canon_urem b h, fun a b ha h => canon_sdiv b ha h,
    fun a b ha h => canon_srem b ha h, fun a b ha hb => canon_concat ha hb,
    canon_slice, fun bv len h => canon_uext len h, fun bv len h => canon_sext len h,
    fun c t e ht he hw => canon_ite c ht he hw,
    fun bv pos h hp => canon_flipped_bit h hp,
    fun bv upper lower h hu => canon_flipped_bit_range lower h hu,
    fun rng bw up lo h => canon_new_random_bit_range rng up lo h,
    fun rng bw h => canon_new_random rng h⟩

/-- Witness for C5 at concrete inputs: the canonicity conjuncts with
hypotheses, applied at width 2 with canonical operands. -/
theorem C5_canonical_witness :
    canonical (btorsim_bv_add ⟨2, 3⟩ ⟨2, 2⟩) ∧
    canonical (btorsim_bv_sra ⟨2, 2⟩ ⟨2, 1⟩) ∧
    canonical (btorsim_bv_udiv ⟨2, 3⟩ ⟨2, 0⟩) := by
  obtain ⟨-, -, -, -, -, -, -, -, -, -, -, -, -, -, -, -, -, hadd, -, -, -, -, -,
    -, -, -, -, -, -, -, -, -, -, -, -, hsra, -, hudiv, -, -, -, -, -, -, -, -,
    -, -, -, -⟩ := C5_every_bv_operation_returns_canonical
  exact ⟨hadd ⟨2, 3⟩ ⟨2, 2⟩ (by norm_num),
    hsra ⟨2, 2⟩ ⟨2, 1⟩ (canon_of_lt (by norm_num)),
    hudiv ⟨2, 3⟩ ⟨2, 0⟩ (by norm_num)⟩

end Btorsim

namespace Btorsim

/-! ## Value lemmas for the shift and division claims (C1, C3, C4) -/

theorem two_pow_sub_one_mod {a b : Nat} (h : b ≤ a) :
    (2 ^ a - 1) % 2 ^ b = 2 ^ b - 1 := by
  obtain ⟨k, hk⟩ : (2 : Nat) ^ b ∣ 2 ^ a := pow_dvd_pow 2 h
  have hX : 1 ≤ (2 : Nat) ^ b := Nat.one_le_two_pow
  have hk1 : 1 ≤ k := by
    rcases Nat.eq_zero_or_pos k with h0 | h1
    · rw [h0, Nat.mul_zero] at hk
      have := Nat.pos_pow_of_pos a (show 0 < 2 by norm_num)
      omega
    · exact h1
  obtain ⟨n, rfl⟩ := Nat.exists_eq_add_of_le hk1
  rw [hk, Nat.mul_add, Nat.mul_one]
  have hsplit : 2 ^ b * 1 + 2 ^ b * n - 1 = 2 ^ b * n + (2 ^ b - 1) := by
    omega
  rw [Nat.mul_one] at hsplit
  rw [hsplit, Nat.mul_add_mod]
  exact Nat.mod_eq_of_lt (by omega)

theorem width_mod_32_eq_zero {w : Nat} (h : w = 32 * lenWords w) : w % 32 = 0 := by
  omega

theorem ones_eq (bw : Nat) : btorsim_bv_ones bw = ⟨bw, 2 ^ bw - 1⟩ := by
  show set_rem_bits_to_zero ⟨bw, (2 ^ (32 * lenWords bw) - 1) ^^^ 0⟩ = ⟨bw, 2 ^ bw - 1⟩
  rw [Nat.xor_zero]
  show (if bw ≠ 32 * lenWords bw
    then (⟨bw, (2 ^ (32 * lenWords bw) - 1) % 2 ^ bw⟩ : BV)
    else ⟨bw, 2 ^ (32 * lenWords bw) - 1⟩) = ⟨bw, 2 ^ bw - 1⟩
  split
  · rw [two_pow_sub_one_mod (width_le_32_lenWords bw)]
  · next hc =>
      have : bw = 32 * lenWords bw := by omega
      rw [← this]

theorem one_eq (bw : Nat) : btorsim_bv_one bw = ⟨bw, 1⟩ := by
  show (⟨bw, 0 - (if (0 : Nat).testBit 0 = true then 2 ^ 0 else 0) + 2 ^ 0⟩ : BV)
      = ⟨bw, 1⟩
  norm_num

theorem set_rem_mk_eq {w x : Nat} (hx : x < 2 ^ w) :
    set_rem_bits_to_zero ⟨w, x⟩ = ⟨w, x⟩ :=
  set_rem_eq_self hx

theorem uint64_to_bv_eq {v bw : Nat} (hv : v < 2 ^ bw) (h64 : bw ≤ 64) :
    btorsim_bv_uint64_to_bv v bw = ⟨bw, v⟩ := by
  unfold btorsim_bv_uint64_to_bv
  by_cases hb : 32 < bw
  · rw [if_pos hb]
    have hv64 : v < 2 ^ 64 := lt_of_lt_of_le hv (Nat.pow_le_pow_right (by norm_num) h64)
    have hdiv : v / 2 ^ 32 < 2 ^ 32 := by
      rw [Nat.div_lt_iff_lt_mul (by norm_num : (0 : Nat) < 2 ^ 32)]
      calc v < 2 ^ 64 := hv64
        _ = 2 ^ 32 * 2 ^ 32 := by norm_num
    rw [Nat.mod_eq_of_lt hdiv]
    have : v % 2 ^ 32 + v / 2 ^ 32 * 2 ^ 32 = v := by
      have := Nat.div_add_mod v (2 ^ 32)
      omega
    rw [this]
    exact set_rem_mk_eq hv
  · rw [if_neg hb]
    have hv32 : v < 2 ^ 32 :=
      lt_of_lt_of_le hv (Nat.pow_le_pow_right (by norm_num) (by omega))
    rw [Nat.mod_eq_of_lt hv32, Nat.add_zero]
    exact set_rem_mk_eq hv

theorem uint64_to_bv_max {bw : Nat} (h1 : 1 ≤ bw) (h64 : bw ≤ 64) :
    btorsim_bv_uint64_to_bv 18446744073709551615 bw = ⟨bw, 2 ^ bw - 1⟩ := by
  unfold btorsim_bv_uint64_to_bv
  by_cases hb : 32 < bw
  · rw [if_pos hb]
    have hval : (18446744073709551615 : Nat) % 2 ^ 32 +
        18446744073709551615 / 2 ^ 32 % 2 ^ 32 * 2 ^ 32 = 2 ^ 64 - 1 := by norm_num
    rw [hval]
    show (if bw ≠ 32 * lenWords bw
      then (⟨bw, (2 ^ 64 - 1) % 2 ^ bw⟩ : BV) else ⟨bw, 2 ^ 64 - 1⟩) = ⟨bw, 2 ^ bw - 1⟩
    split
    · rw [two_pow_sub_one_mod h64]
    · next hc =>
        have heq : bw = 32 * lenWords bw := by omega
        have hmod := width_mod_32_eq_zero heq
        have : bw = 64 := by omega
        rw [this]
  · rw [if_neg hb]
    have hval : (18446744073709551615 : Nat) % 2 ^ 32 + 0 = 2 ^ 32 - 1 := by norm_num
    rw [hval]
    show (if bw ≠ 32 * lenWords bw
      then (⟨bw, (2 ^ 32 - 1) % 2 ^ bw⟩ : BV) else ⟨bw, 2 ^ 32 - 1⟩) = ⟨bw, 2 ^ bw - 1⟩
    split
    · rw [two_pow_sub_one_mod (by omega)]
    · next hc =>
        have heq : bw = 32 * lenWords bw := by omega
        have hmod := width_mod_32_eq_zero heq
        have : bw = 32 := by omega
        rw [this]

theorem add_eq_big {a : BV} (b : BV) (hw : 64 < a.width) :
    btorsim_bv_add a b =
      set_rem_bits_to_zero ⟨a.width, (a.bits + b.bits) % 2 ^ (32 * lenWords a.width)⟩ := by
  unfold btorsim_bv_add
  rw [if_neg (by omega)]

theorem add_zero_big {r : BV} (hw : 64 < r.width) (hc : canonical r) :
    btorsim_bv_add r ⟨r.width, 0⟩ = r := by
  rw [add_eq_big _ hw]
  show set_rem_bits_to_zero ⟨r.width, (r.bits + 0) % 2 ^ (32 * lenWords r.width)⟩ = r
  rw [Nat.add_zero, Nat.mod_eq_of_lt (canon_lt_rep hc)]
  cases r with
  | mk w x => exact set_rem_eq_self (canon_lt hc)

theorem not_zero_eq (bw : Nat) : btorsim_bv_not (btorsim_bv_new bw) = ⟨bw, 2 ^ bw - 1⟩ :=
  ones_eq bw

theorem set_rem_two_pow (w : Nat) :
    set_rem_bits_to_zero ⟨w, 2 ^ w % 2 ^ (32 * lenWords w)⟩ = ⟨w, 0⟩ := by
  show (if w ≠ 32 * lenWords w
    then (⟨w, 2 ^ w % 2 ^ (32 * lenWords w) % 2 ^ w⟩ : BV)
    else ⟨w, 2 ^ w % 2 ^ (32 * lenWords w)⟩) = ⟨w, 0⟩
  split
  · next hne =>
      have hlt : w < 32 * lenWords w := lt_of_le_of_ne (width_le_32_lenWords w) hne
      rw [Nat.mod_eq_of_lt (Nat.pow_lt_pow_right (by norm_num) hlt), Nat.mod_self]
  · next hc =>
      have heq : w = 32 * lenWords w := by omega
      rw [← heq, Nat.mod_self]

theorem neg_zero_big {w : Nat} (hw : 64 < w) :
    btorsim_bv_neg (btorsim_bv_new w) = ⟨w, 0⟩ := by
  unfold btorsim_bv_neg
  rw [not_zero_eq]
  rw [show btorsim_bv_one (btorsim_bv_new w).width = ⟨w, 1⟩ from one_eq w]
  rw [add_eq_big _ (show 64 < (⟨w, 2 ^ w - 1⟩ : BV).width from hw)]
  have hval : ((⟨w, 2 ^ w - 1⟩ : BV).bits + (⟨w, 1⟩ : BV).bits) = 2 ^ w := by
    show 2 ^ w - 1 + 1 = 2 ^ w
    have := Nat.one_le_two_pow (n := w)
    omega
  rw [hval]
  exact set_rem_two_pow w

theorem testBit_zero_double (x : Nat) : (2 * x).testBit 0 = false := by
  rw [Nat.testBit_to_div_mod]
  simp [Nat.mul_mod_right]

theorem set_bit_eq_of_testBit_false {bv : BV} {pos : Nat} (b : Bool)
    (h : bv.bits.testBit pos = false) :
    btorsim_bv_set_bit bv pos b = ⟨bv.width, bv.bits + (if b then 2 ^ pos else 0)⟩ := by
  cases b
  · rw [show btorsim_bv_set_bit bv pos false
        = ⟨bv.width, bv.bits - (if bv.bits.testBit pos then 2 ^ pos else 0)⟩ from rfl]
    rw [h]
    norm_num
  · rw [show btorsim_bv_set_bit bv pos true
        = ⟨bv.width, bv.bits - (if bv.bits.testBit pos then 2 ^ pos else 0) + 2 ^ pos⟩ from rfl]
    rw [h]
    norm_num

theorem testBit_shiftRight_succ (x i : Nat) :
    x >>> i = 2 * (x >>> (i + 1)) + (if x.testBit i then 1 else 0) := by
  rw [Nat.shiftRight_eq_div_pow, Nat.shiftRight_eq_div_pow, Nat.testBit_to_div_mod]
  have h1 : x / 2 ^ (i + 1) = x / 2 ^ i / 2 := by
    rw [Nat.div_div_eq_div_mul, pow_succ]
  rw [h1]
  rcases Nat.mod_two_eq_zero_or_one (x / 2 ^ i) with h | h
  · rw [if_neg (by simp [h])]
    omega
  · rw [if_pos (by simp [h])]
    omega

theorem testBit_two_pow_sub_two_pow {w i : Nat} (h : i + 1 ≤ w) :
    ((2 : Nat) ^ w - 2 ^ (i + 1)).testBit i = false := by
  obtain ⟨k, hk⟩ : (2 : Nat) ^ (i + 1) ∣ 2 ^ w := pow_dvd_pow 2 h
  have hk1 : 1 ≤ k := by
    rcases Nat.eq_zero_or_pos k with h0 | h1
    · rw [h0, Nat.mul_zero] at hk
      have := Nat.pos_pow_of_pos w (show 0 < 2 by norm_num)
      omega
    · exact h1
  have hmul : (2 : Nat) ^ w - 2 ^ (i + 1) = 2 ^ i * (2 * (k - 1)) + 0 := by
    obtain ⟨n, rfl⟩ := Nat.exists_eq_add_of_le hk1
    have h1 : (2 : Nat) ^ (i + 1) * (1 + n) = 2 ^ (i + 1) + 2 ^ (i + 1) * n := by ring
    have h2 : (2 : Nat) ^ w - 2 ^ (i + 1) = 2 ^ (i + 1) * n := by
      rw [hk, h1]; omega
    have h3 : 1 + n - 1 = n := by omega
    rw [h2, h3, pow_succ]
    ring
  rw [hmul, Nat.testBit_mul_pow_two_add _ (Nat.pos_pow_of_pos i (by norm_num)) i]
  rw [if_neg (by omega)]
  have : i - i = 0 := by omega
  rw [this]
  exact testBit_zero_double (k - 1)

theorem is_true_bit1 (p : Bool) :
    btorsim_bv_is_true (btorsim_bv_set_bit (btorsim_bv_new 1) 0 p) = p := by
  cases p <;> decide

end Btorsim

namespace Btorsim

theorem sll_bv_one_big {r : BV} (h1 : 1 < r.width) (hlt : 2 * r.bits < 2 ^ r.width) :
    sll_bv r 1 = ⟨r.width, 2 * r.bits⟩ := by
  unfold sll_bv
  rw [if_neg (by omega)]
  have hs : r.bits <<< 1 = 2 * r.bits := by
    rw [Nat.shiftLeft_eq]; ring
  rw [hs, Nat.mod_eq_of_lt (lt_of_lt_of_le hlt
    (Nat.pow_le_pow_right (by norm_num) (width_le_32_lenWords _)))]
  exact set_rem_mk_eq hlt

/-- One iteration of the long-division loop when the divisor is the zero
vector: the shifted-in remainder always absorbs the subtraction of zero and
the quotient bit is always set. -/
theorem udiv_urem_step_zero {a : BV} (hw : 64 < a.width) (hc : canonical a)
    {i : Nat} (hi : i < a.width) :
    udiv_urem_step a (btorsim_bv_new a.width) ⟨a.width, 0⟩ i
        (⟨a.width, 2 ^ a.width - 2 ^ (i + 1)⟩, ⟨a.width, a.bits >>> (i + 1)⟩)
      = (⟨a.width, 2 ^ a.width - 2 ^ i⟩, ⟨a.width, a.bits >>> i⟩) := by
  have hshift : a.bits >>> (i + 1) < 2 ^ (a.width - 1) := by
    rw [Nat.shiftRight_eq_div_pow]
    rw [Nat.div_lt_iff_lt_mul (Nat.pos_pow_of_pos _ (by norm_num))]
    calc a.bits < 2 ^ a.width := canon_lt hc
      _ ≤ 2 ^ (a.width - 1) * 2 ^ (i + 1) := by
          rw [← pow_add]
          exact Nat.pow_le_pow_right (by norm_num) (by omega)
  have hdouble : 2 * (a.bits >>> (i + 1)) < 2 ^ a.width := by
    have : (2 : Nat) * 2 ^ (a.width - 1) = 2 ^ a.width := by
      rw [← pow_succ']
      congr 1
      omega
    omega
  have hsll : sll_bv (⟨a.width, a.bits >>> (i + 1)⟩ : BV) 1
      = ⟨a.width, 2 * (a.bits >>> (i + 1))⟩ :=
    sll_bv_one_big (show 1 < a.width by omega) hdouble
  have hrem : btorsim_bv_set_bit (sll_bv (⟨a.width, a.bits >>> (i + 1)⟩ : BV) 1) 0
      (btorsim_bv_get_bit a i) = ⟨a.width, a.bits >>> i⟩ := by
    rw [hsll]
    rw [show btorsim_bv_get_bit a i = a.bits.testBit i from rfl]
    rw [set_bit_eq_of_testBit_false _ (testBit_zero_double _)]
    rw [show ((⟨a.width, 2 * (a.bits >>> (i + 1))⟩ : BV)).width = a.width from rfl]
    rw [show ((⟨a.width, 2 * (a.bits >>> (i + 1))⟩ : BV)).bits
      = 2 * (a.bits >>> (i + 1)) from rfl]
    rw [pow_zero]
    congr 1
    exact (testBit_shiftRight_succ a.bits i).symm
  have hqbit : btorsim_bv_set_bit (⟨a.width, 2 ^ a.width - 2 ^ (i + 1)⟩ : BV) i true
      = ⟨a.width, 2 ^ a.width - 2 ^ i⟩ := by
    rw [set_bit_eq_of_testBit_false true (testBit_two_pow_sub_two_pow (by omega))]
    rw [if_pos rfl]
    have h2i : (2 : Nat) ^ (i + 1) = 2 ^ i + 2 ^ i := by rw [pow_succ]; ring
    have h2le : (2 : Nat) ^ (i + 1) ≤ 2 ^ a.width :=
      Nat.pow_le_pow_right (by norm_num) (by omega)
    show (⟨a.width, 2 ^ a.width - 2 ^ (i + 1) + 2 ^ i⟩ : BV) = _
    congr 1
    omega
  have hremc : canonical (⟨a.width, a.bits >>> i⟩ : BV) := by
    apply canon_of_lt
    show a.bits >>> i < 2 ^ a.width
    calc a.bits >>> i ≤ a.bits := by
          rw [Nat.shiftRight_eq_div_pow]; exact Nat.div_le_self _ _
      _ < 2 ^ a.width := canon_lt hc
  have haddz : btorsim_bv_add (⟨a.width, a.bits >>> i⟩ : BV) ⟨a.width, 0⟩
      = ⟨a.width, a.bits >>> i⟩ :=
    add_zero_big hw hremc
  have hult : btorsim_bv_is_true (btorsim_bv_ult (btorsim_bv_new a.width)
      (⟨a.width, a.bits >>> i⟩ : BV)) = decide (0 < a.bits >>> i) :=
    is_true_bit1 _
  have heqc : btorsim_bv_is_true (btorsim_bv_eq (btorsim_bv_new a.width)
      (⟨a.width, a.bits >>> i⟩ : BV)) = decide (0 = a.bits >>> i) :=
    is_true_bit1 _
  rw [udiv_urem_step_eq, hrem, hult, heqc]
  rcases Nat.eq_zero_or_pos (a.bits >>> i) with hz | hp
  · rw [if_neg (by simp [hz])]
    rw [if_pos (by simp [hz])]
    rw [hqbit, haddz]
  · rw [if_pos (by simpa using hp)]
    rw [hqbit, haddz]

theorem udiv_urem_down_zero {a : BV} (hw : 64 < a.width) (hc : canonical a) :
    ∀ i, i ≤ a.width →
      udiv_urem_down a (btorsim_bv_new a.width) ⟨a.width, 0⟩ i
          (⟨a.width, 2 ^ a.width - 2 ^ i⟩, ⟨a.width, a.bits >>> i⟩)
        = (⟨a.width, 2 ^ a.width - 1⟩, ⟨a.width, a.bits⟩) := by
  intro i
  induction i with
  | zero =>
      intro _
      show ((⟨a.width, 2 ^ a.width - 2 ^ 0⟩ : BV), (⟨a.width, a.bits >>> 0⟩ : BV))
        = ((⟨a.width, 2 ^ a.width - 1⟩ : BV), (⟨a.width, a.bits⟩ : BV))
      rw [pow_zero, Nat.shiftRight_zero]
  | succ i ih =>
      intro hle
      show udiv_urem_down a (btorsim_bv_new a.width) ⟨a.width, 0⟩ i
          (udiv_urem_step a (btorsim_bv_new a.width) ⟨a.width, 0⟩ i
            (⟨a.width, 2 ^ a.width - 2 ^ (i + 1)⟩, ⟨a.width, a.bits >>> (i + 1)⟩))
        = _
      rw [udiv_urem_step_zero hw hc (by omega)]
      exact ih (by omega)

/-- C4: unsigned division by the all-zero vector of the dividend's width
yields the all-ones quotient and returns the dividend as remainder; the
hypotheses quantify over every canonical dividend of positive width, covering
both the 64-bit word path and the bit-level long-division path. -/
theorem C4_udiv_urem_by_zero (a : BV) (h1 : 1 ≤ a.width) (hc : canonical a) :
    btorsim_bv_udiv a (btorsim_bv_zero a.width) = btorsim_bv_ones a.width ∧
      btorsim_bv_urem a (btorsim_bv_zero a.width) = a := by
  have hz : btorsim_bv_to_uint64 (btorsim_bv_zero a.width) = 0 := rfl
  by_cases hw : a.width ≤ 64
  · have hq : udiv_urem_bv a (btorsim_bv_zero a.width)
        = (btorsim_bv_uint64_to_bv 18446744073709551615 a.width,
           btorsim_bv_uint64_to_bv (btorsim_bv_to_uint64 a) a.width) := by
      unfold udiv_urem_bv
      rw [if_pos hw]
      rfl
    constructor
    · show (udiv_urem_bv a (btorsim_bv_zero a.width)).1 = _
      rw [hq]
      rw [ones_eq]
      exact uint64_to_bv_max h1 hw
    · show (udiv_urem_bv a (btorsim_bv_zero a.width)).2 = _
      rw [hq]
      show btorsim_bv_uint64_to_bv a.bits a.width = a
      rw [uint64_to_bv_eq (canon_lt hc) hw]
  · have hgt : 64 < a.width := by omega
    have hneg : btorsim_bv_neg (btorsim_bv_zero a.width) = ⟨a.width, 0⟩ :=
      neg_zero_big hgt
    have hinit1 : (btorsim_bv_new a.width : BV) = ⟨a.width, 2 ^ a.width - 2 ^ a.width⟩ := by
      show (⟨a.width, 0⟩ : BV) = _
      congr 1
      omega
    have hinit2 : (btorsim_bv_new a.width : BV) = ⟨a.width, a.bits >>> a.width⟩ := by
      show (⟨a.width, 0⟩ : BV) = _
      congr 1
      rw [Nat.shiftRight_eq_div_pow]
      symm
      exact Nat.div_eq_of_lt (canon_lt hc)
    have hrun : udiv_urem_bv a (btorsim_bv_zero a.width)
        = (⟨a.width, 2 ^ a.width - 1⟩, ⟨a.width, a.bits⟩) := by
      unfold udiv_urem_bv
      rw [if_neg hw, hneg]
      calc udiv_urem_down a (btorsim_bv_zero a.width) ⟨a.width, 0⟩ a.width
            (btorsim_bv_new a.width, btorsim_bv_new a.width)
          = udiv_urem_down a (btorsim_bv_new a.width) ⟨a.width, 0⟩ a.width
            (⟨a.width, 2 ^ a.width - 2 ^ a.width⟩, ⟨a.width, a.bits >>> a.width⟩) := by
            rw [← hinit1, ← hinit2]; rfl
        _ = (⟨a.width, 2 ^ a.width - 1⟩, ⟨a.width, a.bits⟩) :=
            udiv_urem_down_zero hgt hc a.width le_rfl
    constructor
    · show (udiv_urem_bv a (btorsim_bv_zero a.width)).1 = _
      rw [hrun, ones_eq]
    · show (udiv_urem_bv a (btorsim_bv_zero a.width)).2 = _
      rw [hrun]

/-- Witness for C4: division by zero at width 2 (word path) and width 65
(bit-level path). -/
theorem C4_udiv_urem_by_zero_witness :
    (btorsim_bv_udiv ⟨2, 1⟩ (btorsim_bv_zero 2) = btorsim_bv_ones 2 ∧
      btorsim_bv_urem ⟨2, 1⟩ (btorsim_bv_zero 2) = ⟨2, 1⟩) ∧
    (btorsim_bv_udiv ⟨65, 7⟩ (btorsim_bv_zero 65) = btorsim_bv_ones 65 ∧
      btorsim_bv_urem ⟨65, 7⟩ (btorsim_bv_zero 65) = ⟨65, 7⟩) :=
  ⟨C4_udiv_urem_by_zero ⟨2, 1⟩ (by norm_num) (canon_of_lt (by norm_num)),
   C4_udiv_urem_by_zero ⟨65, 7⟩ (by norm_num) (canon_of_lt (by norm_num))⟩

/-- C3: when the shift amount — the full unsigned value of `b`, which is what
`btorsim_bv_to_uint64` returns for a canonical operand — is at least the
common width, both `sll` and `srl` return the all-zero vector of that
width. -/
theorem C3_shift_ge_width_yields_zero (a b : BV) (hw : b.width = a.width)
    (hs : a.width ≤ btorsim_bv_to_uint64 b) :
    btorsim_bv_sll a b = btorsim_bv_zero a.width ∧
      btorsim_bv_srl a b = btorsim_bv_zero a.width := by
  constructor
  · show sll_bv a (btorsim_bv_to_uint64 b) = btorsim_bv_zero a.width
    unfold sll_bv
    rw [if_pos hs]
    rfl
  · rw [srl_eq_ite, if_pos hs]
    rfl

/-- Witness for C3: shifting a 4-bit vector by 9 places. -/
theorem C3_shift_ge_width_witness :
    btorsim_bv_sll ⟨4, 5⟩ ⟨4, 9⟩ = btorsim_bv_zero 4 ∧
      btorsim_bv_srl ⟨4, 5⟩ ⟨4, 9⟩ = btorsim_bv_zero 4 :=
  C3_shift_ge_width_yields_zero ⟨4, 5⟩ ⟨4, 9⟩ rfl (by decide)

/-- C1 (code bug): at `a = 10₂` (most significant bit set) and shift `b = 01₂`
the code's `btorsim_bv_sra` returns `01₂` — exactly `btorsim_bv_srl`'s logical
shift, with the vacated high bit zero — although the arithmetic shift the
claim describes fills the vacated bit with `a`'s original most significant
bit, giving `11₂`.  The source computes `sign_b` (the sign bit of `b`) and
never uses it, and selects on `btorsim_bv_is_true (btorsim_bv_not a)` (width-1
test) instead of the sign bit of `a`. -/
theorem C1_sra_equals_srl_at_failing_input :
    btorsim_bv_sra ⟨2, 2⟩ ⟨2, 1⟩ = btorsim_bv_srl ⟨2, 2⟩ ⟨2, 1⟩ ∧
      btorsim_bv_sra ⟨2, 2⟩ ⟨2, 1⟩ = ⟨2, 1⟩ ∧
      btorsim_bv_get_bit ⟨2, 2⟩ 1 = true ∧
      (⟨2, 1⟩ : BV) ≠ ⟨2, 3⟩ := by
  refine ⟨?_, ?_, ?_, ?_⟩ <;> decide

end Btorsim

namespace Btorsim

/-! ## The btorsim evaluator and driver (`btorsim.c`) -/

/-- Line tags of the BTOR2 format as `btor2parser` classifies them. -/
inductive Tag
  | add | and | concat | const | constd | consth | dec | eq | implies | inc
  | ite | mul | nand | neg | neq | nor | not | one | ones | or | output
  | redand | redor | sdiv | sext | sgt | sgte | slice | sll | slt | slte
  | sra | srem | srl | sub | udiv | uext | ugt | ugte | ult | ulte | urem
  | xnor | xor | zero | iff
  | sort | input | state | init | next | bad | constraint | fair | justice
  | read | redxor | rol | ror | saddo | sdivo | smod | smulo | ssubo
  | uaddo | umulo | usubo | write
deriving DecidableEq, Repr

/-- One parsed model line (`Btor2Line`): identifier, tag, result sort width,
argument count and identifiers (a negative identifier means bitwise
complement; for `slice` the two immediates are stored at argument positions 1
and 2), the textual constant payload and the source line number. -/
structure Btor2Line where
  id : Int
  tag : Tag
  width : Nat
  nargs : Nat
  args : List Int
  constant : List Char
  lineno : Int
deriving DecidableEq, Repr

/-- The parsed model plus the tables btorsim's `parse_model` derives:
`lines` is `btor2parser_get_line_by_id`; `num_format_lines` the size of the
identifier-indexed tables (spec §9: a dense vector of length N + 1 indexed by
identifier, 0 unused — `btor2parser_max_id` is not part of this repository);
`inputs`/`states`/`bads`/`constraints` keep declaration order, and
`inits`/`nexts` map a state id to its `init`/`next` line. -/
structure Model where
  lines : Int → Option Btor2Line
  num_format_lines : Nat
  inputs : List Btor2Line
  states : List Btor2Line
  bads : List Btor2Line
  constraints : List Btor2Line
  inits : Int → Option Btor2Line
  nexts : Int → Option Btor2Line

/-- Argument sweep of `simulate`: `for (i = 0; i < l->nargs; i++)
args[i] = simulate (l->args[i])`, threading the memo table. -/
def eval_args (f : (Int → Option BV) → Int → Option (BV × (Int → Option BV))) :
    List Int → (Int → Option BV) → Option (List BV × (Int → Option BV))
  | [], cs => some ([], cs)
  | a :: rest, cs => do
      let r1 ← f cs a
      let r2 ← eval_args f rest r1.2
      some (r1.1 :: r2.1, r2.2)

/-- Operator dispatch of `simulate`'s `switch (l->tag)` applied to the
simulated argument values; `none` renders the `die` default (operators the
simulator refuses) and the argument-count mismatches the C guards only with
asserts. -/
def apply_op (l : Btor2Line) (argv : List BV) : Option BV :=
  match l.tag, argv with
  | .add, [a, b] => some (btorsim_bv_add a b)
  | .and, [a, b] => some (btorsim_bv_and a b)
  | .concat, [a, b] => some (btorsim_bv_concat a b)
  | .const, _ => some (btorsim_bv_char_to_bv l.constant)
  | .constd, _ => some (btorsim_bv_constd l.constant l.width)
  | .consth, _ => some (btorsim_bv_consth l.constant l.width)
  | .dec, [a] => some (btorsim_bv_dec a)
  | .eq, [a, b] => some (btorsim_bv_eq a b)
  | .implies, [a, b] => some (btorsim_bv_implies a b)
  | .inc, [a] => some (btorsim_bv_inc a)
  | .ite, [c, t, e] => some (btorsim_bv_ite c t e)
  | .mul, [a, b] => some (btorsim_bv_mul a b)
  | .nand, [a, b] => some (btorsim_bv_nand a b)
  | .neg, [a] => some (btorsim_bv_neg a)
  | .neq, [a, b] => some (btorsim_bv_neq a b)
  | .nor, [a, b] => some (btorsim_bv_nor a b)
  | .not, [a] => some (btorsim_bv_not a)
  | .one, _ => some (btorsim_bv_one l.width)
  | .ones, _ => some (btorsim_bv_ones l.width)
  | .or, [a, b] => some (btorsim_bv_or a b)
  | .redand, [a] => some (btorsim_bv_redand a)
  | .redor, [a] => some (btorsim_bv_redor a)
  | .slice, [a] =>
      some (btorsim_bv_slice a (l.args.getD 1 0).toNat (l.args.getD 2 0).toNat)
  | .sub, [a, b] => some (btorsim_bv_sub a b)
  | .uext, [a] =>
      some (if a.width < l.width then btorsim_bv_uext a (l.width - a.width)
            else btorsim_bv_copy a)
  | .udiv, [a, b] => some (btorsim_bv_udiv a b)
  | .sdiv, [a, b] => some (btorsim_bv_sdiv a b)
  | .sext, [a] =>
      some (if a.width < l.width then btorsim_bv_sext a (l.width - a.width)
            else btorsim_bv_copy a)
  | .sll, [a, b] => some (btorsim_bv_sll a b)
  | .srl, [a, b] => some (btorsim_bv_srl a b)
  | .sra, [a, b] => some (btorsim_bv_sra a b)
  | .srem, [a, b] => some (btorsim_bv_srem a b)
  | .ugt, [a, b] => some (btorsim_bv_ult b a)
  | .ugte, [a, b] => some (btorsim_bv_ulte b a)
  | .ult, [a, b] => some (btorsim_bv_ult a b)
  | .ulte, [a, b] => some (btorsim_bv_ulte a b)
  | .urem, [a, b] => some (btorsim_bv_urem a b)
  | .sgt, [a, b] => some (btorsim_bv_slt b a)
  | .sgte, [a, b] => some (btorsim_bv_slte b a)
  | .slt, [a, b] => some (btorsim_bv_slt a b)
  | .slte, [a, b] => some (btorsim_bv_slte a b)
  | .iff, [a, b] => some (btorsim_bv_xnor a b)
  | .xnor, [a, b] => some (btorsim_bv_xnor a b)
  | .xor, [a, b] => some (btorsim_bv_xor a b)
  | .zero, _ => some (btorsim_bv_zero l.width)
  | _, _ => none

/-- Positive-identifier part of `simulate`: return the memoised value if
`current_state[id]` is set, otherwise fetch the defining line, simulate its
arguments with `f`, apply the operator and memoise
(`update_current_state`). -/
def simulate_pos (m : Model)
    (f : (Int → Option BV) → Int → Option (BV × (Int → Option BV)))
    (cs : Int → Option BV) (pid : Int) : Option (BV × (Int → Option BV)) :=
  match cs pid with
  | some res => some (res, cs)
  | none =>
      match m.lines pid with
      | none => none
      | some l =>
          match eval_args f (l.args.take l.nargs) cs with
          | none => none
          | some ac =>
              match apply_op l ac.1 with
              | none => none
              | some res =>
                  some (res, fun j => if j = pid then some res else ac.2 j)

/-- `simulate`: strip the sign of the identifier, run the positive
computation, and complement the returned copy when the identifier was
negative.  `fuel` bounds the recursion depth (the C recursion terminates
because arguments refer to previously defined identifiers); `none` models
`die`. -/
def simulate (m : Model) :
    Nat → (Int → Option BV) → Int → Option (BV × (Int → Option BV))
  | 0, _, _ => none
  | fuel + 1, cs, id =>
      match simulate_pos m (simulate m fuel) cs (id.natAbs : Int) with
      | none => none
      | some rc =>
          some (if id < 0 then btorsim_bv_not rc.1 else rc.1, rc.2)

/-- Global simulation state of the driver: `current_state`, `next_state`,
`reached_bads`, `num_unreached_bads`, `constraints_violated` and the RNG. -/
structure SimSt where
  current : Int → Option BV
  nextst : Int → Option BV
  reached_bads : List Int
  num_unreached_bads : Int
  constraints_violated : Int
  rng : BtorSimRNG

/-- Tags `simulate_step`'s evaluation sweep skips. -/
def skip_tag (t : Tag) : Bool :=
  t == Tag.sort || t == Tag.init || t == Tag.next || t == Tag.bad ||
    t == Tag.constraint || t == Tag.fair || t == Tag.justice || t == Tag.output

/-- One iteration of the evaluation sweep of `simulate_step`: simulate line
`i` unless it is undefined or structural. -/
def simulate_step_eval_one (m : Model) (fuel : Nat) (acc : SimSt) (i : Nat) :
    Option SimSt :=
  match m.lines (i : Int) with
  | none => some acc
  | some l =>
      if skip_tag l.tag then some acc
      else
        match simulate m fuel acc.current (i : Int) with
        | none => none
        | some vc => some { acc with current := vc.2 }

/-- First block of `simulate_step`: evaluate every defined non-structural
line with identifier in `[0, num_format_lines)`. -/
def simulate_step_eval (m : Model) (fuel : Nat) (s : SimSt) : Option SimSt :=
  (List.range m.num_format_lines).foldlM (simulate_step_eval_one m fuel) s

/-- Second block of `simulate_step`: store each state's next value in
`next_state` — the simulated `next` argument, or (for states without `next`)
a fresh random value in random mode and a zero vector otherwise. -/
def simulate_step_nexts_one (m : Model) (fuel : Nat) (randomize : Bool)
    (acc : SimSt) (st : Btor2Line) : Option SimSt :=
  match m.nexts st.id with
  | some nx =>
      match simulate m fuel acc.current (nx.args.getD 1 0) with
      | none => none
      | some vc =>
          some { acc with
                 current := vc.2
                 nextst := fun j =>
                   if j = st.id then some vc.1 else acc.nextst j }
  | none =>
      if randomize then
        let r := btorsim_bv_new_random acc.rng st.width
        some { acc with
               rng := r.2
               nextst := fun j =>
                 if j = st.id then some r.1 else acc.nextst j }
      else
        some { acc with nextst := fun j =>
          if j = st.id then some (btorsim_bv_new st.width) else acc.nextst j }

/-- Second block of `simulate_step`, iterated over the states in order. -/
def simulate_step_nexts (m : Model) (fuel : Nat) (randomize : Bool)
    (s : SimSt) : Option SimSt :=
  m.states.foldlM (simulate_step_nexts_one m fuel randomize) s

/-- Third block of `simulate_step`: only while `constraints_violated < 0`,
record time `k` as `constraints_violated` for every constraint whose current
value is zero. -/
def simulate_step_constraints_one (k : Int) (acc : SimSt) (c : Btor2Line) :
    Option SimSt :=
  match acc.current (c.args.getD 0 0) with
  | none => none
  | some bv =>
      if btorsim_bv_is_zero bv then
        some { acc with constraints_violated := k }
      else some acc

/-- Third block of `simulate_step`, guarded by `constraints_violated < 0`. -/
def simulate_step_constraints (m : Model) (k : Int) (s : SimSt) : Option SimSt :=
  if s.constraints_violated < 0 then
    m.constraints.foldlM (simulate_step_constraints_one k) s
  else some s

/-- Fourth block of `simulate_step`: only while `constraints_violated < 0`,
record time `k` for every not-yet-reached bad property whose current value is
non-zero, decrementing `num_unreached_bads`. -/
def simulate_step_bads_one (k : Int) (acc : SimSt) (p : Nat × Btor2Line) :
    Option SimSt :=
  if 0 ≤ acc.reached_bads.getD p.1 (-1) then some acc
  else
    match acc.current (p.2.args.getD 0 0) with
    | none => none
    | some bv =>
        if btorsim_bv_is_zero bv then some acc
        else
          if 0 ≤ acc.reached_bads.getD p.1 (-1) then some acc
          else
            some { acc with
                   reached_bads := acc.reached_bads.set p.1 k
                   num_unreached_bads := acc.num_unreached_bads - 1 }

/-- Fourth block of `simulate_step`, guarded by `constraints_violated < 0`. -/
def simulate_step_bads (m : Model) (k : Int) (s : SimSt) : Option SimSt :=
  if s.constraints_violated < 0 then
    m.bads.enum.foldlM (simulate_step_bads_one k) s
  else some s

/-- `simulate_step`: the four blocks in source order. -/
def simulate_step (m : Model) (fuel : Nat) (k : Int) (randomize : Bool)
    (s : SimSt) : Option SimSt :=
  match simulate_step_eval m fuel s with
  | none => none
  | some s1 =>
      match simulate_step_nexts m fuel randomize s1 with
      | none => none
      | some s2 =>
          match simulate_step_constraints m k s2 with
          | none => none
          | some s3 => simulate_step_bads m k s3

/-- One iteration of `transition`'s second loop: move the state's
`next_state` value into `current_state` and clear the `next_state` slot.
(`transition` first deletes every `current_state` slot with identifier in
`[0, num_format_lines)`.) -/
def transition_promote (acc : SimSt) (st : Btor2Line) : SimSt :=
  { acc with
    current := fun j => if j = st.id then acc.nextst st.id else acc.current j
    nextst := fun j => if j = st.id then none else acc.nextst j }

/-- `transition` itself: the release sweep, then the promotion loop. -/
def transition (m : Model) (k : Int) (s : SimSt) : SimSt :=
  let _ := k
  m.states.foldl transition_promote
    { s with current := fun i =>
        if 0 ≤ i ∧ i < (m.num_format_lines : Int) then none else s.current i }

/-- `initialize_states` (at `#0`): a state already assigned keeps its value;
otherwise its `init` argument is simulated, or the value is drawn randomly
(random mode) / zeroed (checking mode). -/
def initialize_states_one (m : Model) (fuel : Nat) (randomly : Bool)
    (acc : SimSt) (st : Btor2Line) : Option SimSt :=
  if (acc.current st.id).isSome then some acc
  else
    match m.inits st.id with
    | some ini =>
        match simulate m fuel acc.current (ini.args.getD 1 0) with
        | none => none
        | some vc =>
            some { acc with current := fun j =>
              if j = st.id then some vc.1 else vc.2 j }
    | none =>
        if randomly then
          let r := btorsim_bv_new_random acc.rng st.width
          some { acc with
                 rng := r.2
                 current := fun j =>
                   if j = st.id then some r.1 else acc.current j }
        else
          some { acc with current := fun j =>
            if j = st.id then some (btorsim_bv_new st.width)
            else acc.current j }

/-- `initialize_states`, iterated over the states in order. -/
def initialize_states (m : Model) (fuel : Nat) (randomly : Bool) (s : SimSt) :
    Option SimSt :=
  m.states.foldlM (initialize_states_one m fuel randomly) s

/-- `initialize_inputs` at frame `k`: each input not already assigned gets a
random value (random mode) or a zero vector (checking mode). -/
def initialize_inputs_one (randomize : Bool) (acc : SimSt) (inp : Btor2Line) :
    SimSt :=
  if (acc.current inp.id).isSome then acc
  else
    if randomize then
      let r := btorsim_bv_new_random acc.rng inp.width
      { acc with
        rng := r.2
        current := fun j => if j = inp.id then some r.1 else acc.current j }
    else
      { acc with current := fun j =>
        if j = inp.id then some (btorsim_bv_new inp.width)
        else acc.current j }

/-- `initialize_inputs`, iterated over the inputs in order. -/
def initialize_inputs (m : Model) (k : Int) (randomize : Bool) (s : SimSt) :
    SimSt :=
  let _ := k
  m.inputs.foldl (initialize_inputs_one randomize) s

end Btorsim

namespace Btorsim

/-- `simulate` at positive fuel, spelled with `simulate_pos`. -/
theorem simulate_succ (m : Model) (fuel : Nat) (cs : Int → Option BV)
    (id : Int) :
    simulate m (fuel + 1) cs id =
      match simulate_pos m (simulate m fuel) cs (id.natAbs : Int) with
      | none => none
      | some rc =>
          some (if id < 0 then btorsim_bv_not rc.1 else rc.1, rc.2) := rfl

/-- A successful `simulate_pos` leaves the computed (non-complemented) value
of the positive node memoised in the returned `current_state`. -/
theorem simulate_pos_memo (m : Model)
    (f : (Int → Option BV) → Int → Option (BV × (Int → Option BV)))
    (cs : Int → Option BV) (pid : Int) (v : BV) (cs2 : Int → Option BV)
    (h : simulate_pos m f cs pid = some (v, cs2)) : cs2 pid = some v := by
  unfold simulate_pos at h
  split at h
  · rename_i res hc
    simp only [Option.some.injEq, Prod.mk.injEq] at h
    obtain ⟨hv, hcs⟩ := h
    rw [← hcs, hc, hv]
  · split at h
    · exact Option.noConfusion h
    · rename_i l hl
      split at h
      · exact Option.noConfusion h
      · rename_i ac ha
        split at h
        · exact Option.noConfusion h
        · rename_i res hr
          simp only [Option.some.injEq, Prod.mk.injEq] at h
          obtain ⟨hv, hcs⟩ := h
          rw [← hcs, ← hv]
          show (if pid = pid then some res else ac.2 pid) = some res
          rw [if_pos rfl]

/-- **C8.** For every node identifier `id` in `[1, N)` that has a defining
line, `simulate (-id)` returns exactly the bitwise complement of the value
returned by `simulate id` from the same memo table, and evaluating through
the negated identifier leaves the memoised non-complemented value of the
positive node in `current_state`. -/
theorem C8_simulate_negation (m : Model) (fuel : Nat)
    (cs : Int → Option BV) (id : Int) (h1 : 1 ≤ id)
    (h2 : id < (m.num_format_lines : Int)) (h3 : (m.lines id).isSome = true) :
    simulate m fuel cs (-id) =
      (simulate m fuel cs id).map (fun p => (btorsim_bv_not p.1, p.2)) ∧
    ∀ v cs2, simulate m fuel cs (-id) = some (v, cs2) →
      ∃ u, cs2 id = some u ∧ v = btorsim_bv_not u := by
  have hid : ((id.natAbs : Nat) : Int) = id := Int.natAbs_of_nonneg (by omega)
  have hna : (((-id).natAbs : Nat) : Int) = ((id.natAbs : Nat) : Int) := by
    rw [Int.natAbs_neg]
  cases fuel with
  | zero =>
      exact ⟨rfl, fun v cs2 h => Option.noConfusion h⟩
  | succ fuel =>
      have hmain :
          simulate m (fuel + 1) cs (-id) =
            (simulate m (fuel + 1) cs id).map
              (fun p => (btorsim_bv_not p.1, p.2)) := by
        rw [simulate_succ, simulate_succ, hna]
        rcases hp : simulate_pos m (simulate m fuel) cs ((id.natAbs : Nat) : Int)
          with _ | rc
        · rfl
        · show some (if -id < 0 then btorsim_bv_not rc.1 else rc.1, rc.2) =
            Option.map (fun p => (btorsim_bv_not p.1, p.2))
              (some (if id < 0 then btorsim_bv_not rc.1 else rc.1, rc.2))
          rw [if_pos (by omega : -id < 0), if_neg (by omega : ¬ id < 0)]
          rfl
      refine ⟨hmain, ?_⟩
      intro v cs2 h
      rw [hmain, simulate_succ] at h
      rcases hp : simulate_pos m (simulate m fuel) cs ((id.natAbs : Nat) : Int)
        with _ | rc
      · rw [hp] at h
        exact Option.noConfusion h
      · rw [hp] at h
        have h' : (some (btorsim_bv_not
              (if id < 0 then btorsim_bv_not rc.1 else rc.1), rc.2) :
            Option (BV × (Int → Option BV))) = some (v, cs2) := h
        rw [if_neg (by omega : ¬ id < 0)] at h'
        simp only [Option.some.injEq, Prod.mk.injEq] at h'
        obtain ⟨hv, hcs⟩ := h'
        have hm := simulate_pos_memo m (simulate m fuel) cs
          ((id.natAbs : Nat) : Int) rc.1 rc.2 (by rw [hp])
        rw [hid] at hm
        exact ⟨rc.1, by rw [← hcs]; exact hm, hv.symm⟩

/-- Example model for the negation law: `1 sort bitvec 1; 2 zero 1`. -/
def c8_line_zero : Btor2Line :=
  { id := 2, tag := Tag.zero, width := 1, nargs := 0, args := [],
    constant := [], lineno := 2 }

def c8_model : Model :=
  { lines := fun i => if i = 2 then some c8_line_zero else none
    num_format_lines := 3
    inputs := []
    states := []
    bads := []
    constraints := []
    inits := fun _ => none
    nexts := fun _ => none }

/-- The negation law at the example model, node 2, fuel 2, empty memo. -/
theorem C8_simulate_negation_witness :
    simulate c8_model 2 (fun _ => none) (-2) =
      (simulate c8_model 2 (fun _ => none) 2).map
        (fun p => (btorsim_bv_not p.1, p.2)) ∧
    ∀ v cs2, simulate c8_model 2 (fun _ => none) (-2) = some (v, cs2) →
      ∃ u, cs2 2 = some u ∧ v = btorsim_bv_not u :=
  C8_simulate_negation c8_model 2 (fun _ => none) 2 (by decide) (by decide)
    (by decide)

/-- Effect of `transition`'s promotion loop on `current_state` and
`next_state`, for any start accumulator and duplicate-free state ids:
identifiers outside the list keep their slots, listed states receive their
`next_state` value and a cleared slot. -/
theorem transition_fold_effect (l : List Btor2Line) (acc : SimSt)
    (hnd : (l.map Btor2Line.id).Nodup) :
    (∀ i : Int, (∀ st ∈ l, st.id ≠ i) →
      (l.foldl transition_promote acc).current i = acc.current i ∧
      (l.foldl transition_promote acc).nextst i = acc.nextst i) ∧
    (∀ st ∈ l,
      (l.foldl transition_promote acc).current st.id = acc.nextst st.id ∧
      (l.foldl transition_promote acc).nextst st.id = none) := by
  induction l generalizing acc with
  | nil =>
      refine ⟨fun i _ => ⟨rfl, rfl⟩, ?_⟩
      intro st h
      exact absurd h (List.not_mem_nil st)
  | cons st l ih =>
      have hnd' : (l.map Btor2Line.id).Nodup := (List.nodup_cons.mp hnd).2
      have hni : st.id ∉ l.map Btor2Line.id := (List.nodup_cons.mp hnd).1
      constructor
      · intro i hi
        have hsti : st.id ≠ i := hi st (List.mem_cons_self st l)
        have hu := (ih (transition_promote acc st) hnd').1 i
          (fun st' hst' => hi st' (List.mem_cons_of_mem st hst'))
        rw [List.foldl_cons]
        refine ⟨?_, ?_⟩
        · rw [hu.1]
          show (if i = st.id then acc.nextst st.id else acc.current i) =
            acc.current i
          rw [if_neg (fun he => hsti he.symm)]
        · rw [hu.2]
          show (if i = st.id then none else acc.nextst i) = acc.nextst i
          rw [if_neg (fun he => hsti he.symm)]
      · intro st' hst'
        rw [List.foldl_cons]
        rcases List.mem_cons.mp hst' with rfl | hmem
        · have hu := (ih (transition_promote acc st') hnd').1 st'.id
            (fun st2 hst2 hc => hni (hc ▸ List.mem_map_of_mem Btor2Line.id hst2))
          refine ⟨?_, ?_⟩
          · rw [hu.1]
            show (if st'.id = st'.id then acc.nextst st'.id
              else acc.current st'.id) = acc.nextst st'.id
            rw [if_pos rfl]
          · rw [hu.2]
            show (if st'.id = st'.id then none else acc.nextst st'.id) =
              (none : Option BV)
            rw [if_pos rfl]
        · have h2 := (ih (transition_promote acc st) hnd').2 st' hmem
          have hne : st'.id ≠ st.id := fun hc =>
            hni (hc ▸ List.mem_map_of_mem Btor2Line.id hmem)
          refine ⟨?_, h2.2⟩
          rw [h2.1]
          show (if st'.id = st.id then none else acc.nextst st'.id) =
            acc.nextst st'.id
          rw [if_neg hne]

/-- **C7.** After `transition`, assuming every state's `next_state` slot was
set by the preceding `simulate_step`, `current_state` is empty at every
in-range identifier that is not a state, and every state's `current_state`
holds the value previously in its `next_state` slot, which is cleared. -/
theorem C7_transition_effect (m : Model) (k : Int) (s : SimSt)
    (hnodup : (m.states.map Btor2Line.id).Nodup)
    (hset : ∀ st ∈ m.states, (s.nextst st.id).isSome = true) :
    (∀ i : Int, 0 ≤ i → i < (m.num_format_lines : Int) →
      (∀ st ∈ m.states, st.id ≠ i) → (transition m k s).current i = none) ∧
    (∀ st ∈ m.states,
      (transition m k s).current st.id = s.nextst st.id ∧
      (transition m k s).nextst st.id = none) := by
  have hfold := transition_fold_effect m.states
    { s with current := fun i =>
        if 0 ≤ i ∧ i < (m.num_format_lines : Int) then none else s.current i }
    hnodup
  constructor
  · intro i h0 hN hns
    show (m.states.foldl transition_promote
      { s with current := fun i =>
          if 0 ≤ i ∧ i < (m.num_format_lines : Int) then none
          else s.current i }).current i = none
    rw [(hfold.1 i hns).1]
    show (if 0 ≤ i ∧ i < (m.num_format_lines : Int) then none
      else s.current i) = none
    rw [if_pos ⟨h0, hN⟩]
  · intro st hst
    exact ⟨(hfold.2 st hst).1, (hfold.2 st hst).2⟩

/-- Example for `transition`: a single one-bit state (id 2) whose
`next_state` slot holds 1. -/
def c7_line_state : Btor2Line :=
  { id := 2, tag := Tag.state, width := 1, nargs := 0, args := [],
    constant := [], lineno := 2 }

def c7_line_next : Btor2Line :=
  { id := 3, tag := Tag.next, width := 1, nargs := 2, args := [2, 2],
    constant := [], lineno := 3 }

def c7_model : Model :=
  { lines := fun i =>
      if i = 2 then some c7_line_state
      else if i = 3 then some c7_line_next else none
    num_format_lines := 4
    inputs := []
    states := [c7_line_state]
    bads := []
    constraints := []
    inits := fun _ => none
    nexts := fun i => if i = 2 then some c7_line_next else none }

def c7_state : SimSt :=
  { current := fun i => if i = 2 then some (btorsim_bv_new 1) else none
    nextst := fun i => if i = 2 then some (btorsim_bv_one 1) else none
    reached_bads := []
    num_unreached_bads := 0
    constraints_violated := -1
    rng := btorsim_rng_init 0 }

/-- The `transition` frame effect at the one-state example. -/
theorem C7_transition_effect_witness :
    (transition c7_model 1 c7_state).current 2 = some (btorsim_bv_one 1) ∧
    (transition c7_model 1 c7_state).nextst 2 = none ∧
    (transition c7_model 1 c7_state).current 3 = none := by
  have h := C7_transition_effect c7_model 1 c7_state (by decide) (by decide)
  have h2 := h.2 c7_line_state (List.mem_cons_self c7_line_state [])
  exact ⟨h2.1.trans rfl, h2.2, h.1 3 (by decide) (by decide) (by decide)⟩

end Btorsim

namespace Btorsim

/-- A transitive binary property on simulation states survives a successful
`foldlM` whose step satisfies it. -/
theorem foldlM_some {α : Type} (f : SimSt → α → Option SimSt)
    (P : SimSt → SimSt → Prop) (hrefl : ∀ b, P b b)
    (htrans : ∀ a b c, P a b → P b c → P a c)
    (hf : ∀ b a b', f b a = some b' → P b b') :
    ∀ (l : List α) (b b' : SimSt), l.foldlM f b = some b' → P b b' := by
  intro l
  induction l with
  | nil =>
      intro b b' h
      rw [List.foldlM_nil] at h
      cases h
      exact hrefl b
  | cons x xs ih =>
      intro b b' h
      rw [List.foldlM_cons] at h
      rcases hx : f b x with _ | b1
      · rw [hx] at h
        exact Option.noConfusion h
      · rw [hx] at h
        exact htrans b b1 b' (hf b x b1 hx) (ih b1 b' h)

/-- A property preserved by a plain `foldl` step survives the fold. -/
theorem foldl_simst {α : Type} (f : SimSt → α → SimSt)
    (hf : ∀ b a, (f b a).reached_bads = b.reached_bads ∧
      (f b a).constraints_violated = b.constraints_violated) :
    ∀ (l : List α) (b : SimSt),
      (l.foldl f b).reached_bads = b.reached_bads ∧
      (l.foldl f b).constraints_violated = b.constraints_violated := by
  intro l
  induction l with
  | nil => intro b; exact ⟨rfl, rfl⟩
  | cons x xs ih =>
      intro b
      rw [List.foldl_cons]
      exact ⟨(ih (f b x)).1.trans (hf b x).1,
        (ih (f b x)).2.trans (hf b x).2⟩

/-- The evaluation sweep touches neither `reached_bads` nor
`constraints_violated`. -/
theorem simulate_step_eval_frame (m : Model) (fuel : Nat) (s s' : SimSt)
    (h : simulate_step_eval m fuel s = some s') :
    s'.reached_bads = s.reached_bads ∧
      s'.constraints_violated = s.constraints_violated := by
  refine foldlM_some (simulate_step_eval_one m fuel)
    (fun b b' => b'.reached_bads = b.reached_bads ∧
      b'.constraints_violated = b.constraints_violated)
    (fun b => ⟨rfl, rfl⟩)
    (fun a b c hab hbc => ⟨hbc.1.trans hab.1, hbc.2.trans hab.2⟩)
    ?_ (List.range m.num_format_lines) s s' h
  intro b a b' hf
  unfold simulate_step_eval_one at hf
  split at hf
  · cases hf
    exact ⟨rfl, rfl⟩
  · split at hf
    · cases hf
      exact ⟨rfl, rfl⟩
    · split at hf
      · exact Option.noConfusion hf
      · cases hf
        exact ⟨rfl, rfl⟩

/-- The next-state sweep touches neither `reached_bads` nor
`constraints_violated`. -/
theorem simulate_step_nexts_frame (m : Model) (fuel : Nat) (rnd : Bool)
    (s s' : SimSt) (h : simulate_step_nexts m fuel rnd s = some s') :
    s'.reached_bads = s.reached_bads ∧
      s'.constraints_violated = s.constraints_violated := by
  refine foldlM_some (simulate_step_nexts_one m fuel rnd)
    (fun b b' => b'.reached_bads = b.reached_bads ∧
      b'.constraints_violated = b.constraints_violated)
    (fun b => ⟨rfl, rfl⟩)
    (fun a b c hab hbc => ⟨hbc.1.trans hab.1, hbc.2.trans hab.2⟩)
    ?_ m.states s s' h
  intro b a b' hf
  unfold simulate_step_nexts_one at hf
  split at hf
  · split at hf
    · exact Option.noConfusion hf
    · cases hf
      exact ⟨rfl, rfl⟩
  · split at hf
    · cases hf
      exact ⟨rfl, rfl⟩
    · cases hf
      exact ⟨rfl, rfl⟩

/-- A guarded block is the identity once the violation marker is set. -/
theorem simulate_step_constraints_id (m : Model) (k : Int) (s : SimSt)
    (h : ¬ s.constraints_violated < 0) :
    simulate_step_constraints m k s = some s := by
  unfold simulate_step_constraints
  rw [if_neg h]

theorem simulate_step_bads_id (m : Model) (k : Int) (s : SimSt)
    (h : ¬ s.constraints_violated < 0) :
    simulate_step_bads m k s = some s := by
  unfold simulate_step_bads
  rw [if_neg h]

/-- The constraint sweep touches neither `current_state` nor
`reached_bads`. -/
theorem simulate_step_constraints_frame (m : Model) (k : Int) (s s' : SimSt)
    (h : simulate_step_constraints m k s = some s') :
    s'.current = s.current ∧ s'.reached_bads = s.reached_bads := by
  unfold simulate_step_constraints at h
  by_cases hc : s.constraints_violated < 0
  · rw [if_pos hc] at h
    refine foldlM_some (simulate_step_constraints_one k)
      (fun b b' => b'.current = b.current ∧ b'.reached_bads = b.reached_bads)
      (fun b => ⟨rfl, rfl⟩)
      (fun a b c hab hbc => ⟨hbc.1.trans hab.1, hbc.2.trans hab.2⟩)
      ?_ m.constraints s s' h
    intro b a b' hf
    unfold simulate_step_constraints_one at hf
    split at hf
    · exact Option.noConfusion hf
    · split at hf
      · cases hf
        exact ⟨rfl, rfl⟩
      · cases hf
        exact ⟨rfl, rfl⟩
  · rw [if_neg hc] at h
    cases h
    exact ⟨rfl, rfl⟩

/-- The bad sweep touches neither `current_state` nor
`constraints_violated`. -/
theorem simulate_step_bads_frame (m : Model) (k : Int) (s s' : SimSt)
    (h : simulate_step_bads m k s = some s') :
    s'.current = s.current ∧
      s'.constraints_violated = s.constraints_violated := by
  unfold simulate_step_bads at h
  by_cases hc : s.constraints_violated < 0
  · rw [if_pos hc] at h
    refine foldlM_some (simulate_step_bads_one k)
      (fun b b' => b'.current = b.current ∧
        b'.constraints_violated = b.constraints_violated)
      (fun b => ⟨rfl, rfl⟩)
      (fun a b c hab hbc => ⟨hbc.1.trans hab.1, hbc.2.trans hab.2⟩)
      ?_ m.bads.enum s s' h
    intro b a b' hf
    unfold simulate_step_bads_one at hf
    split at hf
    · cases hf
      exact ⟨rfl, rfl⟩
    · split at hf
      · exact Option.noConfusion hf
      · split at hf
        · cases hf
          exact ⟨rfl, rfl⟩
        · cases hf
          exact ⟨rfl, rfl⟩
  · rw [if_neg hc] at h
    cases h
    exact ⟨rfl, rfl⟩

/-- The constraint sweep step, with the looked-up constraint value
exposed. -/
theorem simulate_step_constraints_one_eq (k : Int) (b : SimSt)
    (c : Btor2Line) (bv : BV) (hv : b.current (c.args.getD 0 0) = some bv) :
    simulate_step_constraints_one k b c =
      if btorsim_bv_is_zero bv = true then
        some { b with constraints_violated := k }
      else some b := by
  unfold simulate_step_constraints_one
  rw [hv]

/-- The constraint sweep sets the violation marker to `k` as soon as some
constraint in the remaining list reads zero (or it is already `k`). -/
theorem constraints_fold_hits (k : Int) :
    ∀ (l : List Btor2Line) (b b' : SimSt),
      l.foldlM (simulate_step_constraints_one k) b = some b' →
      ((∃ c ∈ l, ∃ bv, b.current (c.args.getD 0 0) = some bv ∧
          btorsim_bv_is_zero bv = true) ∨ b.constraints_violated = k) →
      b'.constraints_violated = k := by
  intro l
  induction l with
  | nil =>
      intro b b' h hex
      rw [List.foldlM_nil] at h
      cases h
      rcases hex with ⟨c, hc, _⟩ | hk
      · exact absurd hc (List.not_mem_nil c)
      · exact hk
  | cons c l ih =>
      intro b b' h hex
      rw [List.foldlM_cons] at h
      rcases hv : b.current (c.args.getD 0 0) with _ | bv
      · rw [show simulate_step_constraints_one k b c = none by
          unfold simulate_step_constraints_one; rw [hv]] at h
        exact Option.noConfusion h
      · rw [simulate_step_constraints_one_eq k b c bv hv] at h
        by_cases hz : btorsim_bv_is_zero bv = true
        · rw [if_pos hz] at h
          exact ih _ b' h (Or.inr rfl)
        · rw [if_neg hz] at h
          refine ih b b' h ?_
          rcases hex with ⟨c', hc', bv', hbv', hz'⟩ | hk
          · rcases List.mem_cons.mp hc' with rfl | hmem
            · rw [hv] at hbv'
              injection hbv' with he
              rw [← he] at hz'
              exact absurd hz' hz
            · exact Or.inl ⟨c', hmem, bv', hbv', hz'⟩
          · exact Or.inr hk

/-- Splitting a successful `simulate_step` into its four blocks. -/
theorem simulate_step_split (m : Model) (fuel : Nat) (k : Int) (rnd : Bool)
    (s s' : SimSt) (h : simulate_step m fuel k rnd s = some s') :
    ∃ s1 s2 s3, simulate_step_eval m fuel s = some s1 ∧
      simulate_step_nexts m fuel rnd s1 = some s2 ∧
      simulate_step_constraints m k s2 = some s3 ∧
      simulate_step_bads m k s3 = some s' := by
  unfold simulate_step at h
  rcases h1 : simulate_step_eval m fuel s with _ | s1
  · rw [h1] at h
    exact Option.noConfusion h
  · rw [h1] at h
    have ha : (match simulate_step_nexts m fuel rnd s1 with
      | none => none
      | some s2 =>
          match simulate_step_constraints m k s2 with
          | none => none
          | some s3 => simulate_step_bads m k s3) = some s' := h
    rcases h2 : simulate_step_nexts m fuel rnd s1 with _ | s2
    · rw [h2] at ha
      exact Option.noConfusion ha
    · rw [h2] at ha
      have hb : (match simulate_step_constraints m k s2 with
        | none => none
        | some s3 => simulate_step_bads m k s3) = some s' := ha
      rcases h3 : simulate_step_constraints m k s2 with _ | s3
      · rw [h3] at hb
        exact Option.noConfusion hb
      · rw [h3] at hb
        exact ⟨s1, s2, s3, rfl, h2, h3, hb⟩

/-- **C6.** Once a constraint is violated no bad property is newly recorded:
a step entered with the marker set leaves `reached_bads` and the marker
unchanged; the violating step itself (marker unset, some constraint's current
value zero) sets the marker to the step number before the bad sweep runs and
records no bad; and `transition`, `initialize_inputs` and `initialize_states`
never touch the marker or `reached_bads`. -/
theorem C6_constraint_violation_stops_bads (m : Model) :
    (∀ fuel k rnd s s', 0 ≤ s.constraints_violated →
        simulate_step m fuel k rnd s = some s' →
        s'.reached_bads = s.reached_bads ∧
          s'.constraints_violated = s.constraints_violated) ∧
    (∀ fuel k rnd s s', s.constraints_violated < 0 → 0 ≤ k →
        simulate_step m fuel k rnd s = some s' →
        (∃ c ∈ m.constraints, ∃ bv,
          s'.current (c.args.getD 0 0) = some bv ∧
            btorsim_bv_is_zero bv = true) →
        s'.constraints_violated = k ∧ s'.reached_bads = s.reached_bads) ∧
    (∀ k s, (transition m k s).reached_bads = s.reached_bads ∧
      (transition m k s).constraints_violated = s.constraints_violated) ∧
    (∀ k rnd s, (initialize_inputs m k rnd s).reached_bads = s.reached_bads ∧
      (initialize_inputs m k rnd s).constraints_violated =
        s.constraints_violated) ∧
    (∀ fuel rnd s s', initialize_states m fuel rnd s = some s' →
      s'.reached_bads = s.reached_bads ∧
        s'.constraints_violated = s.constraints_violated) := by
  refine ⟨?_, ?_, ?_, ?_, ?_⟩
  · intro fuel k rnd s s' hcv h
    obtain ⟨s1, s2, s3, h1, h2, h3, h4⟩ :=
      simulate_step_split m fuel k rnd s s' h
    have p1 := simulate_step_eval_frame m fuel s s1 h1
    have p2 := simulate_step_nexts_frame m fuel rnd s1 s2 h2
    have hcv2 : ¬ s2.constraints_violated < 0 := by
      rw [p2.2, p1.2]; omega
    have e3 := simulate_step_constraints_id m k s2 hcv2
    rw [h3] at e3
    injection e3 with e3
    have hcv3 : ¬ s3.constraints_violated < 0 := by rw [← e3] at hcv2; exact hcv2
    have e4 := simulate_step_bads_id m k s3 hcv3
    rw [h4] at e4
    injection e4 with e4
    rw [e4, e3, p2.1, p1.1, p2.2, p1.2]
    exact ⟨rfl, rfl⟩
  · intro fuel k rnd s s' hcv hk h hex
    obtain ⟨s1, s2, s3, h1, h2, h3, h4⟩ :=
      simulate_step_split m fuel k rnd s s' h
    have p1 := simulate_step_eval_frame m fuel s s1 h1
    have p2 := simulate_step_nexts_frame m fuel rnd s1 s2 h2
    have p3 := simulate_step_constraints_frame m k s2 s3 h3
    have p4 := simulate_step_bads_frame m k s3 s' h4
    have hcv2 : s2.constraints_violated < 0 := by
      rw [p2.2, p1.2]; exact hcv
    have hex2 : ∃ c ∈ m.constraints, ∃ bv,
        s2.current (c.args.getD 0 0) = some bv ∧
          btorsim_bv_is_zero bv = true := by
      rcases hex with ⟨c, hc, bv, hbv, hz⟩
      refine ⟨c, hc, bv, ?_, hz⟩
      rw [← p3.1, ← p4.1]
      exact hbv
    have hcvk : s3.constraints_violated = k := by
      have h3' := h3
      unfold simulate_step_constraints at h3'
      rw [if_pos hcv2] at h3'
      exact constraints_fold_hits k m.constraints s2 s3 h3' (Or.inl hex2)
    have hcv3 : ¬ s3.constraints_violated < 0 := by omega
    have e4 := simulate_step_bads_id m k s3 hcv3
    rw [h4] at e4
    injection e4 with e4
    rw [e4]
    refine ⟨hcvk, ?_⟩
    rw [p3.2, p2.1, p1.1]
  · intro k s
    exact foldl_simst transition_promote (fun b a => ⟨rfl, rfl⟩) m.states
      { s with current := fun i =>
          if 0 ≤ i ∧ i < (m.num_format_lines : Int) then none
          else s.current i }
  · intro k rnd s
    refine foldl_simst (initialize_inputs_one rnd) ?_ m.inputs s
    intro b a
    unfold initialize_inputs_one
    split
    · exact ⟨rfl, rfl⟩
    · split
      · exact ⟨rfl, rfl⟩
      · exact ⟨rfl, rfl⟩
  · intro fuel rnd s s' h
    refine foldlM_some (initialize_states_one m fuel rnd)
      (fun b b' => b'.reached_bads = b.reached_bads ∧
        b'.constraints_violated = b.constraints_violated)
      (fun b => ⟨rfl, rfl⟩)
      (fun a b c hab hbc => ⟨hbc.1.trans hab.1, hbc.2.trans hab.2⟩)
      ?_ m.states s s' h
    intro b a b' hf
    unfold initialize_states_one at hf
    split at hf
    · cases hf
      exact ⟨rfl, rfl⟩
    · split at hf
      · split at hf
        · exact Option.noConfusion hf
        · cases hf
          exact ⟨rfl, rfl⟩
      · split at hf
        · cases hf
          exact ⟨rfl, rfl⟩
        · cases hf
          exact ⟨rfl, rfl⟩

end Btorsim

namespace Btorsim

/-- Example for the constraint guard: a violated one-bit constraint (on a
`zero` node) next to a bad property (on a `one` node) that would otherwise
fire. -/
def c6_line_zero : Btor2Line :=
  { id := 2, tag := Tag.zero, width := 1, nargs := 0, args := [],
    constant := [], lineno := 2 }

def c6_line_constraint : Btor2Line :=
  { id := 3, tag := Tag.constraint, width := 0, nargs := 1, args := [2],
    constant := [], lineno := 3 }

def c6_line_one : Btor2Line :=
  { id := 4, tag := Tag.one, width := 1, nargs := 0, args := [],
    constant := [], lineno := 4 }

def c6_line_bad : Btor2Line :=
  { id := 5, tag := Tag.bad, width := 0, nargs := 1, args := [4],
    constant := [], lineno := 5 }

def c6_model : Model :=
  { lines := fun i =>
      if i = 2 then some c6_line_zero
      else if i = 3 then some c6_line_constraint
      else if i = 4 then some c6_line_one
      else if i = 5 then some c6_line_bad else none
    num_format_lines := 6
    inputs := []
    states := []
    bads := [c6_line_bad]
    constraints := [c6_line_constraint]
    inits := fun _ => none
    nexts := fun _ => none }

def c6_start : SimSt :=
  { current := fun _ => none
    nextst := fun _ => none
    reached_bads := [-1]
    num_unreached_bads := 1
    constraints_violated := -1
    rng := btorsim_rng_init 0 }

/-- At the example, step 0 records the constraint violation and leaves the
bad property unreached. -/
theorem C6_constraint_violation_stops_bads_witness :
    (simulate_step c6_model 2 0 false c6_start).map
      (fun s => (s.constraints_violated, s.reached_bads)) = some (0, [-1]) := by
  have hsome : (simulate_step c6_model 2 0 false c6_start).isSome = true := by
    decide
  obtain ⟨s', hs'⟩ := Option.isSome_iff_exists.mp hsome
  have hcur : s'.current 2 = some (btorsim_bv_new 1) := by
    have hmap : (simulate_step c6_model 2 0 false c6_start).map
        (fun s => s.current 2) = some (some (btorsim_bv_new 1)) := by decide
    rw [hs'] at hmap
    injection hmap
  have hc := (C6_constraint_violation_stops_bads c6_model).2.1 2 0 false
    c6_start s' (by decide) (by decide) hs'
    ⟨c6_line_constraint, by decide, btorsim_bv_new 1, hcur, by decide⟩
  rw [hs']
  show some (s'.constraints_violated, s'.reached_bads) = some (0, [-1])
  rw [hc.1, hc.2]
  rfl

end Btorsim

namespace Btorsim

/-! ## The witness checker (`btorsim.c`, parsing side) -/

/-- The distinct `parse_error` messages of the witness parser, with their
format arguments. -/
inductive ErrMsg
  | unexpected_digit_after_zero (ch : Int)
  | expected_digit
  | number_too_large_digits
  | number_too_large
  | unexpected_eof_without_dot
  | eof_after_dot
  | unexpected_char_after_dot (ch : Int)
  | unexpected_code_after_dot (ch : Int)
  | space_missing (res : Int)
  | cannot_handle_array
  | empty_constant
  | unexpected_eof_in_assignment
  | missing_state_header (k : Int)
  | less_than_states_defined (pos : Int)
  | expected_constant_of_width (w : Nat)
  | state_assigned_twice (pos id k : Int)
  | incompatible_initialized (pos id : Int)
  | incompatible_assignment (pos id k : Int)
  | less_than_inputs_defined (pos : Int)
  | input_assigned_twice (pos id k : Int)
  | expected_b_or_j
  | unexpected_after_number (ch : Int)
  | invalid_bad_number (bad : Int)
  | cannot_handle_justice
  | initial_frame_missing
  | unexpected_eof_before_newline
deriving DecidableEq, Repr

/-- The `die` messages reachable from the witness parser. -/
inductive DieMsg
  | more_than_one_witness
  | unsat_not_supported
  | claimed_bad_not_reached (pos id : Int)
  | simulate_failure
  | null_pointer
deriving DecidableEq, Repr

/-- How a checker run ends abnormally: `parse_error` carries the reported
line and column (`exit 1`), `die` exits 1 without a position, and `fuel`
marks exhaustion of the artificial recursion bound (no C counterpart; never
reached with enough fuel). -/
inductive Failure
  | parse_error (lineno columno : Int) (msg : ErrMsg)
  | die (msg : DieMsg)
  | fuel
deriving DecidableEq, Repr

/-- The parser globals of `btorsim.c`: the unread input (`witness_file`),
the pushed-back character, the position counters, the `constant` and
`symbol` stacks, the per-witness flags and counters, the claimed bad list
and the simulator state. A character is its code as `Int`; end-of-file is
`-1`. -/
structure WitSt where
  input : List Char
  saved_char : Int
  char_saved : Bool
  charno : Int
  columno : Int
  lineno : Int
  last_line_length : Int
  constant : List Char
  symbol : List Char
  constant_columno : Int
  found_end_of_witness : Bool
  found_initial_frame : Bool
  count_sat_witnesses : Int
  count_unsat_witnesses : Int
  count_unknown_witnesses : Int
  count_witnesses : Int
  claimed_bad_witnesses : List Int
  sim : SimSt

/-- `next_char`: pop the saved character or read from the input, updating
`lineno`, `columno`, `last_line_length` and `charno`. -/
def next_char (w : WitSt) : Int × WitSt :=
  let p : Int × WitSt :=
    if w.char_saved then (w.saved_char, { w with char_saved := false })
    else
      match w.input with
      | [] => (-1, w)
      | c :: rest => ((c.toNat : Int), { w with input := rest })
  let res := p.1
  let w1 := p.2
  let w2 :=
    if res = 10 then
      { w1 with
        last_line_length := w1.columno
        columno := 0
        lineno := w1.lineno + 1 }
    else if res ≠ -1 then { w1 with columno := w1.columno + 1 }
    else w1
  (res, if res ≠ -1 then { w2 with charno := w2.charno + 1 } else w2)

/-- `prev_char`: push a character back, undoing the counter updates. -/
def prev_char (ch : Int) (w : WitSt) : WitSt :=
  let w1 :=
    if ch = 10 then
      { w with
        columno := w.last_line_length
        lineno := w.lineno - 1 }
    else if ch ≠ -1 then
      { w with
        charno := w.charno - 1
        columno := w.columno - 1 }
    else w
  { w1 with
    saved_char := ch
    char_saved := true }

/-- `isdigit` on character codes. -/
def isdigit (ch : Int) : Bool := decide (48 ≤ ch ∧ ch ≤ 57)

/-- `isprint` on character codes. -/
def isprint (ch : Int) : Bool := decide (32 ≤ ch ∧ ch ≤ 126)

/-- `LONG_MAX`. -/
def long_max : Int := 9223372036854775807

/-- The digit loop of `parse_unsigned_number`, carrying the value read so
far; returns the value and the first non-digit character. -/
def parse_unsigned_number_loop :
    Nat → Int → WitSt → Except Failure ((Int × Int) × WitSt)
  | 0, _, _ => Except.error Failure.fuel
  | fuel + 1, res, w =>
      let p := next_char w
      if isdigit p.1 then
        if long_max / 10 < res then
          Except.error (Failure.parse_error p.2.lineno p.2.columno
            ErrMsg.number_too_large_digits)
        else
          let res1 := res * 10
          let digit := p.1 - 48
          if long_max - digit < res1 then
            Except.error (Failure.parse_error p.2.lineno p.2.columno
              ErrMsg.number_too_large)
          else parse_unsigned_number_loop fuel (res1 + digit) p.2
      else Except.ok ((res, p.1), p.2)

/-- `parse_unsigned_number`: a single `0`, or a non-empty digit string; the
result is paired with the first character after the number (`*ch_ptr`). -/
def parse_unsigned_number (fuel : Nat) (w : WitSt) :
    Except Failure ((Int × Int) × WitSt) :=
  let p := next_char w
  if p.1 = 48 then
    let q := next_char p.2
    if isdigit q.1 then
      Except.error (Failure.parse_error q.2.lineno q.2.columno
        (ErrMsg.unexpected_digit_after_zero q.1))
    else Except.ok ((0, q.1), q.2)
  else if isdigit p.1 then parse_unsigned_number_loop fuel (p.1 - 48) p.2
  else
    Except.error (Failure.parse_error p.2.lineno p.2.columno
      ErrMsg.expected_digit)

/-- The space-skipping loop after a terminating `.`. -/
def skip_spaces : Nat → WitSt → Except Failure (Int × WitSt)
  | 0, _ => Except.error Failure.fuel
  | fuel + 1, w =>
      let p := next_char w
      if p.1 = 32 then skip_spaces fuel p.2 else Except.ok (p.1, p.2)

/-- The `0`/`1` loop filling the `constant` stack; returns the collected
characters and the first other character. -/
def read_constant_loop :
    Nat → List Char → WitSt → Except Failure ((List Char × Int) × WitSt)
  | 0, _, _ => Except.error Failure.fuel
  | fuel + 1, acc, w =>
      let p := next_char w
      if p.1 = 48 ∨ p.1 = 49 then
        read_constant_loop fuel (acc ++ [Char.ofNat p.1.toNat]) p.2
      else Except.ok ((acc, p.1), p.2)

/-- The loop filling the `symbol` stack up to the end of the line. -/
def read_symbol_loop :
    Nat → List Char → Int → WitSt → Except Failure (List Char × WitSt)
  | 0, _, _, _ => Except.error Failure.fuel
  | fuel + 1, acc, ch, w =>
      if ch = 10 then Except.ok (acc, w)
      else
        let p := next_char w
        if p.1 = -1 then
          Except.error (Failure.parse_error p.2.lineno p.2.columno
            ErrMsg.unexpected_eof_in_assignment)
        else if p.1 ≠ 10 then
          read_symbol_loop fuel (acc ++ [Char.ofNat p.1.toNat]) p.1 p.2
        else read_symbol_loop fuel acc p.1 p.2

/-- `parse_assignment`: `-1` for a terminating `.` (setting
`found_end_of_witness`) or a following `@`/`#` header, otherwise the
assignment's position number, with the `constant` and `symbol` stacks and
`constant_columno` updated.  (The second emptiness test of the C after the
`empty constant` error is unreachable and not modelled.) -/
def parse_assignment (fuel : Nat) (w0 : WitSt) :
    Except Failure (Int × WitSt) :=
  let p := next_char w0
  if p.1 = -1 then
    Except.error (Failure.parse_error p.2.lineno p.2.columno
      ErrMsg.unexpected_eof_without_dot)
  else if p.1 = 46 then
    match skip_spaces fuel p.2 with
    | Except.error e => Except.error e
    | Except.ok (ch, w1) =>
        if ch = -1 then
          Except.error (Failure.parse_error w1.lineno w1.columno
            ErrMsg.eof_after_dot)
        else if ch ≠ 10 then
          if isprint ch then
            Except.error (Failure.parse_error w1.lineno w1.columno
              (ErrMsg.unexpected_char_after_dot ch))
          else
            Except.error (Failure.parse_error w1.lineno w1.columno
              (ErrMsg.unexpected_code_after_dot ch))
        else Except.ok (-1, { w1 with found_end_of_witness := true })
  else if p.1 = 64 ∨ p.1 = 35 then Except.ok (-1, prev_char p.1 p.2)
  else
    match parse_unsigned_number fuel (prev_char p.1 p.2) with
    | Except.error e => Except.error e
    | Except.ok ((res, ch), w2) =>
        if ch ≠ 32 then
          Except.error (Failure.parse_error w2.lineno w2.columno
            (ErrMsg.space_missing res))
        else
          let w3 := { w2 with
            constant := []
            constant_columno := w2.columno + 1 }
          match read_constant_loop fuel [] w3 with
          | Except.error e => Except.error e
          | Except.ok ((cst, ch2), w4) =>
              let w5 := { w4 with constant := cst }
              if ch2 = 91 then
                Except.error (Failure.parse_error w5.lineno w5.columno
                  ErrMsg.cannot_handle_array)
              else if cst.isEmpty then
                Except.error (Failure.parse_error w5.lineno w5.columno
                  ErrMsg.empty_constant)
              else
                match read_symbol_loop fuel [] ch2 { w5 with symbol := [] } with
                | Except.error e => Except.error e
                | Except.ok (sym, w6) => Except.ok (res, { w6 with symbol := sym })

end Btorsim

namespace Btorsim

/-- Default line for guarded stack peeks (the C asserts the entry exists). -/
def dummy_line : Btor2Line :=
  { id := 0, tag := Tag.sort, width := 0, nargs := 0, args := [],
    constant := [], lineno := 0 }

/-- The assignment loop of `parse_state_part` at frame `k`: repeat
`parse_assignment` until it reports `-1`, checking each assignment against
the model and recording it in `current_state`.  `simfuel` bounds the
embedded `simulate` recursion. -/
def parse_state_part_loop (m : Model) (simfuel : Nat) :
    Nat → Int → WitSt → Except Failure WitSt
  | 0, _, _ => Except.error Failure.fuel
  | fuel + 1, k, w =>
      match parse_assignment fuel w with
      | Except.error e => Except.error e
      | Except.ok (state_pos, w1) =>
          if state_pos < 0 then Except.ok w1
          else
            let saved_charno := w1.charno
            let w2 := { w1 with
              charno := 1
              lineno := w1.lineno - 1 }
            if (m.states.length : Int) ≤ state_pos then
              Except.error (Failure.parse_error w2.lineno w2.columno
                (ErrMsg.less_than_states_defined state_pos))
            else
              let state := m.states.getD state_pos.toNat dummy_line
              if w2.constant.length ≠ state.width then
                let w3 := { w2 with charno := w2.constant_columno }
                Except.error (Failure.parse_error w3.lineno w3.columno
                  (ErrMsg.expected_constant_of_width state.width))
              else if (w2.sim.current state.id).isSome ∧
                  (m.nexts state.id).isSome then
                Except.error (Failure.parse_error w2.lineno w2.columno
                  (ErrMsg.state_assigned_twice state_pos state.id k))
              else
                let val := btorsim_bv_char_to_bv w2.constant
                let after_init : WitSt → Except Failure WitSt := fun wa =>
                  let wb := { wa with
                    lineno := wa.lineno + 1
                    charno := saved_charno }
                  let proceed : WitSt → Except Failure WitSt := fun wc =>
                    let cur := fun j =>
                      if j = state.id then some val else wc.sim.current j
                    parse_state_part_loop m simfuel fuel k
                      { wc with sim := { wc.sim with current := cur } }
                  if k > 0 then
                    if (m.nexts state.id).isSome then
                      match wb.sim.current state.id with
                      | none => Except.error (Failure.die DieMsg.null_pointer)
                      | some cur =>
                          if btorsim_bv_compare val cur ≠ 0 then
                            Except.error (Failure.parse_error wb.lineno
                              wb.columno (ErrMsg.incompatible_assignment
                                state_pos state.id k))
                          else proceed wb
                    else proceed wb
                  else proceed wb
                match m.inits state.id with
                | some ini =>
                    if (m.nexts state.id).isSome then
                      match simulate m simfuel w2.sim.current
                          (ini.args.getD 1 0) with
                      | none => Except.error (Failure.die DieMsg.simulate_failure)
                      | some tc =>
                          let w3 := { w2 with
                            sim := { w2.sim with current := tc.2 } }
                          if btorsim_bv_compare val tc.1 ≠ 0 then
                            Except.error (Failure.parse_error w3.lineno
                              w3.columno (ErrMsg.incompatible_initialized
                                state_pos state.id))
                          else after_init w3
                    else after_init w2
                | none => after_init w2

/-- `parse_state_part` at frame `k`: the `#k` header (mandatory at frame 0,
otherwise its absence ends the state part), the assignment loop, and the
`found_initial_frame` flag at frame 0. -/
def parse_state_part (m : Model) (simfuel fuel : Nat) (k : Int) (w : WitSt) :
    Except Failure WitSt :=
  let p := next_char w
  let run_loop : WitSt → Except Failure WitSt := fun w1 =>
    match parse_state_part_loop m simfuel fuel k w1 with
    | Except.error e => Except.error e
    | Except.ok w2 =>
        Except.ok (if k = 0 then { w2 with found_initial_frame := true }
          else w2)
  if k = 0 then
    if p.1 ≠ 35 then
      Except.error (Failure.parse_error p.2.lineno p.2.columno
        (ErrMsg.missing_state_header k))
    else
      match parse_unsigned_number fuel p.2 with
      | Except.error e => Except.error e
      | Except.ok ((n, ch), w1) =>
          if n ≠ k ∨ ch ≠ 10 then
            Except.error (Failure.parse_error w1.lineno w1.columno
              (ErrMsg.missing_state_header k))
          else run_loop w1
  else
    if p.1 ≠ 35 then Except.ok (prev_char p.1 p.2)
    else
      match parse_unsigned_number fuel p.2 with
      | Except.error e => Except.error e
      | Except.ok ((n, ch), w1) =>
          if n ≠ k ∨ ch ≠ 10 then
            Except.error (Failure.parse_error w1.lineno w1.columno
              (ErrMsg.missing_state_header k))
          else run_loop w1

/-- The assignment loop of `parse_input_part` at frame `k`. -/
def parse_input_part_loop (m : Model) :
    Nat → Int → WitSt → Except Failure WitSt
  | 0, _, _ => Except.error Failure.fuel
  | fuel + 1, k, w =>
      match parse_assignment fuel w with
      | Except.error e => Except.error e
      | Except.ok (input_pos, w1) =>
          if input_pos < 0 then Except.ok w1
          else
            let saved_charno := w1.charno
            let w2 := { w1 with
              charno := 1
              lineno := w1.lineno - 1 }
            if (m.inputs.length : Int) ≤ input_pos then
              Except.error (Failure.parse_error w2.lineno w2.columno
                (ErrMsg.less_than_inputs_defined input_pos))
            else
              let inp := m.inputs.getD input_pos.toNat dummy_line
              if w2.constant.length ≠ inp.width then
                let w3 := { w2 with charno := w2.constant_columno }
                Except.error (Failure.parse_error w3.lineno w3.columno
                  (ErrMsg.expected_constant_of_width inp.width))
              else if (w2.sim.current inp.id).isSome then
                Except.error (Failure.parse_error w2.lineno w2.columno
                  (ErrMsg.input_assigned_twice input_pos inp.id k))
              else
                let val := btorsim_bv_char_to_bv w2.constant
                let w3 := { w2 with
                  lineno := w2.lineno + 1
                  charno := saved_charno }
                let cur := fun j =>
                  if j = inp.id then some val else w3.sim.current j
                parse_input_part_loop m fuel k
                  { w3 with sim := { w3.sim with current := cur } }

/-- `parse_input_part` at frame `k`: the optional `@k` header (on any
mismatch one assignment is parsed and discarded), then the loop. -/
def parse_input_part (m : Model) (fuel : Nat) (k : Int) (w : WitSt) :
    Except Failure WitSt :=
  let p := next_char w
  let fallback : WitSt → Except Failure WitSt := fun w1 =>
    match parse_assignment fuel w1 with
    | Except.error e => Except.error e
    | Except.ok (_, w2) => parse_input_part_loop m fuel k w2
  if p.1 = 64 then
    match parse_unsigned_number fuel p.2 with
    | Except.error e => Except.error e
    | Except.ok ((n, ch), w1) =>
        if n = k ∧ ch = 10 then parse_input_part_loop m fuel k w1
        else fallback w1
  else fallback p.2

/-- `parse_frame` at frame `k`: `transition` for `k > 0`, the state and
input parts, the checking-mode (non-random) initialisations, one
`simulate_step`, and whether the witness continues. -/
def parse_frame (m : Model) (simfuel fuel : Nat) (k : Int) (w : WitSt) :
    Except Failure (Bool × WitSt) :=
  let w0 := if k > 0 then { w with sim := transition m k w.sim } else w
  match parse_state_part m simfuel fuel k w0 with
  | Except.error e => Except.error e
  | Except.ok w1 =>
      match parse_input_part m fuel k w1 with
      | Except.error e => Except.error e
      | Except.ok w2 =>
          let after_states : Except Failure WitSt :=
            if k = 0 then
              match initialize_states m simfuel false w2.sim with
              | none => Except.error (Failure.die DieMsg.simulate_failure)
              | some sim1 => Except.ok { w2 with sim := sim1 }
            else Except.ok w2
          match after_states with
          | Except.error e => Except.error e
          | Except.ok w3 =>
              let w4 := { w3 with
                sim := initialize_inputs m k false w3.sim }
              match simulate_step m simfuel k false w4.sim with
              | none => Except.error (Failure.die DieMsg.simulate_failure)
              | some sim2 =>
                  Except.ok (!w4.found_end_of_witness, { w4 with sim := sim2 })

/-- The `b`/`j` claim loop at the start of a `sat` witness. -/
def parse_sat_claim_loop (m : Model) :
    Nat → WitSt → Except Failure WitSt
  | 0, _ => Except.error Failure.fuel
  | fuel + 1, w =>
      let p := next_char w
      if p.1 = 32 then parse_sat_claim_loop m fuel p.2
      else if p.1 = 10 then Except.ok p.2
      else if p.1 ≠ 98 ∧ p.1 ≠ 106 then
        Except.error (Failure.parse_error p.2.lineno p.2.columno
          ErrMsg.expected_b_or_j)
      else
        match parse_unsigned_number fuel p.2 with
        | Except.error e => Except.error e
        | Except.ok ((bad, ch), w1) =>
            if ch ≠ 32 ∧ ch ≠ 10 then
              Except.error (Failure.parse_error w1.lineno w1.columno
                (ErrMsg.unexpected_after_number ch))
            else if p.1 = 98 then
              if (m.bads.length : Int) ≤ bad then
                Except.error (Failure.parse_error w1.lineno w1.columno
                  (ErrMsg.invalid_bad_number bad))
              else
                let w2 := { w1 with
                  claimed_bad_witnesses := w1.claimed_bad_witnesses ++ [bad] }
                if ch = 10 then Except.ok w2
                else parse_sat_claim_loop m fuel w2
            else
              Except.error (Failure.parse_error w1.lineno w1.columno
                ErrMsg.cannot_handle_justice)

/-- `while (parse_frame (k)) k++`. -/
def parse_frames_loop (m : Model) (simfuel fuel : Nat) :
    Nat → Int → WitSt → Except Failure WitSt
  | 0, _, _ => Except.error Failure.fuel
  | wfuel + 1, k, w =>
      match parse_frame m simfuel fuel k w with
      | Except.error e => Except.error e
      | Except.ok (cont, w1) =>
          if cont then parse_frames_loop m simfuel fuel wfuel (k + 1) w1
          else Except.ok w1

/-- The final sweep of `parse_sat_witness` over the claimed bad properties:
any claim whose recorded bound is still negative is a fatal `die`. -/
def check_claimed_bads (m : Model) (sim : SimSt) :
    List Int → Except Failure Unit
  | [] => Except.ok ()
  | pos :: rest =>
      if sim.reached_bads.getD pos.toNat (-1) < 0 then
        Except.error (Failure.die (DieMsg.claimed_bad_not_reached pos
          ((m.bads.getD pos.toNat dummy_line).id)))
      else check_claimed_bads m sim rest

/-- `parse_sat_witness`: the claim list, the frames, the
`found_initial_frame` check and the claimed-bad sweep. -/
def parse_sat_witness (m : Model) (simfuel fuel wfuel : Nat) (w : WitSt) :
    Except Failure WitSt :=
  match parse_sat_claim_loop m fuel
      { w with claimed_bad_witnesses := [] } with
  | Except.error e => Except.error e
  | Except.ok w1 =>
      match parse_frames_loop m simfuel fuel wfuel 0 w1 with
      | Except.error e => Except.error e
      | Except.ok w2 =>
          if ¬ w2.found_initial_frame then
            Except.error (Failure.parse_error w2.lineno w2.columno
              ErrMsg.initial_frame_missing)
          else
            match check_claimed_bads m w2.sim w2.claimed_bad_witnesses with
            | Except.error e => Except.error e
            | Except.ok _ => Except.ok w2

/-- `parse_unknown_witness`: the frames and the `found_initial_frame`
check. -/
def parse_unknown_witness (m : Model) (simfuel fuel wfuel : Nat)
    (w : WitSt) : Except Failure WitSt :=
  match parse_frames_loop m simfuel fuel wfuel 0 w with
  | Except.error e => Except.error e
  | Except.ok w1 =>
      if ¬ w1.found_initial_frame then
        Except.error (Failure.parse_error w1.lineno w1.columno
          ErrMsg.initial_frame_missing)
      else Except.ok w1

/-- `parse_unsat_witness` refuses unsat witnesses. -/
def parse_unsat_witness : Except Failure WitSt :=
  Except.error (Failure.die DieMsg.unsat_not_supported)

/-- The `while (ch != '\n')` sweep that discards a non-witness line. -/
def skip_line : Nat → Int → WitSt → Except Failure (Bool × WitSt)
  | 0, _, _ => Except.error Failure.fuel
  | fuel + 1, ch, w =>
      if ch = 10 then Except.ok (true, w)
      else
        let p := next_char w
        if p.1 = -1 then
          Except.error (Failure.parse_error p.2.lineno p.2.columno
            ErrMsg.unexpected_eof_before_newline)
        else skip_line fuel p.1 p.2

/-- Wrapping a sub-parser's result as `parse_and_check_witness`'s
`return 1`. -/
def wrap_witness (r : Except Failure WitSt) : Except Failure (Bool × WitSt) :=
  match r with
  | Except.error e => Except.error e
  | Except.ok w' => Except.ok (true, w')

/-- The `sat` test of `parse_and_check_witness` (`if (ch == 's') { ... }`):
on `sat` followed by a newline it commits (`Sum.inr`) to parsing a sat
witness; otherwise it falls through (`Sum.inl`) carrying the character the
C's short-circuit left in `ch` and the state after the characters read so
far — the caller re-tests that character against `u`. -/
def probe_sat (m : Model) (simfuel fuel wfuel : Nat) (ch0 : Int)
    (w0 : WitSt) : (Int × WitSt) ⊕ Except Failure (Bool × WitSt) :=
  if ch0 = 115 then
    let q1 := next_char w0
    if q1.1 = 97 then
      let q2 := next_char q1.2
      if q2.1 = 116 then
        let q3 := next_char q2.2
        if q3.1 = 10 then
          let w1 : WitSt := { q3.2 with
            count_witnesses := q3.2.count_witnesses + 1
            count_sat_witnesses := q3.2.count_sat_witnesses + 1 }
          Sum.inr
            (if 1 < w1.count_witnesses then
              Except.error (Failure.die DieMsg.more_than_one_witness)
            else wrap_witness (parse_sat_witness m simfuel fuel wfuel w1))
        else Sum.inl (q3.1, q3.2)
      else Sum.inl (q2.1, q2.2)
    else Sum.inl (q1.1, q1.2)
  else Sum.inl (ch0, w0)

/-- The `unsat` test of `parse_and_check_witness` (`if (ch == 'u') { ... }`),
entered with the character the `sat` test left behind. -/
def probe_unsat (ch0 : Int) (w0 : WitSt) :
    (Int × WitSt) ⊕ Except Failure (Bool × WitSt) :=
  if ch0 = 117 then
    let q1 := next_char w0
    if q1.1 = 110 then
      let q2 := next_char q1.2
      if q2.1 = 115 then
        let q3 := next_char q2.2
        if q3.1 = 97 then
          let q4 := next_char q3.2
          if q4.1 = 116 then
            let q5 := next_char q4.2
            if q5.1 = 10 then
              let w1 : WitSt := { q5.2 with
                count_witnesses := q5.2.count_witnesses + 1
                count_unsat_witnesses := q5.2.count_unsat_witnesses + 1 }
              let _ := w1
              Sum.inr (wrap_witness parse_unsat_witness)
            else Sum.inl (q5.1, q5.2)
          else Sum.inl (q4.1, q4.2)
        else Sum.inl (q3.1, q3.2)
      else Sum.inl (q2.1, q2.2)
    else Sum.inl (q1.1, q1.2)
  else Sum.inl (ch0, w0)

/-- The control flow after the `#` test: run the `sat` test, feed its
fall-through into the `unsat` test, and discard the rest of the line when
both fall through. -/
def probe_dispatch (fuel : Nat)
    (r : (Int × WitSt) ⊕ Except Failure (Bool × WitSt)) :
    Except Failure (Bool × WitSt) :=
  match r with
  | Sum.inr res => res
  | Sum.inl q =>
      match probe_unsat q.1 q.2 with
      | Sum.inr res => res
      | Sum.inl q2 => skip_line fuel q2.1 q2.2

/-- `parse_and_check_witness`: `false` at end-of-file; a `#` starts an
unknown witness, `sat`/`unsat` followed by a newline start the matching
witness kind (a failed `sat` match falls through to the `unsat` test with
the last character read), and anything else discards the rest of the
line. -/
def parse_and_check_witness (m : Model) (simfuel fuel wfuel : Nat)
    (w : WitSt) : Except Failure (Bool × WitSt) :=
  let p := next_char w
  if p.1 = -1 then Except.ok (false, p.2)
  else
    let w0 : WitSt := { p.2 with
      found_end_of_witness := false
      found_initial_frame := false }
    if p.1 = 35 then
      let w1 : WitSt := { w0 with
        count_witnesses := w0.count_witnesses + 1
        count_unknown_witnesses := w0.count_unknown_witnesses + 1 }
      if 1 < w1.count_sat_witnesses + w1.count_unknown_witnesses then
        Except.error (Failure.die DieMsg.more_than_one_witness)
      else wrap_witness (parse_unknown_witness m simfuel fuel wfuel
        (prev_char p.1 w1))
    else probe_dispatch fuel (probe_sat m simfuel fuel wfuel p.1 w0)

/-- `parse_and_check_all_witnesses`: repeat until `parse_and_check_witness`
reports end-of-file. -/
def parse_and_check_all_witnesses (m : Model) (simfuel fuel : Nat) :
    Nat → WitSt → Except Failure WitSt
  | 0, _ => Except.error Failure.fuel
  | wfuel + 1, w =>
      match parse_and_check_witness m simfuel fuel wfuel w with
      | Except.error e => Except.error e
      | Except.ok (true, w1) =>
          parse_and_check_all_witnesses m simfuel fuel wfuel w1
      | Except.ok (false, w1) => Except.ok w1

/-- The simulator state `main` sets up before checking: empty value tables,
one `-1` entry in `reached_bads` per bad property, and the default seed. -/
def initial_simst (m : Model) : SimSt :=
  { current := fun _ => none
    nextst := fun _ => none
    reached_bads := List.replicate m.bads.length (-1)
    num_unreached_bads := (m.bads.length : Int)
    constraints_violated := -1
    rng := btorsim_rng_init 0 }

/-- The parser state at the start of `parse_and_check_all_witnesses`. -/
def initial_witst (m : Model) (input : List Char) : WitSt :=
  { input := input
    saved_char := 0
    char_saved := false
    charno := 0
    columno := 0
    lineno := 1
    last_line_length := 0
    constant := []
    symbol := []
    constant_columno := 0
    found_end_of_witness := false
    found_initial_frame := false
    count_sat_witnesses := 0
    count_unsat_witnesses := 0
    count_unknown_witnesses := 0
    count_witnesses := 0
    claimed_bad_witnesses := []
    sim := initial_simst m }

/-- A checking-mode run of btorsim on a witness stream. -/
def check_witness_stream (m : Model) (simfuel fuel wfuel : Nat)
    (input : List Char) : Except Failure WitSt :=
  parse_and_check_all_witnesses m simfuel fuel wfuel (initial_witst m input)

/-- The error of a run, if any (`Except Failure WitSt` carries functions, so
runs are compared through this projection). -/
def run_error (r : Except Failure WitSt) : Option Failure :=
  match r with
  | Except.error e => some e
  | Except.ok _ => none

/-- The process exit code: 0 after a normal return from
`parse_and_check_all_witnesses`, 1 after `die` or `parse_error`; `none` if
the artificial fuel ran out. -/
def btorsim_exit_code (m : Model) (simfuel fuel wfuel : Nat)
    (input : List Char) : Option Nat :=
  match check_witness_stream m simfuel fuel wfuel input with
  | Except.ok _ => some 0
  | Except.error Failure.fuel => none
  | Except.error _ => some 1

end Btorsim

namespace Btorsim

/-- `next_char` at end of input (nothing saved) reports end-of-file and
leaves the state unchanged. -/
theorem next_char_eof (w : WitSt) (hs : w.char_saved = false)
    (hi : w.input = []) : next_char w = (-1, w) := by
  unfold next_char
  rw [hs, hi]
  rfl

/-- The character `next_char` returns on a non-empty unsaved input. -/
theorem next_char_fst (w : WitSt) (c : Char) (rest : List Char)
    (hs : w.char_saved = false) (hi : w.input = c :: rest) :
    (next_char w).1 = (c.toNat : Int) := by
  unfold next_char
  rw [hs, hi]
  rfl

/-- `next_char` consumes exactly one character of an unsaved input. -/
theorem next_char_input (w : WitSt) (c : Char) (rest : List Char)
    (hs : w.char_saved = false) (hi : w.input = c :: rest) :
    (next_char w).2.input = rest := by
  unfold next_char
  rw [hs, hi]
  simp [apply_ite WitSt.input]

/-- `next_char` never saves a character. -/
theorem next_char_saved (w : WitSt) (c : Char) (rest : List Char)
    (hs : w.char_saved = false) (hi : w.input = c :: rest) :
    (next_char w).2.char_saved = false := by
  unfold next_char
  rw [hs, hi]
  simp [apply_ite WitSt.char_saved]

/-- The three `next_char` facts used when walking a line. -/
theorem next_char_step (w : WitSt) (c : Char) (rest : List Char)
    (hs : w.char_saved = false) (hi : w.input = c :: rest) :
    (next_char w).1 = (c.toNat : Int) ∧ (next_char w).2.input = rest ∧
      (next_char w).2.char_saved = false :=
  ⟨next_char_fst w c rest hs hi, next_char_input w c rest hs hi,
    next_char_saved w c rest hs hi⟩

/-- A character code is never the end-of-file marker. -/
theorem char_code_ne_eof (c : Char) : (c.toNat : Int) ≠ -1 := by omega

/-- `skip_line` at positive fuel. -/
theorem skip_line_succ (fuel : Nat) (ch : Int) (w : WitSt) :
    skip_line (fuel + 1) ch w =
      if ch = 10 then Except.ok (true, w)
      else if (next_char w).1 = -1 then
        Except.error (Failure.parse_error (next_char w).2.lineno
          (next_char w).2.columno ErrMsg.unexpected_eof_before_newline)
      else skip_line fuel (next_char w).1 (next_char w).2 := rfl

/-- `skip_line` on a just-read newline. -/
theorem skip_line_newline (fuel : Nat) (w : WitSt) (h : 1 ≤ fuel) :
    skip_line fuel 10 w = Except.ok (true, w) := by
  obtain ⟨f, rfl⟩ : ∃ f, fuel = f + 1 := ⟨fuel - 1, by omega⟩
  rw [skip_line_succ, if_pos rfl]

/-- `skip_line` eats the rest of a newline-free line plus its newline and
succeeds. -/
theorem skip_line_garbage :
    ∀ (l rest : List Char) (fuel : Nat) (ch : Int) (w : WitSt),
      w.char_saved = false → w.input = l ++ '\n' :: rest →
      (∀ c ∈ l, c.toNat ≠ 10) → ch ≠ 10 → ch ≠ -1 → l.length + 2 ≤ fuel →
      ∃ w', skip_line fuel ch w = Except.ok (true, w') ∧
        w'.input = rest ∧ w'.char_saved = false := by
  intro l
  induction l with
  | nil =>
      intro rest fuel ch w hs hi hnl hch hcheof hf
      rw [List.nil_append] at hi
      obtain ⟨f, rfl⟩ : ∃ f, fuel = f + 1 := ⟨fuel - 1, by omega⟩
      obtain ⟨h1, h2, h3⟩ := next_char_step w '\n' rest hs hi
      have h1' : (next_char w).1 = 10 := h1.trans (by decide)
      rw [skip_line_succ, if_neg hch, h1',
        if_neg (by decide : ¬ (10 : Int) = -1),
        skip_line_newline f (next_char w).2 (by omega)]
      exact ⟨(next_char w).2, rfl, h2, h3⟩
  | cons c t ih =>
      intro rest fuel ch w hs hi hnl hch hcheof hf
      obtain ⟨f, rfl⟩ : ∃ f, fuel = f + 1 := ⟨fuel - 1, by omega⟩
      obtain ⟨h1, h2, h3⟩ := next_char_step w c (t ++ '\n' :: rest) hs hi
      have hc10 : (c.toNat : Int) ≠ 10 := by
        have := hnl c (List.mem_cons_self c t)
        omega
      rw [skip_line_succ, if_neg hch, h1, if_neg (char_code_ne_eof c)]
      exact ih rest f (c.toNat : Int) (next_char w).2 h3 h2
        (fun x hx => hnl x (List.mem_cons_of_mem c hx)) hc10
        (char_code_ne_eof c) (by simp at hf; omega)

end Btorsim

namespace Btorsim

/-- `probe_sat` is the identity fall-through on any first character other
than `s`. -/
theorem probe_sat_not_s (m : Model) (sf fuel wf : Nat) (ch0 : Int)
    (w0 : WitSt) (h : ch0 ≠ 115) :
    probe_sat m sf fuel wf ch0 w0 = Sum.inl (ch0, w0) := by
  simp only [probe_sat]
  rw [if_neg h]

/-- `probe_sat` falls through when the character after `s` is not `a`. -/
theorem probe_sat_s_other (m : Model) (sf fuel wf : Nat) (w0 : WitSt)
    (h : (next_char w0).1 ≠ 97) :
    probe_sat m sf fuel wf 115 w0 =
      Sum.inl ((next_char w0).1, (next_char w0).2) := by
  simp only [probe_sat]
  rw [if_pos trivial, if_neg h]

/-- `probe_sat` falls through when the character after `sa` is not `t`. -/
theorem probe_sat_sa_other (m : Model) (sf fuel wf : Nat) (w0 : WitSt)
    (h97 : (next_char w0).1 = 97)
    (h : (next_char (next_char w0).2).1 ≠ 116) :
    probe_sat m sf fuel wf 115 w0 =
      Sum.inl ((next_char (next_char w0).2).1,
        (next_char (next_char w0).2).2) := by
  simp only [probe_sat]
  rw [if_pos trivial, if_pos h97, if_neg h]

/-- `probe_sat` falls through when the character after `sat` is not a
newline. -/
theorem probe_sat_sat_other (m : Model) (sf fuel wf : Nat) (w0 : WitSt)
    (h97 : (next_char w0).1 = 97)
    (h116 : (next_char (next_char w0).2).1 = 116)
    (h : (next_char (next_char (next_char w0).2).2).1 ≠ 10) :
    probe_sat m sf fuel wf 115 w0 =
      Sum.inl ((next_char (next_char (next_char w0).2).2).1,
        (next_char (next_char (next_char w0).2).2).2) := by
  simp only [probe_sat]
  rw [if_pos trivial, if_pos h97, if_pos h116, if_neg h]

/-- `probe_unsat` is the identity fall-through on any character other than
`u`. -/
theorem probe_unsat_not_u (ch0 : Int) (w0 : WitSt) (h : ch0 ≠ 117) :
    probe_unsat ch0 w0 = Sum.inl (ch0, w0) := by
  simp only [probe_unsat]
  rw [if_neg h]

/-- `probe_unsat` fall-through, one lemma per matched prefix length. -/
theorem probe_unsat_u_other (w0 : WitSt) (h : (next_char w0).1 ≠ 110) :
    probe_unsat 117 w0 =
      Sum.inl ((next_char w0).1, (next_char w0).2) := by
  simp only [probe_unsat]
  rw [if_pos trivial, if_neg h]

theorem probe_unsat_un_other (w0 : WitSt)
    (h110 : (next_char w0).1 = 110)
    (h : (next_char (next_char w0).2).1 ≠ 115) :
    probe_unsat 117 w0 =
      Sum.inl ((next_char (next_char w0).2).1,
        (next_char (next_char w0).2).2) := by
  simp only [probe_unsat]
  rw [if_pos trivial, if_pos h110, if_neg h]

theorem probe_unsat_uns_other (w0 : WitSt)
    (h110 : (next_char w0).1 = 110)
    (h115 : (next_char (next_char w0).2).1 = 115)
    (h : (next_char (next_char (next_char w0).2).2).1 ≠ 97) :
    probe_unsat 117 w0 =
      Sum.inl ((next_char (next_char (next_char w0).2).2).1,
        (next_char (next_char (next_char w0).2).2).2) := by
  simp only [probe_unsat]
  rw [if_pos trivial, if_pos h110, if_pos h115, if_neg h]

theorem probe_unsat_unsa_other (w0 : WitSt)
    (h110 : (next_char w0).1 = 110)
    (h115 : (next_char (next_char w0).2).1 = 115)
    (h97 : (next_char (next_char (next_char w0).2).2).1 = 97)
    (h : (next_char (next_char (next_char (next_char w0).2).2).2).1 ≠ 116) :
    probe_unsat 117 w0 =
      Sum.inl ((next_char (next_char (next_char (next_char w0).2).2).2).1,
        (next_char (next_char (next_char (next_char w0).2).2).2).2) := by
  simp only [probe_unsat]
  rw [if_pos trivial, if_pos h110, if_pos h115, if_pos h97, if_neg h]

theorem probe_unsat_unsat_other (w0 : WitSt)
    (h110 : (next_char w0).1 = 110)
    (h115 : (next_char (next_char w0).2).1 = 115)
    (h97 : (next_char (next_char (next_char w0).2).2).1 = 97)
    (h116 : (next_char (next_char (next_char (next_char w0).2).2).2).1 = 116)
    (h : (next_char
      (next_char (next_char (next_char (next_char w0).2).2).2).2).1 ≠ 10) :
    probe_unsat 117 w0 =
      Sum.inl ((next_char (next_char (next_char (next_char
          (next_char w0).2).2).2).2).1,
        (next_char (next_char (next_char (next_char
          (next_char w0).2).2).2).2).2) := by
  simp only [probe_unsat]
  rw [if_pos trivial, if_pos h110, if_pos h115, if_pos h97, if_pos h116,
    if_neg h]

/-- `parse_and_check_witness` at end of input returns `0`. -/
theorem parse_and_check_witness_eof (m : Model) (sf fuel wf : Nat)
    (w : WitSt) (hs : w.char_saved = false) (hi : w.input = []) :
    parse_and_check_witness m sf fuel wf w = Except.ok (false, w) := by
  unfold parse_and_check_witness
  rw [next_char_eof w hs hi]
  rfl

/-- The reset state `parse_and_check_witness` hands to the branches. -/
def pacw_reset (w : WitSt) : WitSt :=
  { (next_char w).2 with
    found_end_of_witness := false
    found_initial_frame := false }

/-- `parse_and_check_witness` on anything but end-of-file and `#`: the
`sat` test, its fall-through fed to the `unsat` test, then the line
skip. -/
theorem parse_and_check_witness_main (m : Model) (sf fuel wf : Nat)
    (w : WitSt) (heof : ¬ (next_char w).1 = -1)
    (h35 : ¬ (next_char w).1 = 35) :
    parse_and_check_witness m sf fuel wf w =
      probe_dispatch fuel
        (probe_sat m sf fuel wf (next_char w).1 (pacw_reset w)) := by
  simp only [parse_and_check_witness]
  rw [if_neg heof, if_neg h35]
  rfl

/-- `probe_dispatch` skips the line when the fall-through character is not
`u`. -/
theorem probe_dispatch_not_u (fuel : Nat) (ch : Int) (w : WitSt)
    (h : ch ≠ 117) :
    probe_dispatch fuel (Sum.inl (ch, w)) = skip_line fuel ch w := by
  show (match probe_unsat ch w with
    | Sum.inr res => res
    | Sum.inl q2 => skip_line fuel q2.1 q2.2) = skip_line fuel ch w
  rw [probe_unsat_not_u ch w h]

/-- `probe_dispatch` skips the line from wherever the `unsat` test fell
through. -/
theorem probe_dispatch_skip (fuel : Nat) (ch : Int) (w : WitSt)
    (ch2 : Int) (w2 : WitSt)
    (h : probe_unsat ch w = Sum.inl (ch2, w2)) :
    probe_dispatch fuel (Sum.inl (ch, w)) = skip_line fuel ch2 w2 := by
  show (match probe_unsat ch w with
    | Sum.inr res => res
    | Sum.inl q2 => skip_line fuel q2.1 q2.2) = skip_line fuel ch2 w2
  rw [h]

/-- The reset state keeps the unread input and the saved-character flag. -/
theorem pacw_reset_fields (w : WitSt) :
    (pacw_reset w).input = (next_char w).2.input ∧
      (pacw_reset w).char_saved = (next_char w).2.char_saved :=
  ⟨rfl, rfl⟩

end Btorsim

namespace Btorsim

/-- A line (no newline inside) that does not begin a witness: it does not
start with `#`, `sat` or `unsat` (compared, as the C does, by character
code). -/
def does_not_begin_witness (l : List Char) : Prop :=
  (∀ c ∈ l, c.toNat ≠ 10) ∧
  List.take 1 (l.map Char.toNat) ≠ [35] ∧
  List.take 3 (l.map Char.toNat) ≠ [115, 97, 116] ∧
  List.take 5 (l.map Char.toNat) ≠ [117, 110, 115, 97, 116]

instance (l : List Char) : Decidable (does_not_begin_witness l) := by
  unfold does_not_begin_witness
  infer_instance

/-- A stream of newline-terminated lines. -/
def lines_to_stream : List (List Char) → List Char
  | [] => []
  | l :: ls => l ++ '\n' :: lines_to_stream ls

/-- The `#`-free lines after which `probe_dispatch` entered at `u` still
only skips: the rest of the line must not be exactly `nsat`. -/
theorem probe_dispatch_u_garbage (fuel : Nat) (t rest : List Char)
    (w : WitSt) (hs : w.char_saved = false)
    (hi : w.input = t ++ '\n' :: rest) (hnl : ∀ c ∈ t, c.toNat ≠ 10)
    (hne : t.map Char.toNat ≠ [110, 115, 97, 116])
    (hf : t.length + 2 ≤ fuel) :
    ∃ w', probe_dispatch fuel (Sum.inl (117, w)) = Except.ok (true, w') ∧
      w'.input = rest ∧ w'.char_saved = false := by
  rcases t with _ | ⟨b, t3⟩
  · rw [List.nil_append] at hi
    obtain ⟨g1, g2, g3⟩ := next_char_step w '\n' rest hs hi
    have g1' : (next_char w).1 = 10 := g1.trans (by decide)
    have hpu : probe_unsat 117 w = Sum.inl (10, (next_char w).2) := by
      rw [probe_unsat_u_other w (by rw [g1']; decide), g1']
    rw [probe_dispatch_skip fuel 117 w 10 (next_char w).2 hpu,
      skip_line_newline fuel _ (by simp at hf; omega)]
    exact ⟨_, rfl, g2, g3⟩
  · obtain ⟨g1, g2, g3⟩ := next_char_step w b (t3 ++ '\n' :: rest) hs hi
    by_cases hb : b.toNat = 110
    · rcases t3 with _ | ⟨d, t4⟩
      · rw [List.nil_append] at g2
        obtain ⟨k1, k2, k3⟩ := next_char_step (next_char w).2 '\n' rest g3 g2
        have k1' : (next_char (next_char w).2).1 = 10 := k1.trans (by decide)
        have hpu : probe_unsat 117 w =
            Sum.inl (10, (next_char (next_char w).2).2) := by
          rw [probe_unsat_un_other w (by omega) (by rw [k1']; decide), k1']
        rw [probe_dispatch_skip fuel 117 w 10 _ hpu,
          skip_line_newline fuel _ (by simp at hf; omega)]
        exact ⟨_, rfl, k2, k3⟩
      · obtain ⟨k1, k2, k3⟩ := next_char_step (next_char w).2 d
          (t4 ++ '\n' :: rest) g3 g2
        by_cases hd : d.toNat = 115
        · rcases t4 with _ | ⟨e, t5⟩
          · rw [List.nil_append] at k2
            obtain ⟨r1, r2, r3⟩ := next_char_step
              (next_char (next_char w).2).2 '\n' rest k3 k2
            have r1' : (next_char (next_char (next_char w).2).2).1 = 10 :=
              r1.trans (by decide)
            have hpu : probe_unsat 117 w =
                Sum.inl (10, (next_char (next_char (next_char w).2).2).2) := by
              rw [probe_unsat_uns_other w (by omega) (by omega)
                  (by rw [r1']; decide), r1']
            rw [probe_dispatch_skip fuel 117 w 10 _ hpu,
              skip_line_newline fuel _ (by simp at hf; omega)]
            exact ⟨_, rfl, r2, r3⟩
          · obtain ⟨r1, r2, r3⟩ := next_char_step
              (next_char (next_char w).2).2 e (t5 ++ '\n' :: rest) k3 k2
            by_cases he : e.toNat = 97
            · rcases t5 with _ | ⟨f, t6⟩
              · rw [List.nil_append] at r2
                obtain ⟨s1, s2, s3⟩ := next_char_step
                  (next_char (next_char (next_char w).2).2).2 '\n' rest r3 r2
                have s1' :
                    (next_char (next_char (next_char
                      (next_char w).2).2).2).1 = 10 := s1.trans (by decide)
                have hpu : probe_unsat 117 w = Sum.inl (10,
                    (next_char (next_char (next_char
                      (next_char w).2).2).2).2) := by
                  rw [probe_unsat_unsa_other w (by omega) (by omega)
                      (by omega) (by rw [s1']; decide), s1']
                rw [probe_dispatch_skip fuel 117 w 10 _ hpu,
                  skip_line_newline fuel _ (by simp at hf; omega)]
                exact ⟨_, rfl, s2, s3⟩
              · obtain ⟨s1, s2, s3⟩ := next_char_step
                  (next_char (next_char (next_char w).2).2).2 f
                  (t6 ++ '\n' :: rest) r3 r2
                by_cases hf116 : f.toNat = 116
                · rcases t6 with _ | ⟨g, t7⟩
                  · exact absurd (by simp [hb, hd, he, hf116]) hne
                  · obtain ⟨u1, u2, u3⟩ := next_char_step
                      (next_char (next_char (next_char
                        (next_char w).2).2).2).2 g (t7 ++ '\n' :: rest)
                      s3 s2
                    have hg10 : g.toNat ≠ 10 := hnl g (by simp)
                    have hpu : probe_unsat 117 w =
                        Sum.inl ((g.toNat : Int),
                          (next_char (next_char (next_char (next_char
                            (next_char w).2).2).2).2).2) := by
                      rw [probe_unsat_unsat_other w (by omega) (by omega)
                          (by omega) (by omega) (by omega), u1]
                    rw [probe_dispatch_skip fuel 117 w _ _ hpu]
                    exact skip_line_garbage t7 rest fuel _ _ u3 u2
                      (fun x hx => hnl x (by simp [hx])) (by omega)
                      (char_code_ne_eof g) (by simp at hf; omega)
                · have hpu : probe_unsat 117 w =
                      Sum.inl ((f.toNat : Int),
                        (next_char (next_char (next_char
                          (next_char w).2).2).2).2) := by
                    rw [probe_unsat_unsa_other w (by omega) (by omega)
                        (by omega) (by omega), s1]
                  rw [probe_dispatch_skip fuel 117 w _ _ hpu]
                  exact skip_line_garbage t6 rest fuel _ _ s3 s2
                    (fun x hx => hnl x (by simp [hx]))
                    (by have := hnl f (by simp); omega)
                    (char_code_ne_eof f) (by simp at hf; omega)
            · have hpu : probe_unsat 117 w =
                  Sum.inl ((e.toNat : Int),
                    (next_char (next_char (next_char w).2).2).2) := by
                rw [probe_unsat_uns_other w (by omega) (by omega)
                    (by omega), r1]
              rw [probe_dispatch_skip fuel 117 w _ _ hpu]
              exact skip_line_garbage t5 rest fuel _ _ r3 r2
                (fun x hx => hnl x (by simp [hx]))
                (by have := hnl e (by simp); omega)
                (char_code_ne_eof e) (by simp at hf; omega)
        · have hpu : probe_unsat 117 w =
              Sum.inl ((d.toNat : Int),
                (next_char (next_char w).2).2) := by
            rw [probe_unsat_un_other w (by omega) (by omega), k1]
          rw [probe_dispatch_skip fuel 117 w _ _ hpu]
          exact skip_line_garbage t4 rest fuel _ _ k3 k2
            (fun x hx => hnl x (by simp [hx]))
            (by have := hnl d (by simp); omega)
            (char_code_ne_eof d) (by simp at hf; omega)
    · have hpu : probe_unsat 117 w =
          Sum.inl ((b.toNat : Int), (next_char w).2) := by
        rw [probe_unsat_u_other w (by omega), g1]
      rw [probe_dispatch_skip fuel 117 w _ _ hpu]
      exact skip_line_garbage t3 rest fuel _ _ g3 g2
        (fun x hx => hnl x (by simp [hx]))
        (by have := hnl b (by simp); omega)
        (char_code_ne_eof b) (by simp at hf; omega)

/-- A `#`-free, `sat`/`unsat`-free line that moreover is not one of the
fall-through lines `sunsat` and `saunsat` (a failed `sat` match re-tests
its last read character against `u`). -/
def does_not_trigger_witness (l : List Char) : Prop :=
  does_not_begin_witness l ∧
  l.map Char.toNat ≠ [115, 117, 110, 115, 97, 116] ∧
  l.map Char.toNat ≠ [115, 97, 117, 110, 115, 97, 116]

instance (l : List Char) : Decidable (does_not_trigger_witness l) := by
  unfold does_not_trigger_witness
  infer_instance

/-- `parse_and_check_witness` on a line that triggers no witness matcher:
the line and its newline are consumed and the call reports `1`. -/
theorem parse_and_check_witness_garbage (m : Model) (sf wf : Nat)
    (l rest : List Char) (fuel : Nat) (w : WitSt)
    (hs : w.char_saved = false) (hi : w.input = l ++ '\n' :: rest)
    (hg : does_not_trigger_witness l) (hf : l.length + 2 ≤ fuel) :
    ∃ w', parse_and_check_witness m sf fuel wf w = Except.ok (true, w') ∧
      w'.input = rest ∧ w'.char_saved = false := by
  obtain ⟨⟨hnl, h35, hsat, hunsat⟩, hsu, hsau⟩ := hg
  rcases l with _ | ⟨c, t⟩
  · rw [List.nil_append] at hi
    obtain ⟨h1, h2, h3⟩ := next_char_step w '\n' rest hs hi
    have h1' : (next_char w).1 = 10 := h1.trans (by decide)
    rw [parse_and_check_witness_main m sf fuel wf w
        (by rw [h1']; decide) (by rw [h1']; decide), h1',
      probe_sat_not_s m sf fuel wf 10 _ (by decide),
      probe_dispatch_not_u fuel 10 _ (by decide),
      skip_line_newline fuel (pacw_reset w) (by simp at hf; omega)]
    exact ⟨pacw_reset w, rfl, h2, h3⟩
  · obtain ⟨h1, h2, h3⟩ := next_char_step w c (t ++ '\n' :: rest) hs hi
    have hceof : ¬ (next_char w).1 = -1 := by
      rw [h1]; exact char_code_ne_eof c
    have hc10 : c.toNat ≠ 10 := hnl c (List.mem_cons_self c t)
    have hc35 : c.toNat ≠ 35 := fun h => h35 (by simp [h])
    have hw0s : (pacw_reset w).char_saved = false := h3
    have hw0i : (pacw_reset w).input = t ++ '\n' :: rest := h2
    rw [parse_and_check_witness_main m sf fuel wf w hceof
        (by rw [h1]; omega), h1]
    by_cases hcs : c.toNat = 115
    · rw [show ((c.toNat : Nat) : Int) = 115 by omega]
      rcases t with _ | ⟨a, t2⟩
      · rw [List.nil_append] at hw0i
        obtain ⟨g1, g2, g3⟩ :=
          next_char_step (pacw_reset w) '\n' rest hw0s hw0i
        have g1' : (next_char (pacw_reset w)).1 = 10 := g1.trans (by decide)
        have hps : probe_sat m sf fuel wf 115 (pacw_reset w) =
            Sum.inl (10, (next_char (pacw_reset w)).2) := by
          rw [probe_sat_s_other m sf fuel wf (pacw_reset w)
              (by rw [g1']; decide), g1']
        rw [hps, probe_dispatch_not_u fuel 10 _ (by decide),
          skip_line_newline fuel _ (by simp at hf; omega)]
        exact ⟨_, rfl, g2, g3⟩
      · obtain ⟨g1, g2, g3⟩ :=
          next_char_step (pacw_reset w) a (t2 ++ '\n' :: rest) hw0s hw0i
        by_cases ha97 : a.toNat = 97
        · rcases t2 with _ | ⟨b, t3⟩
          · rw [List.nil_append] at g2
            obtain ⟨k1, k2, k3⟩ := next_char_step
              (next_char (pacw_reset w)).2 '\n' rest g3 g2
            have k1' : (next_char (next_char (pacw_reset w)).2).1 = 10 :=
              k1.trans (by decide)
            have hps : probe_sat m sf fuel wf 115 (pacw_reset w) =
                Sum.inl (10, (next_char (next_char (pacw_reset w)).2).2) := by
              rw [probe_sat_sa_other m sf fuel wf (pacw_reset w) (by omega)
                  (by rw [k1']; decide), k1']
            rw [hps, probe_dispatch_not_u fuel 10 _ (by decide),
              skip_line_newline fuel _ (by simp at hf; omega)]
            exact ⟨_, rfl, k2, k3⟩
          · obtain ⟨k1, k2, k3⟩ := next_char_step
              (next_char (pacw_reset w)).2 b (t3 ++ '\n' :: rest) g3 g2
            by_cases hb116 : b.toNat = 116
            · exact absurd (by simp [hcs, ha97, hb116]) hsat
            · have hps : probe_sat m sf fuel wf 115 (pacw_reset w) =
                  Sum.inl ((b.toNat : Int),
                    (next_char (next_char (pacw_reset w)).2).2) := by
                rw [probe_sat_sa_other m sf fuel wf (pacw_reset w) (by omega)
                    (by omega), k1]
              rw [hps]
              by_cases hb117 : b.toNat = 117
              · rw [show ((b.toNat : Nat) : Int) = 117 by omega]
                exact probe_dispatch_u_garbage fuel t3 rest _ k3 k2
                  (fun x hx => hnl x (by simp [hx]))
                  (fun h => hsau (by simp [hcs, ha97, hb117, h]))
                  (by simp at hf; omega)
              · rw [probe_dispatch_not_u fuel _ _ (by omega)]
                exact skip_line_garbage t3 rest fuel _ _ k3 k2
                  (fun x hx => hnl x (by simp [hx]))
                  (by have := hnl b (by simp); omega)
                  (char_code_ne_eof b) (by simp at hf; omega)
        · have hps : probe_sat m sf fuel wf 115 (pacw_reset w) =
              Sum.inl ((a.toNat : Int), (next_char (pacw_reset w)).2) := by
            rw [probe_sat_s_other m sf fuel wf (pacw_reset w) (by omega), g1]
          rw [hps]
          by_cases ha117 : a.toNat = 117
          · rw [show ((a.toNat : Nat) : Int) = 117 by omega]
            exact probe_dispatch_u_garbage fuel t2 rest _ g3 g2
              (fun x hx => hnl x (by simp [hx]))
              (fun h => hsu (by simp [hcs, ha117, h]))
              (by simp at hf; omega)
          · rw [probe_dispatch_not_u fuel _ _ (by omega)]
            exact skip_line_garbage t2 rest fuel _ _ g3 g2
              (fun x hx => hnl x (by simp [hx]))
              (by have := hnl a (by simp); omega)
              (char_code_ne_eof a) (by simp at hf; omega)
    · rw [probe_sat_not_s m sf fuel wf _ _ (by omega)]
      by_cases hcu : c.toNat = 117
      · rw [show ((c.toNat : Nat) : Int) = 117 by omega]
        exact probe_dispatch_u_garbage fuel t rest (pacw_reset w) hw0s hw0i
          (fun x hx => hnl x (List.mem_cons_of_mem c hx))
          (fun h => hunsat (by simp [hcu, h]))
          (by simp at hf; omega)
      · rw [probe_dispatch_not_u fuel _ _ (by omega)]
        exact skip_line_garbage t rest fuel _ _ hw0s hw0i
          (fun x hx => hnl x (List.mem_cons_of_mem c hx))
          (by omega) (char_code_ne_eof c) (by simp at hf; omega)

end Btorsim

namespace Btorsim

/-- `parse_and_check_all_witnesses` at positive fuel. -/
theorem parse_and_check_all_witnesses_succ (m : Model) (sf fuel n : Nat)
    (w : WitSt) :
    parse_and_check_all_witnesses m sf fuel (n + 1) w =
      match parse_and_check_witness m sf fuel n w with
      | Except.error e => Except.error e
      | Except.ok (true, w1) => parse_and_check_all_witnesses m sf fuel n w1
      | Except.ok (false, w1) => Except.ok w1 := rfl

/-- A stream of lines that trigger no witness matcher is consumed entirely
without error. -/
theorem parse_and_check_all_garbage (m : Model) (sf fuel : Nat) :
    ∀ (ls : List (List Char)) (wfuel : Nat) (w : WitSt),
      w.char_saved = false → w.input = lines_to_stream ls →
      (∀ l ∈ ls, does_not_trigger_witness l) →
      (∀ l ∈ ls, l.length + 2 ≤ fuel) →
      ls.length + 1 ≤ wfuel →
      ∃ w', parse_and_check_all_witnesses m sf fuel wfuel w = Except.ok w' ∧
        w'.input = [] := by
  intro ls
  induction ls with
  | nil =>
      intro wfuel w hs hi _ _ hwf
      obtain ⟨n, rfl⟩ : ∃ n, wfuel = n + 1 := ⟨wfuel - 1, by omega⟩
      rw [parse_and_check_all_witnesses_succ,
        parse_and_check_witness_eof m sf fuel n w hs hi]
      exact ⟨w, rfl, hi⟩
  | cons l ls ih =>
      intro wfuel w hs hi hg hflen hwf
      obtain ⟨n, rfl⟩ : ∃ n, wfuel = n + 1 := ⟨wfuel - 1, by omega⟩
      have hi' : w.input = l ++ '\n' :: lines_to_stream ls := hi
      obtain ⟨w1, hrun, hw1i, hw1s⟩ :=
        parse_and_check_witness_garbage m sf n l (lines_to_stream ls) fuel w
          hs hi' (hg l (List.mem_cons_self l ls))
          (hflen l (List.mem_cons_self l ls))
      rw [parse_and_check_all_witnesses_succ, hrun]
      exact ih n w1 hw1s hw1i (fun x hx => hg x (List.mem_cons_of_mem l hx))
        (fun x hx => hflen x (List.mem_cons_of_mem l hx))
        (by simp at hwf; omega)

/-- Every line of a stream is at most as long as the stream. -/
theorem line_length_le_stream :
    ∀ (ls : List (List Char)) (l : List Char), l ∈ ls →
      l.length ≤ (lines_to_stream ls).length := by
  intro ls
  induction ls with
  | nil =>
      intro l h
      exact absurd h (List.not_mem_nil l)
  | cons l0 ls ih =>
      intro l h
      have hlen : (lines_to_stream (l0 :: ls)).length =
          l0.length + 1 + (lines_to_stream ls).length := by
        show (l0 ++ '\n' :: lines_to_stream ls).length = _
        simp [List.length_append]
        omega
      rcases List.mem_cons.mp h with rfl | hm
      · rw [hlen]
        omega
      · exact le_trans (ih l hm) (by rw [hlen]; omega)

/-- **C10 (amended).** In checking mode a witness stream made only of lines
that trigger no witness matcher — no leading `#`, `sat` or `unsat`, and not
the exact lines `sunsat` or `saunsat`, through which a failed `sat` probe
falls into the `unsat` matcher — is consumed in full without any error, and
the process exits with code 0, although no frame was simulated. -/
theorem C10_skipped_only_stream_exits_zero (m : Model) (simfuel : Nat)
    (ls : List (List Char)) (hls : ∀ l ∈ ls, does_not_trigger_witness l) :
    (∃ w', check_witness_stream m simfuel
        ((lines_to_stream ls).length + 2) (ls.length + 1)
        (lines_to_stream ls) = Except.ok w' ∧ w'.input = []) ∧
    btorsim_exit_code m simfuel ((lines_to_stream ls).length + 2)
      (ls.length + 1) (lines_to_stream ls) = some 0 := by
  obtain ⟨w', hrun, hin⟩ := parse_and_check_all_garbage m simfuel
    ((lines_to_stream ls).length + 2) ls (ls.length + 1)
    (initial_witst m (lines_to_stream ls)) rfl rfl hls
    (fun l hl => by have := line_length_le_stream ls l hl; omega)
    (by omega)
  refine ⟨⟨w', hrun, hin⟩, ?_⟩
  unfold btorsim_exit_code check_witness_stream
  rw [hrun]

/-- A model-free witness check target for the stream theorem. -/
def c10_model : Model :=
  { lines := fun _ => none
    num_format_lines := 0
    inputs := []
    states := []
    bads := []
    constraints := []
    inits := fun _ => none
    nexts := fun _ => none }

/-- The skipped-stream theorem at four concrete lines. -/
theorem C10_skipped_only_stream_witness :
    (∃ w', check_witness_stream c10_model 1
        ((lines_to_stream [['x'], [], ['s', 'a', 'x'],
          ['u', 'n', 'z']]).length + 2)
        ([['x'], [], ['s', 'a', 'x'], ['u', 'n', 'z']].length + 1)
        (lines_to_stream [['x'], [], ['s', 'a', 'x'], ['u', 'n', 'z']]) =
          Except.ok w' ∧ w'.input = []) ∧
    btorsim_exit_code c10_model 1
      ((lines_to_stream [['x'], [], ['s', 'a', 'x'],
        ['u', 'n', 'z']]).length + 2)
      ([['x'], [], ['s', 'a', 'x'], ['u', 'n', 'z']].length + 1)
      (lines_to_stream [['x'], [], ['s', 'a', 'x'], ['u', 'n', 'z']]) =
        some 0 :=
  C10_skipped_only_stream_exits_zero c10_model 1
    [['x'], [], ['s', 'a', 'x'], ['u', 'n', 'z']] (by decide)

/-- The original claim refuted: the line `sunsat` does not start with
`sat`, `unsat` or `#`, yet the checker does not skip it — the failed `sat`
probe falls through to the `unsat` matcher (btorsim.c:1207-1242), which
dies with "'unsat' witnesses not supported yet" and exit code 1. -/
theorem C10_sunsat_counterexample :
    does_not_begin_witness ['s', 'u', 'n', 's', 'a', 't'] ∧
    run_error (check_witness_stream c10_model 1 9 2
        (lines_to_stream [['s', 'u', 'n', 's', 'a', 't']])) =
      some (Failure.die DieMsg.unsat_not_supported) ∧
    btorsim_exit_code c10_model 1 9 2
        (lines_to_stream [['s', 'u', 'n', 's', 'a', 't']]) = some 1 := by
  refine ⟨by decide, by decide, by decide⟩

end Btorsim

namespace Btorsim

/-- Model for the re-assignment check: a one-bit state whose `next`
function is the state itself (`1 sort bitvec 1; 2 state 1; 3 next 1 2 2`). -/
def c2_line_state : Btor2Line :=
  { id := 2, tag := Tag.state, width := 1, nargs := 0, args := [],
    constant := [], lineno := 2 }

def c2_line_next : Btor2Line :=
  { id := 3, tag := Tag.next, width := 1, nargs := 2, args := [2, 2],
    constant := [], lineno := 3 }

def c2_model : Model :=
  { lines := fun i =>
      if i = 2 then some c2_line_state
      else if i = 3 then some c2_line_next else none
    num_format_lines := 4
    inputs := []
    states := [c2_line_state]
    bads := []
    constraints := []
    inits := fun _ => none
    nexts := fun i => if i = 2 then some c2_line_next else none }

/-- A witness that leaves the state free at frame 0 (so it is zero) and
re-states the very value `0` the state adopted at the transition into
frame 1. -/
def c2_input : List Char := "sat\n\n#0\n@0\n#1\n0 0\n".toList

/-- **C2.** Checking the bit-exactly equal constant `0` against the state's
adopted value at frame 1 is rejected: the run stops with the
`assigned twice in frame 1` parse error on the assignment's line (line 6),
although the supplied constant equals the adopted value bit for bit
(`compare = 0`), which the claim says must be accepted.  The guard at
btorsim.c:1003 tests `nexts[state->id]` instead of its negation, so every
frame-`k > 0` assignment to a state with a `next` function dies there and
the equality check at btorsim.c:1022 is unreachable. -/
theorem C2_equal_state_reassignment_rejected :
    run_error (check_witness_stream c2_model 4 64 4 c2_input) =
      some (Failure.parse_error 6 0
        (ErrMsg.state_assigned_twice 0 2 1)) ∧
    btorsim_bv_compare (btorsim_bv_char_to_bv ['0']) (btorsim_bv_new 1) = 0 ∧
    btorsim_exit_code c2_model 4 64 4 c2_input = some 1 := by
  refine ⟨by decide, by decide, by decide⟩

/-- Model for the width check: an eight-bit free state
(`1 sort bitvec 8; 2 state 1`). -/
def c9_line_state : Btor2Line :=
  { id := 2, tag := Tag.state, width := 8, nargs := 0, args := [],
    constant := [], lineno := 2 }

def c9_model : Model :=
  { lines := fun i => if i = 2 then some c9_line_state else none
    num_format_lines := 3
    inputs := []
    states := [c9_line_state]
    bads := []
    constraints := []
    inits := fun _ => none
    nexts := fun _ => none }

/-- A witness assigning the 3-digit constant `111` to the 8-bit state: the
constant's first digit sits at column 3 of line 4. -/
def c9_input : List Char := "sat\n\n#0\n0 111\n".toList

/-- **C9.** The mismatching constant is rejected with the message naming
the expected width 8 on the assignment's line 4, but the reported column is
0, not the constant's first-digit column 3: the fix-up at btorsim.c:1000
writes `charno` while `parse_error` prints `columno`, which the newline of
the assignment line has just reset to 0. -/
theorem C9_width_mismatch_reported_at_column_zero :
    run_error (check_witness_stream c9_model 4 64 4 c9_input) =
      some (Failure.parse_error 4 0
        (ErrMsg.expected_constant_of_width 8)) ∧
    btorsim_exit_code c9_model 4 64 4 c9_input = some 1 := by
  refine ⟨by decide, by decide⟩

end Btorsim
